import Mathlib

/-!
# The clang-tools analysis scheduler

A shallow embedding of `ClangToolRunWorker`
(`src/plugins/clangtools/clangtoolruncontrol.cpp`): the queue of
(unit, runner creator) items, the set of active runners, the two result sets,
the progress object and the operations `start`, `stop`, `analyzeNextFile`,
`onRunnerFinishedWithSuccess`, `onRunnerFinishedWithFailure`, `handleFinished`,
`onProgressCanceled`, `updateProgressValue` and `finalize`.

Conventions of the embedding.

* The worker is a record that is passed through every member function.
* Calls into collaborators that are not part of the worker (`TaskHub`,
  `appendMessage`, `reportFailure`, `QFutureInterface`, `QFile::remove`, the
  runner objects, ...) are recorded, in call order, in the field `log`.
* Values that the worker obtains from collaborators (is the executable a file,
  did `run` return true, what did the build step report, ...) are read from a
  record `Env`.
* A runner object is identified by the serial number of its allocation
  (`nextRunner` counts the allocations): this stands for the pointer returned by
  `new T` in `createRunner<T>`.
* `int` values are `Int`; container sizes are far below the `int` range, so no
  wrap-around is modelled.
-/

namespace ClangTools

/-! ## Data model -/

/-- The unit of analysis, `AnalyzeUnit(file, arguments)`. -/
structure AnalyzeUnit where
  file : String
  arguments : List String
deriving DecidableEq, Repr

abbrev AnalyzeUnits := List AnalyzeUnit

/-- The runner classes `T` for which `createRunner<T>` is instantiated. -/
inductive RunnerClass where
  | ClangTidyRunner
  | ClazyStandaloneRunner
  | ClazyPluginRunner
deriving DecidableEq, Repr

/-- A `RunnerCreator` is one of the closures `[this]() { return createRunner<T>(); }`
built in `runnerCreators`; it is represented by its class `T`. -/
abbrev RunnerCreator := RunnerClass

/-- The queue item `QueueItem{unit, creator}`. -/
structure QueueItem where
  unit : AnalyzeUnit
  runnerCreator : RunnerCreator
deriving DecidableEq, Repr

/-- The tidy mode of `CppTools::ClangDiagnosticConfig`; the worker only compares it
with `Disabled`. -/
inductive TidyMode where
  | Disabled
  | ChecksPrefixList
  | File
deriving DecidableEq, Repr

/-- The parts of `CppTools::ClangDiagnosticConfig` read by the worker. -/
structure ClangDiagnosticConfig where
  clangTidyMode : TidyMode
  clazyChecks : String
  displayName : String
deriving DecidableEq, Repr

/-- The parts of `RunSettings` read by the worker. -/
structure RunSettings where
  parallelJobs : Int
  buildBeforeAnalysis : Bool
deriving DecidableEq, Repr

abbrev Diagnostic := String
abbrev Diagnostics := List Diagnostic

/-- A live `ClangToolRunner` object. `id` is its identity (the pointer), `fileToAnalyze`
is the member set by `run`, and `started` tells whether `run` returned true, that is
whether a process was started that will signal a completion. -/
structure ClangToolRunner where
  id : Nat
  cls : RunnerClass
  fileToAnalyze : String
  started : Bool
deriving DecidableEq, Repr

/-- The state of `QFutureInterface<void> m_progress` that the worker reads back
(`isFinished`), together with the cancel flag. -/
structure QFutureInterface where
  finished : Bool := false
  canceled : Bool := false
deriving DecidableEq, Repr

/-- The texts passed to `appendMessage`, `reportFailure` and `TaskHub::addTask`, one
constructor per `tr(...)` template with its arguments (the constant tool name is left out). -/
inductive Message where
  | configurationChanged
  | runningTool (configName : String)
  | temporaryDirFailed
  | invalidExecutable (runner : RunnerClass) (runnerId : Nat)
  | analyzing (file : String) (runner : RunnerClass)
  | failedToAnalyze (file : String) (errorMessage : String)
  | errorDetails (details : String)
  | finished (analyzed : Nat) (notAnalyzed : Nat)
  | notAllFilesAnalyzed
  | needToBuild
deriving DecidableEq, Repr

inductive OutputFormat where
  | NormalMessageFormat
  | ErrorMessageFormat
  | StdOutFormat
  | StdErrFormat
deriving DecidableEq, Repr

/-- The calls the worker makes into its collaborators. -/
inductive Event where
  | clearTasks
  | saveModifiedFiles
  | reportFailure (msg : Option Message)
  | appendMessage (msg : Message) (format : OutputFormat)
  | addTask (msg : Message)
  | requestPopup
  | progressAddTask
  | setProgressRange (minimum : Int) (maximum : Int)
  | progressReportStarted
  | progressReportFinished
  | progressReportCanceled
  | setProgressValue (value : Int)
  | reportStarted
  | reportStopped
  | initiateStop
  | createRunner (id : Nat) (cls : RunnerClass)
  | run (id : Nat) (file : String) (arguments : List String)
  | disconnectRunner (id : Nat)
  | deleteRunner (id : Nat)
  | deleteLater (id : Nat)
  | read (id : Nat) (filePath : String)
  | removeOutputFile (id : Nat)
  | onNewDiagnosticsAvailable (diagnostics : Diagnostics)
deriving DecidableEq, Repr

/-- What the worker reads from its collaborators. -/
structure Env where
  /-- The value of `m_projectBuilder->success()` when `start` runs. -/
  projectBuilderSuccess : Bool
  /-- The value of `m_projectInfo.configurationOrFilesChanged(m_projectInfoBeforeBuild)`. -/
  configurationOrFilesChanged : Bool
  /-- The value of `m_temporaryDir.isValid()`. -/
  temporaryDirValid : Bool
  /-- The value of `project->files(Project::AllFiles)`. -/
  projectFiles : Finset String
  /-- The value of `qEnvironmentVariable("QTC_USE_CLAZY_STANDALONE_PATH")`. -/
  clazyStandalonePath : String
  /-- The value of `isFileExecutable(runner->executable())` for the runner with the given identity. -/
  isFileExecutable : Nat → Bool
  /-- The value returned by `runner->run(unit.file, unit.arguments)` for the runner with the
  given identity. -/
  run : Nat → Bool
  /-- Whether `runControl()->target()` is non-null in `finalize`. -/
  hasTarget : Bool
  /-- The value of `target->activeBuildConfiguration()->buildDirectory().exists()`. -/
  buildDirectoryExists : Bool

/-- The members of `ClangToolRunWorker`, the allocation counter and the call log. -/
structure ClangToolRunWorker where
  m_runSettings : RunSettings
  m_diagnosticConfig : ClangDiagnosticConfig
  m_projectBuilder : Bool
  m_projectFiles : Finset String
  m_queue : List QueueItem
  m_runners : List ClangToolRunner
  m_initialQueueSize : Int
  m_filesAnalyzed : Finset String
  m_filesNotAnalyzed : Finset String
  m_success : Bool
  m_progress : QFutureInterface
  nextRunner : Nat
  log : List Event

/-- The operation `QSet::insert` on the list that represents `m_runners`. -/
def QSet.insert {α : Type} [DecidableEq α] (a : α) (l : List α) : List α :=
  if a ∈ l then l else l ++ [a]

/-- The operation `QSet::remove` on the list that represents `m_runners`. -/
def QSet.remove {α : Type} [DecidableEq α] (a : α) (l : List α) : List α :=
  l.erase a

/-- The runner name, `runner->name()`, is left symbolic: it is the class. -/
def ClangToolRunner.name (r : ClangToolRunner) : RunnerClass := r.cls

namespace ClangToolRunWorker

/-! ## Operations -/

/-- Record one call into a collaborator. -/
def emit (s : ClangToolRunWorker) (e : Event) : ClangToolRunWorker :=
  { s with log := s.log ++ [e] }

/-- The constructor `ClangToolRunWorker::ClangToolRunWorker`: a project builder is added
exactly when `!preventBuild && runSettings.buildBeforeAnalysis()`. -/
def create (runSettings : RunSettings) (diagnosticConfig : ClangDiagnosticConfig)
    (preventBuild : Bool) : ClangToolRunWorker :=
  { m_runSettings := runSettings
    m_diagnosticConfig := diagnosticConfig
    m_projectBuilder := !preventBuild && runSettings.buildBeforeAnalysis
    m_projectFiles := ∅
    m_queue := []
    m_runners := []
    m_initialQueueSize := 0
    m_filesAnalyzed := ∅
    m_filesNotAnalyzed := ∅
    m_success := false
    m_progress := {}
    nextRunner := 0
    log := [] }

/-- The member `ClangToolRunWorker::runnerCreators`. -/
def runnerCreators (env : Env) (s : ClangToolRunWorker) : List RunnerCreator :=
  let creators : List RunnerCreator := []
  let creators :=
    if s.m_diagnosticConfig.clangTidyMode ≠ TidyMode.Disabled then
      creators ++ [RunnerClass.ClangTidyRunner]
    else creators
  let creators :=
    if s.m_diagnosticConfig.clazyChecks ≠ "" then
      if env.clazyStandalonePath ≠ "" then
        creators ++ [RunnerClass.ClazyStandaloneRunner]
      else
        creators ++ [RunnerClass.ClazyPluginRunner]
    else creators
  creators

/-- The two nested loops of `start` that fill `m_queue` after `m_queue.clear()`:
for each unit, for each creator of `runnerCreators()`, `m_queue << QueueItem{unit, creator}`. -/
def buildQueue (env : Env) (s : ClangToolRunWorker) (unitsToProcess : AnalyzeUnits) :
    List QueueItem :=
  unitsToProcess.foldl
    (fun queue unit =>
      (runnerCreators env s).foldl (fun queue creator => queue ++ [QueueItem.mk unit creator]) queue)
    []

/-- The call `m_progress.reportFinished()`. -/
def progressReportFinished (s : ClangToolRunWorker) : ClangToolRunWorker :=
  ({ s with m_progress := { s.m_progress with finished := true } }).emit
    Event.progressReportFinished

/-- The member `ClangToolRunWorker::finalize`. -/
def finalize (env : Env) (s : ClangToolRunWorker) : ClangToolRunWorker :=
  let s := s.emit (Event.appendMessage
    (Message.finished s.m_filesAnalyzed.card s.m_filesNotAnalyzed.card)
    OutputFormat.NormalMessageFormat)
  let s :=
    if s.m_filesNotAnalyzed.card ≠ 0 then
      let s := s.emit (Event.addTask Message.notAllFilesAnalyzed)
      let s :=
        if env.hasTarget && !env.buildDirectoryExists && !s.m_runSettings.buildBeforeAnalysis then
          s.emit (Event.addTask Message.needToBuild)
        else s
      s.emit Event.requestPopup
    else s
  (progressReportFinished s).emit Event.initiateStop

/-- The member `ClangToolRunWorker::stop`. -/
def stop (s : ClangToolRunWorker) : ClangToolRunWorker :=
  let s := s.m_runners.foldl
    (fun s runner => (s.emit (Event.disconnectRunner runner.id)).emit (Event.deleteRunner runner.id))
    s
  let s := { s with m_projectFiles := ∅, m_runners := [], m_queue := [] }
  (progressReportFinished s).emit Event.reportStopped

/-- The template `ClangToolRunWorker::createRunner<T>`: allocates a runner of class `cls`
and connects its two completion signals. -/
def createRunner (cls : RunnerClass) (s : ClangToolRunWorker) :
    ClangToolRunner × ClangToolRunWorker :=
  let runner : ClangToolRunner :=
    { id := s.nextRunner, cls := cls, fileToAnalyze := "", started := false }
  (runner, ({ s with nextRunner := s.nextRunner + 1 }).emit (Event.createRunner runner.id cls))

/-- The member `ClangToolRunWorker::analyzeNextFile`. The runner object is mutated by
`run` after its pointer was put into `m_runners`; the record is put into the list with
the members `run` has set. -/
def analyzeNextFile (env : Env) (s : ClangToolRunWorker) : ClangToolRunWorker :=
  if s.m_progress.finished then s
  else
    match s.m_queue with
    | [] => if s.m_runners.isEmpty then finalize env s else s
    | queueItem :: rest =>
      let s := { s with m_queue := rest }
      let unit := queueItem.unit
      let (runner, s) := createRunner queueItem.runnerCreator s
      if !env.isFileExecutable runner.id then
        let s := { s with m_runners := QSet.insert runner s.m_runners }
        let errorMessage := Message.invalidExecutable runner.name runner.id
        let s := s.emit (Event.addTask errorMessage)
        let s := s.emit Event.requestPopup
        let s := s.emit (Event.reportFailure (some errorMessage))
        stop s
      else
        let ok := env.run runner.id
        let runner := { runner with fileToAnalyze := unit.file, started := ok }
        let s := { s with m_runners := QSet.insert runner s.m_runners }
        let s := s.emit (Event.run runner.id unit.file unit.arguments)
        if !ok then s
        else s.emit (Event.appendMessage (Message.analyzing unit.file runner.name)
          OutputFormat.StdOutFormat)

/-- The member `ClangToolRunWorker::updateProgressValue`. -/
def updateProgressValue (s : ClangToolRunWorker) : ClangToolRunWorker :=
  s.emit (Event.setProgressValue (s.m_initialQueueSize - s.m_queue.length))

/-- The member `ClangToolRunWorker::handleFinished`; `sender` is the runner whose signal
is being handled. -/
def handleFinished (env : Env) (sender : ClangToolRunner) (s : ClangToolRunWorker) :
    ClangToolRunWorker :=
  let s := { s with m_runners := QSet.remove sender s.m_runners }
  let s := updateProgressValue s
  let s := s.emit (Event.deleteLater sender.id)
  analyzeNextFile env s

/-- The member `ClangToolRunWorker::onRunnerFinishedWithSuccess`; `diagnostics` and
`errorMessage` are what `tool()->read` returns. -/
def onRunnerFinishedWithSuccess (env : Env) (sender : ClangToolRunner) (filePath : String)
    (diagnostics : Diagnostics) (errorMessage : String) (s : ClangToolRunWorker) :
    ClangToolRunWorker :=
  let s := s.emit (Event.read sender.id filePath)
  let s := s.emit (Event.removeOutputFile sender.id)
  let s :=
    if errorMessage ≠ "" then
      let s := { s with
        m_filesAnalyzed := s.m_filesAnalyzed.erase filePath
        m_filesNotAnalyzed := insert filePath s.m_filesNotAnalyzed }
      let filePath := sender.fileToAnalyze
      s.emit (Event.appendMessage (Message.failedToAnalyze filePath errorMessage)
        OutputFormat.StdErrFormat)
    else
      let s :=
        if filePath ∉ s.m_filesNotAnalyzed then
          { s with m_filesAnalyzed := insert filePath s.m_filesAnalyzed }
        else s
      if diagnostics ≠ [] then s.emit (Event.onNewDiagnosticsAvailable diagnostics) else s
  handleFinished env sender s

/-- The member `ClangToolRunWorker::onRunnerFinishedWithFailure`. -/
def onRunnerFinishedWithFailure (env : Env) (sender : ClangToolRunner) (errorMessage : String)
    (errorDetails : String) (s : ClangToolRunWorker) : ClangToolRunWorker :=
  let fileToAnalyze := sender.fileToAnalyze
  let s := s.emit (Event.removeOutputFile sender.id)
  let s := { s with
    m_filesAnalyzed := s.m_filesAnalyzed.erase fileToAnalyze
    m_filesNotAnalyzed := insert fileToAnalyze s.m_filesNotAnalyzed
    m_success := false }
  let message := Message.failedToAnalyze fileToAnalyze errorMessage
  let s := s.emit (Event.appendMessage message OutputFormat.StdErrFormat)
  let s := s.emit (Event.appendMessage (Message.errorDetails errorDetails) OutputFormat.StdErrFormat)
  let s := s.emit (Event.addTask message)
  handleFinished env sender s

/-- The member `ClangToolRunWorker::onProgressCanceled`. -/
def onProgressCanceled (s : ClangToolRunWorker) : ClangToolRunWorker :=
  let s := ({ s with m_progress := { s.m_progress with canceled := true } }).emit
    Event.progressReportCanceled
  s.emit Event.initiateStop

/-- The loop `while (m_runners.size() < parallelRuns && !m_queue.isEmpty()) analyzeNextFile();`
of `start`, with a bound `fuel` on the number of iterations: `none` when the bound is
reached while the loop condition still holds. -/
def startLoop (env : Env) (parallelRuns : Int) : Nat → ClangToolRunWorker →
    Option ClangToolRunWorker
  | 0, s =>
    if (s.m_runners.length : Int) < parallelRuns ∧ s.m_queue ≠ [] then none else some s
  | fuel + 1, s =>
    if (s.m_runners.length : Int) < parallelRuns ∧ s.m_queue ≠ [] then
      startLoop env parallelRuns fuel (analyzeNextFile env s)
    else some s

/-- The member `ClangToolRunWorker::start`; `unitsToProcess` is the value of
`unitsToAnalyze()`. -/
def start (fuel : Nat) (env : Env) (unitsToProcess : AnalyzeUnits) (s : ClangToolRunWorker) :
    Option ClangToolRunWorker :=
  let s := s.emit Event.clearTasks
  let s := s.emit Event.saveModifiedFiles
  if s.m_projectBuilder && !env.projectBuilderSuccess then
    some (s.emit (Event.reportFailure none))
  else
    let s := { s with m_projectFiles := env.projectFiles }
    if env.configurationOrFilesChanged then
      some (s.emit (Event.reportFailure (some Message.configurationChanged)))
    else
      let s := s.emit (Event.appendMessage (Message.runningTool s.m_diagnosticConfig.displayName)
        OutputFormat.NormalMessageFormat)
      if !env.temporaryDirValid then
        let errorMessage := Message.temporaryDirFailed
        let s := s.emit (Event.appendMessage errorMessage OutputFormat.ErrorMessageFormat)
        let s := s.emit (Event.addTask errorMessage)
        let s := s.emit Event.requestPopup
        some (s.emit (Event.reportFailure (some errorMessage)))
      else
        let queue := buildQueue env s unitsToProcess
        let s := { s with
          m_queue := queue
          m_initialQueueSize := queue.length
          m_filesAnalyzed := ∅
          m_filesNotAnalyzed := ∅
          m_progress := {} }
        let s := s.emit Event.progressAddTask
        let s := s.emit (Event.setProgressRange 0 s.m_initialQueueSize)
        let s := s.emit Event.progressReportStarted
        let s := { s with m_runners := [] }
        let parallelRuns := s.m_runSettings.parallelJobs
        if ¬ (parallelRuns ≥ 1) then
          some (s.emit (Event.reportFailure none))
        else
          let s := { s with m_success := true }
          if s.m_queue.isEmpty then
            some (finalize env s)
          else
            let s := s.emit Event.reportStarted
            startLoop env parallelRuns fuel s

/-! ## Executions of one batch -/

/-- What can happen to a worker after `start`: a runner signals `finishedWithSuccess`
(with the result of reading its output) or `finishedWithFailure`, the run control calls
`stop`, or the progress bar signals `canceled`. -/
inductive Op where
  | finishedWithSuccess (runner : Nat) (diagnostics : Diagnostics) (errorMessage : String)
  | finishedWithFailure (runner : Nat) (errorMessage : String) (errorDetails : String)
  | stop
  | progressCanceled
deriving DecidableEq, Repr

/-- The runner of `m_runners` with identity `id` whose process was started: the only
runners that can signal a completion. -/
def activeRunner (s : ClangToolRunWorker) (id : Nat) : Option ClangToolRunner :=
  s.m_runners.find? (fun r => r.id == id && r.started)

/-- One operation on the worker: the slot connected to the signal is run. A completion is
possible only for a started runner of `m_runners`; `finishedWithSuccess` carries the
runner's `m_fileToAnalyze`. -/
def step (env : Env) (s : ClangToolRunWorker) : Op → Option ClangToolRunWorker
  | Op.finishedWithSuccess id diagnostics errorMessage =>
    (activeRunner s id).map fun sender =>
      onRunnerFinishedWithSuccess env sender sender.fileToAnalyze diagnostics errorMessage s
  | Op.finishedWithFailure id errorMessage errorDetails =>
    (activeRunner s id).map fun sender =>
      onRunnerFinishedWithFailure env sender errorMessage errorDetails s
  | Op.stop => some (stop s)
  | Op.progressCanceled => some (onProgressCanceled s)

/-- A sequence of operations, run from left to right. -/
def runOps (env : Env) (s : ClangToolRunWorker) : List Op → Option ClangToolRunWorker
  | [] => some s
  | op :: ops => (step env s op).bind fun s => runOps env s ops

/-- The states of one batch: the state `start` returns on the worker `w0`, and every state
reached from it by an operation. -/
inductive Reachable (env : Env) (units : AnalyzeUnits) (w0 : ClangToolRunWorker) :
    ClangToolRunWorker → Prop where
  | start (fuel : Nat) (s : ClangToolRunWorker) (h : ClangToolRunWorker.start fuel env units w0 = some s) :
    Reachable env units w0 s
  | step (s : ClangToolRunWorker) (op : Op) (t : ClangToolRunWorker) (hs : Reachable env units w0 s)
    (h : ClangToolRunWorker.step env s op = some t) : Reachable env units w0 t

/-- Is the event the summary message that `finalize` (and nothing else) emits. -/
def isFinalizeSummary : Event → Bool
  | Event.appendMessage (Message.finished _ _) _ => true
  | _ => false

/-- The number of executions of `finalize` recorded in the log. -/
def finalizeCount (s : ClangToolRunWorker) : Nat :=
  s.log.countP isFinalizeSummary

/-! ## Auxiliary definitions used to state the results -/

/-- The events `stop` emits for the runners it disconnects and deletes. -/
def stopEvents (l : List ClangToolRunner) : List Event :=
  l.flatMap (fun r => [Event.disconnectRunner r.id, Event.deleteRunner r.id])

/-- The events `finalize` emits. -/
def finalizeEvents (env : Env) (s : ClangToolRunWorker) : List Event :=
  [Event.appendMessage (Message.finished s.m_filesAnalyzed.card s.m_filesNotAnalyzed.card)
    OutputFormat.NormalMessageFormat]
  ++ (if s.m_filesNotAnalyzed.card ≠ 0 then
        [Event.addTask Message.notAllFilesAnalyzed]
        ++ (if env.hasTarget && !env.buildDirectoryExists && !s.m_runSettings.buildBeforeAnalysis
            then [Event.addTask Message.needToBuild] else [])
        ++ [Event.requestPopup]
      else [])
  ++ [Event.progressReportFinished, Event.initiateStop]

/-- Does `start` get past its three early exits (a failed project build, a changed project
configuration, an invalid temporary directory) and build the queue. -/
def startsAnalysis (env : Env) (s : ClangToolRunWorker) : Bool :=
  !(s.m_projectBuilder && !env.projectBuilderSuccess) && !env.configurationOrFilesChanged
    && env.temporaryDirValid

/-- The state of `start` at the check `parallelRuns >= 1`, when it gets there. -/
def startPrepared (env : Env) (units : AnalyzeUnits) (s : ClangToolRunWorker) :
    ClangToolRunWorker :=
  { s with
    m_projectFiles := env.projectFiles
    m_queue := buildQueue env s units
    m_initialQueueSize := (buildQueue env s units).length
    m_filesAnalyzed := ∅
    m_filesNotAnalyzed := ∅
    m_progress := {}
    m_runners := []
    log := (s.log ++ [Event.clearTasks, Event.saveModifiedFiles,
      Event.appendMessage (Message.runningTool s.m_diagnosticConfig.displayName)
        OutputFormat.NormalMessageFormat,
      Event.progressAddTask, Event.setProgressRange 0 (buildQueue env s units).length,
      Event.progressReportStarted]) }

/-- The events of the early exits of `start`. -/
def isPreambleEvent : Event → Bool
  | Event.clearTasks => true
  | Event.saveModifiedFiles => true
  | Event.reportFailure _ => true
  | Event.appendMessage (Message.runningTool _) _ => true
  | Event.appendMessage Message.temporaryDirFailed _ => true
  | Event.addTask Message.temporaryDirFailed => true
  | Event.requestPopup => true
  | _ => false

/-- The state in which `analyzeNextFile` has taken `item` from the queue, created its
runner and put it into `m_runners`; `events` are the calls made after the creation. -/
def dispatched (item : QueueItem) (rest : List QueueItem) (runner : ClangToolRunner)
    (events : List Event) (s : ClangToolRunWorker) : ClangToolRunWorker :=
  { s with
    m_queue := rest
    nextRunner := s.nextRunner + 1
    m_runners := QSet.insert runner s.m_runners
    log := (s.log ++ [Event.createRunner s.nextRunner item.runnerCreator] ++ events) }

/-- The state before `stop` in the branch of `analyzeNextFile` for an invalid executable. -/
def rejected (item : QueueItem) (rest : List QueueItem) (s : ClangToolRunWorker) :
    ClangToolRunWorker :=
  dispatched item rest
    { id := s.nextRunner, cls := item.runnerCreator, fileToAnalyze := "", started := false }
    [Event.addTask (Message.invalidExecutable item.runnerCreator s.nextRunner),
      Event.requestPopup,
      Event.reportFailure (some (Message.invalidExecutable item.runnerCreator s.nextRunner))]
    s

/-- The result of `analyzeNextFile` in the branch that calls `run`. -/
def launched (env : Env) (item : QueueItem) (rest : List QueueItem) (s : ClangToolRunWorker) :
    ClangToolRunWorker :=
  dispatched item rest
    { id := s.nextRunner, cls := item.runnerCreator, fileToAnalyze := item.unit.file,
      started := env.run s.nextRunner }
    ([Event.run s.nextRunner item.unit.file item.unit.arguments]
      ++ (if env.run s.nextRunner then
            [Event.appendMessage (Message.analyzing item.unit.file item.runnerCreator)
              OutputFormat.StdOutFormat]
          else []))
    s

/-- The state of `onRunnerFinishedWithSuccess` when `handleFinished` reaches its call of
`analyzeNextFile`. -/
def successRecorded (sender : ClangToolRunner) (filePath : String) (diagnostics : Diagnostics)
    (errorMessage : String) (s : ClangToolRunWorker) : ClangToolRunWorker :=
  { s with
    m_filesAnalyzed :=
      (if errorMessage ≠ "" then s.m_filesAnalyzed.erase filePath
       else if filePath ∉ s.m_filesNotAnalyzed then insert filePath s.m_filesAnalyzed
       else s.m_filesAnalyzed)
    m_filesNotAnalyzed :=
      (if errorMessage ≠ "" then insert filePath s.m_filesNotAnalyzed else s.m_filesNotAnalyzed)
    m_runners := QSet.remove sender s.m_runners
    log := (s.log ++ [Event.read sender.id filePath, Event.removeOutputFile sender.id]
      ++ (if errorMessage ≠ "" then
            [Event.appendMessage (Message.failedToAnalyze sender.fileToAnalyze errorMessage)
              OutputFormat.StdErrFormat]
          else if diagnostics ≠ [] then [Event.onNewDiagnosticsAvailable diagnostics]
          else [])
      ++ [Event.setProgressValue (s.m_initialQueueSize - s.m_queue.length),
          Event.deleteLater sender.id]) }

/-- The state of `onRunnerFinishedWithFailure` when `handleFinished` reaches its call of
`analyzeNextFile`. -/
def failureRecorded (sender : ClangToolRunner) (errorMessage : String) (errorDetails : String)
    (s : ClangToolRunWorker) : ClangToolRunWorker :=
  { s with
    m_filesAnalyzed := s.m_filesAnalyzed.erase sender.fileToAnalyze
    m_filesNotAnalyzed := insert sender.fileToAnalyze s.m_filesNotAnalyzed
    m_success := false
    m_runners := QSet.remove sender s.m_runners
    log := (s.log ++ [Event.removeOutputFile sender.id,
      Event.appendMessage (Message.failedToAnalyze sender.fileToAnalyze errorMessage)
        OutputFormat.StdErrFormat,
      Event.appendMessage (Message.errorDetails errorDetails) OutputFormat.StdErrFormat,
      Event.addTask (Message.failedToAnalyze sender.fileToAnalyze errorMessage),
      Event.setProgressValue (s.m_initialQueueSize - s.m_queue.length),
      Event.deleteLater sender.id]) }

/-- The invariant behind the single execution of `finalize`: it has run at most once, and
once it has run the progress is finished and no runner is left. -/
def FinalizeOnce (s : ClangToolRunWorker) : Prop :=
  finalizeCount s ≤ 1 ∧
    (finalizeCount s = 1 → s.m_progress.finished = true ∧ s.m_runners = [])

/-- No file path is a member of both result sets. -/
def FilesDisjoint (s : ClangToolRunWorker) : Prop :=
  ∀ f : String, ¬ (f ∈ s.m_filesAnalyzed ∧ f ∈ s.m_filesNotAnalyzed)

/-- The queue as the specification words it: the cross product of the units with the
applicable factories, unit-major and factory-minor. -/
def crossProductQueue (units : AnalyzeUnits) (factories : List RunnerCreator) :
    List QueueItem :=
  units.flatMap (fun unit => factories.map (fun factory => QueueItem.mk unit factory))

/-- The runner classes of the runners created so far, in creation order: one entry per
call of a queue item's `runnerCreator` recorded in the log. -/
def createdClasses (log : List Event) : List RunnerClass :=
  log.filterMap fun e =>
    match e with
    | Event.createRunner _ cls => some cls
    | _ => none

/-- The units passed to `run` so far, in call order. -/
def runUnits (log : List Event) : List AnalyzeUnit :=
  log.filterMap fun e =>
    match e with
    | Event.run _ file arguments => some (AnalyzeUnit.mk file arguments)
    | _ => none

/-- The invariant behind the dispatch order, for the initial queue `queue`: the runners
created so far are those of the first `nextRunner` items, and either the queue holds the other
items and `run` was called on the units of the first `nextRunner` items, or the queue is
empty and the units `run` was called on are the first units of `queue`. -/
def Fifo (queue : List QueueItem) (s : ClangToolRunWorker) : Prop :=
  s.nextRunner ≤ queue.length ∧
  createdClasses s.log = (queue.take s.nextRunner).map (fun item => item.runnerCreator) ∧
  ((s.m_queue = queue.drop s.nextRunner ∧
      runUnits s.log = (queue.take s.nextRunner).map (fun item => item.unit)) ∨
    (s.m_queue = [] ∧ runUnits s.log <+: queue.map (fun item => item.unit)))

/-- A state in which no runner was ever created: `m_runners` is empty, no runner was
allocated and the log has no `createRunner` and no `run`. -/
def NoRunnerEver (s : ClangToolRunWorker) : Prop :=
  s.m_runners = [] ∧ s.nextRunner = 0 ∧ createdClasses s.log = [] ∧ runUnits s.log = []

/-- The state of a batch with initial queue `queue` in which every dispatch so far found a
valid executable and a `run` that returned true, and `stop` was not called: the queue holds
the items from position `nextRunner` on, every runner of `m_runners` is started and was
created for the queue item at the position of its identity, when progress is finished
the queue and `m_runners` are empty, and the runners created and the units `run` was called
on are those of the first `nextRunner` items. -/
def Normal (queue : List QueueItem) (s : ClangToolRunWorker) : Prop :=
  s.nextRunner ≤ queue.length ∧
  s.m_queue = queue.drop s.nextRunner ∧
  s.m_initialQueueSize = queue.length ∧
  (∀ r ∈ s.m_runners, r.id < s.nextRunner ∧ r.started = true ∧
    ∃ item, queue[r.id]? = some item ∧ r.fileToAnalyze = item.unit.file ∧
      r.cls = item.runnerCreator) ∧
  (s.m_progress.finished = true → s.m_queue = [] ∧ s.m_runners = []) ∧
  createdClasses s.log = (queue.take s.nextRunner).map (fun item => item.runnerCreator) ∧
  runUnits s.log = (queue.take s.nextRunner).map (fun item => item.unit)

/-- The states of the fill loop of `start` when no dispatch fails: a `Normal` state with
unfinished progress whose runners are the runners `0, ..., nextRunner - 1`, at most
`parallelRuns` many. -/
def Filling (queue : List QueueItem) (parallelRuns : Int) (s : ClangToolRunWorker) : Prop :=
  Normal queue s ∧ s.m_progress.finished = false ∧
    s.m_runners.map (fun r => r.id) = List.range s.nextRunner ∧
    (s.m_runners.length : Int) ≤ parallelRuns

/-- The identity of the runner whose completion the operation is. -/
def Op.runner : Op → Option Nat
  | Op.finishedWithSuccess id _ _ => some id
  | Op.finishedWithFailure id _ _ => some id
  | _ => none

/-- Is the operation the completion of a runner. -/
def Op.isCompletion (op : Op) : Bool := op.runner.isSome

/-- Did the tool run end in a failure or in an output that could not be read. -/
def Op.failed : Op → Bool
  | Op.finishedWithSuccess _ _ errorMessage => decide (errorMessage ≠ "")
  | Op.finishedWithFailure _ _ _ => true
  | _ => false

/-- The file of the queue item at position `i`: the file of the `i`-th tool run. -/
def fileOf (queue : List QueueItem) (i : Nat) : Option String :=
  (queue[i]?).map (fun item => item.unit.file)

/-- Some tool run on `f` among the completions `done` ended in a failure or an unreadable
output. -/
def failedFile (queue : List QueueItem) (done : List Op) (f : String) : Prop :=
  ∃ op ∈ done, op.failed = true ∧ ∃ i, op.runner = some i ∧ fileOf queue i = some f

/-- Some tool run on `f` among the completions `done` ended with a readable output. -/
def passedFile (queue : List QueueItem) (done : List Op) (f : String) : Prop :=
  ∃ op ∈ done, op.failed = false ∧ ∃ i, op.runner = some i ∧ fileOf queue i = some f

/-- The result sets after the completions `done`: a file is in `m_filesNotAnalyzed` exactly
when one of its completed runs failed, it is in `m_filesAnalyzed` exactly when one of its
completed runs passed and none failed, and every runner created so far either has completed
or is in `m_runners`. -/
def Results (queue : List QueueItem) (done : List Op) (s : ClangToolRunWorker) : Prop :=
  (∀ f, f ∈ s.m_filesNotAnalyzed ↔ failedFile queue done f) ∧
  (∀ f, f ∈ s.m_filesAnalyzed ↔ passedFile queue done f ∧ ¬ failedFile queue done f) ∧
  (∀ i, i < s.nextRunner → (∃ op ∈ done, op.runner = some i) ∨ ∃ r ∈ s.m_runners, r.id = i)

/-- Once `finalize` has run, the log holds its summary with the sizes of the two result
sets of the state. -/
def SummaryLogged (s : ClangToolRunWorker) : Prop :=
  FinalizeOnce s ∧
    (finalizeCount s = 1 →
      Event.appendMessage (Message.finished s.m_filesAnalyzed.card s.m_filesNotAnalyzed.card)
        OutputFormat.NormalMessageFormat ∈ s.log)

/-! ## Concrete batches -/

/-- An environment in which `start` gets past its early exits, every executable is valid
and every `run` returns true. -/
def scenarioEnv : Env :=
  { projectBuilderSuccess := true
    configurationOrFilesChanged := false
    temporaryDirValid := true
    projectFiles := ∅
    clazyStandalonePath := ""
    isFileExecutable := fun _ => true
    run := fun _ => true
    hasTarget := true
    buildDirectoryExists := true }

/-- The same environment with an invalid executable for every runner. -/
def scenarioEnvInvalid : Env := { scenarioEnv with isFileExecutable := fun _ => false }

/-- Three files. -/
def scenarioUnits : AnalyzeUnits :=
  [AnalyzeUnit.mk "a.cpp" ["-c"], AnalyzeUnit.mk "b.cpp" ["-c"], AnalyzeUnit.mk "c.cpp" ["-c"]]

/-- A configuration that selects clang-tidy only. -/
def oneTool : ClangDiagnosticConfig :=
  { clangTidyMode := TidyMode.ChecksPrefixList, clazyChecks := "", displayName := "tidy" }

/-- A configuration that selects clang-tidy and clazy. -/
def twoTools : ClangDiagnosticConfig :=
  { clangTidyMode := TidyMode.ChecksPrefixList, clazyChecks := "level1",
    displayName := "tidy and clazy" }

/-- The new worker of a scenario with `parallelJobs = b`. -/
def scenarioWorker (dc : ClangDiagnosticConfig) (b : Int) : ClangToolRunWorker :=
  create (RunSettings.mk b false) dc false

/-- The state `start` returns in a scenario (with fuel 4). -/
def scenarioStarted (env : Env) (dc : ClangDiagnosticConfig) (b : Int) (units : AnalyzeUnits) :
    ClangToolRunWorker :=
  (start 4 env units (scenarioWorker dc b)).getD (scenarioWorker dc b)

/-- The state of a scenario after `start` and the operations `ops`. -/
def scenarioAfter (env : Env) (dc : ClangDiagnosticConfig) (b : Int) (units : AnalyzeUnits)
    (ops : List Op) : ClangToolRunWorker :=
  (runOps env (scenarioStarted env dc b units) ops).getD (scenarioStarted env dc b units)

/-- The completions of a batch of three files and two tools in which the clazy run on
`a.cpp` fails and the other five runs succeed. -/
def scenarioCompletions : List Op :=
  [Op.finishedWithFailure 1 "crashed" "", Op.finishedWithSuccess 0 [] "",
    Op.finishedWithSuccess 2 [] "", Op.finishedWithSuccess 3 ["warning"] "",
    Op.finishedWithSuccess 4 [] "", Op.finishedWithSuccess 5 [] ""]

/-- Is the event a call of `reportFailure`. -/
def isReportFailure : Event → Bool
  | Event.reportFailure _ => true
  | _ => false

/-- The number of calls of `reportFailure` recorded in the log. -/
def failureReports (s : ClangToolRunWorker) : Nat :=
  s.log.countP isReportFailure

/-- Is the event the call of `reportStopped`, the last call of `stop` (and of nothing else). -/
def isReportStopped : Event → Bool
  | Event.reportStopped => true
  | _ => false

/-- The number of executions of `stop` recorded in the log. -/
def stopCount (s : ClangToolRunWorker) : Nat :=
  s.log.countP isReportStopped

/-- The values passed to `m_progress.setProgressValue` so far, in call order. -/
def progressValues (log : List Event) : List Int :=
  log.filterMap fun e =>
    match e with
    | Event.setProgressValue value => some value
    | _ => none

/-- The diagnostics passed to `tool()->onNewDiagnosticsAvailable` so far, in call order. -/
def diagnosticsForwarded (log : List Event) : List Diagnostics :=
  log.filterMap fun e =>
    match e with
    | Event.onNewDiagnosticsAvailable diagnostics => some diagnostics
    | _ => none

/-- The state `t` differs from `s` only by executions of `stop` and of `onProgressCanceled`
on a worker without runners: nothing was dispatched, recorded, reported as failed or
finalized in between. -/
def Quiet (s t : ClangToolRunWorker) : Prop :=
  t.m_runners = [] ∧ t.nextRunner = s.nextRunner ∧
  t.m_filesAnalyzed = s.m_filesAnalyzed ∧ t.m_filesNotAnalyzed = s.m_filesNotAnalyzed ∧
  t.m_success = s.m_success ∧
  createdClasses t.log = createdClasses s.log ∧ runUnits t.log = runUnits s.log ∧
  finalizeCount t = finalizeCount s ∧ failureReports t = failureReports s ∧
  progressValues t.log = progressValues s.log

/-- The state of `start` when it enters its fill loop. -/
def startReported (env : Env) (units : AnalyzeUnits) (s : ClangToolRunWorker) :
    ClangToolRunWorker :=
  ({ startPrepared env units s with m_success := true }).emit Event.reportStarted

/-- The progress value last reported, 0 when none was reported since
`setProgressRange(0, m_initialQueueSize)`. -/
def progressValue (s : ClangToolRunWorker) : Int :=
  (progressValues s.log).getLastD 0

/-- The invariant behind the bounds of the progress values: the queue is not longer than
`m_initialQueueSize`, every reported value lies between 0 and
`m_initialQueueSize - m_queue.size()`, and the reported values are non-decreasing. -/
def ProgressBounded (s : ClangToolRunWorker) : Prop :=
  (s.m_queue.length : Int) ≤ s.m_initialQueueSize ∧
  (∀ v ∈ progressValues s.log, 0 ≤ v ∧ v ≤ s.m_initialQueueSize - s.m_queue.length) ∧
  (progressValues s.log).Pairwise (fun a b => a ≤ b)

/-- Seven files. -/
def sevenUnits : AnalyzeUnits :=
  [AnalyzeUnit.mk "a.cpp" [], AnalyzeUnit.mk "b.cpp" [], AnalyzeUnit.mk "c.cpp" [],
    AnalyzeUnit.mk "d.cpp" [], AnalyzeUnit.mk "e.cpp" [], AnalyzeUnit.mk "f.cpp" [],
    AnalyzeUnit.mk "g.cpp" []]

/-- An environment in which `run` returns false for the first runner and true for the
others. -/
def scenarioEnvRunFails : Env := { scenarioEnv with run := fun i => i != 0 }

/-- The identities of the runners whose output file was deleted with `QFile::remove` so
far, in call order. -/
def removedOutputs (log : List Event) : List Nat :=
  log.filterMap fun e =>
    match e with
    | Event.removeOutputFile id => some id
    | _ => none

/-- The list `runnerCreators` as the specification words it: the clang-tidy factory when
the tidy mode is not `Disabled`, followed by one clazy factory when the clazy checks are
non-empty, the standalone one when the path variable is set and the plugin one otherwise. -/
def applicableFactories (dc : ClangDiagnosticConfig) (clazyStandalonePath : String) :
    List RunnerCreator :=
  (if dc.clangTidyMode ≠ TidyMode.Disabled then [RunnerClass.ClangTidyRunner] else [])
  ++ (if dc.clazyChecks ≠ "" then
        [if clazyStandalonePath ≠ "" then RunnerClass.ClazyStandaloneRunner
         else RunnerClass.ClazyPluginRunner]
      else [])

/-- The balance of a batch after `done` completions were handled: the identities of the
runners of `m_runners` are below `nextRunner`, and the completions handled, the runners of
`m_runners` and the items of `m_queue` add up to `m_initialQueueSize`. -/
def Conserved (done : Nat) (s : ClangToolRunWorker) : Prop :=
  (∀ r ∈ s.m_runners, r.id < s.nextRunner) ∧
    (done : Int) + s.m_runners.length + s.m_queue.length = s.m_initialQueueSize

/-- The invariant of a batch that holds the runner `r0` whose process was not started,
where `c` executions of `finalize` and `k` of `stop` were recorded when `r0` was
dispatched: `finalize` has not run since, `r0` is in `m_runners` unless `stop` has run
since (and then progress is finished), and no started runner has the identity of `r0`. -/
def Stuck (r0 : ClangToolRunner) (c k : Nat) (u : ClangToolRunWorker) : Prop :=
  finalizeCount u = c ∧ k ≤ stopCount u ∧
  (r0 ∈ u.m_runners ∨ (u.m_progress.finished = true ∧ k < stopCount u)) ∧
  (∀ r ∈ u.m_runners, r.id < u.nextRunner) ∧ r0.id < u.nextRunner ∧
  (∀ r ∈ u.m_runners, r.id = r0.id → r.started = false)

/-- The progress values of a batch with `n` queue items and bound `b` in which no dispatch
fails, as the `done` completions handled so far reported them: the completion number
`j + 1` reports `min(n, b + j)`. -/
def pacedValues (n : Nat) (b : Int) (done : Nat) : List Int :=
  (List.range done).map (fun (j : Nat) => min (n : Int) (b + (j : Int)))

/-- The invariant behind the progress values of a batch without failing dispatch: after
`done` completions, `min(n, b + done)` items were dispatched and the values reported are
`pacedValues`. -/
def Paced (queue : List QueueItem) (b : Int) (done : Nat) (s : ClangToolRunWorker) : Prop :=
  Normal queue s ∧ (s.nextRunner : Int) = min (queue.length : Int) (b + done) ∧
    progressValues s.log = pacedValues queue.length b done

/-- An environment in which `run` returns false for the second runner and true for the
others. -/
def scenarioEnvSecondRunFails : Env := { scenarioEnv with run := fun i => i != 1 }

end ClangToolRunWorker

end ClangTools

/-! # Results -/

namespace ClangTools
namespace ClangToolRunWorker

/-! ## The operations in closed form -/

theorem stop_foldl_eq (l : List ClangToolRunner) (s : ClangToolRunWorker) :
    l.foldl (fun s runner =>
        (s.emit (Event.disconnectRunner runner.id)).emit (Event.deleteRunner runner.id)) s
      = { s with log := (s.log ++ stopEvents l) } := by
  induction l generalizing s with
  | nil => simp [stopEvents]
  | cons r l ih =>
    rw [List.foldl_cons, ih]
    simp [emit, stopEvents, List.flatMap_cons]

theorem stop_eq (s : ClangToolRunWorker) :
    stop s = { s with
      m_projectFiles := ∅
      m_runners := []
      m_queue := []
      m_progress := { s.m_progress with finished := true }
      log := (s.log ++ stopEvents s.m_runners
        ++ [Event.progressReportFinished, Event.reportStopped]) } := by
  simp only [stop, stop_foldl_eq]
  simp [progressReportFinished, emit]

theorem finalize_eq (env : Env) (s : ClangToolRunWorker) :
    finalize env s = { s with
      m_progress := { s.m_progress with finished := true }
      log := (s.log ++ finalizeEvents env s) } := by
  unfold finalize finalizeEvents
  by_cases h1 : s.m_filesNotAnalyzed.card = 0
  · simp [h1, progressReportFinished, emit]
  · by_cases h2 : (env.hasTarget && !env.buildDirectoryExists &&
        !s.m_runSettings.buildBeforeAnalysis) = true
    · simp [h1, h2, progressReportFinished, emit]
    · simp [h1, h2, progressReportFinished, emit]

/-- Case analysis of `analyzeNextFile`: nothing when progress is finished; `finalize` when
queue and runner set are empty; nothing when only the queue is empty; otherwise the head of
the queue is taken and its runner created, followed by `stop` (invalid executable) or by
`run`. -/
theorem analyzeNextFile_cases (env : Env) (s : ClangToolRunWorker)
    (P : ClangToolRunWorker → Prop)
    (hfinished : s.m_progress.finished = true → P s)
    (hfinalize : s.m_progress.finished = false → s.m_queue = [] → s.m_runners = [] →
      P (finalize env s))
    (hwait : s.m_progress.finished = false → s.m_queue = [] → s.m_runners ≠ [] → P s)
    (hinvalid : ∀ item rest, s.m_progress.finished = false → s.m_queue = item :: rest →
      env.isFileExecutable s.nextRunner = false → P (stop (rejected item rest s)))
    (hrun : ∀ item rest, s.m_progress.finished = false → s.m_queue = item :: rest →
      env.isFileExecutable s.nextRunner = true → P (launched env item rest s)) :
    P (analyzeNextFile env s) := by
  unfold analyzeNextFile
  by_cases hf : s.m_progress.finished = true
  · simpa [hf] using hfinished hf
  · have hf2 : s.m_progress.finished = false := by simpa using hf
    rcases hq : s.m_queue with _ | ⟨item, rest⟩
    · by_cases hr : s.m_runners = []
      · simpa [hf2, hq, hr] using hfinalize hf2 hq hr
      · simpa [hf2, hq, hr] using hwait hf2 hq hr
    · by_cases he : env.isFileExecutable s.nextRunner = true
      · have h := hrun item rest hf2 hq he
        by_cases hrn : env.run s.nextRunner = true
        · simpa [hf2, hq, he, hrn, createRunner, emit, dispatched, launched, ClangToolRunner.name] using h
        · simpa [hf2, hq, he, hrn, createRunner, emit, dispatched, launched, ClangToolRunner.name] using h
      · have he2 : env.isFileExecutable s.nextRunner = false := by simpa using he
        have h := hinvalid item rest hf2 hq he2
        simpa [hf2, hq, he2, createRunner, emit, dispatched, rejected, ClangToolRunner.name] using h

theorem onRunnerFinishedWithSuccess_eq (env : Env) (sender : ClangToolRunner)
    (filePath : String) (diagnostics : Diagnostics) (errorMessage : String)
    (s : ClangToolRunWorker) :
    onRunnerFinishedWithSuccess env sender filePath diagnostics errorMessage s
      = analyzeNextFile env (successRecorded sender filePath diagnostics errorMessage s) := by
  unfold onRunnerFinishedWithSuccess handleFinished successRecorded
  by_cases he : errorMessage = ""
  · by_cases hm : filePath ∈ s.m_filesNotAnalyzed <;> by_cases hd : diagnostics = [] <;>
      simp [he, hm, hd, emit, updateProgressValue]
  · simp [he, emit, updateProgressValue]

theorem onRunnerFinishedWithFailure_eq (env : Env) (sender : ClangToolRunner)
    (errorMessage : String) (errorDetails : String) (s : ClangToolRunWorker) :
    onRunnerFinishedWithFailure env sender errorMessage errorDetails s
      = analyzeNextFile env (failureRecorded sender errorMessage errorDetails s) := by
  simp only [onRunnerFinishedWithFailure, handleFinished, updateProgressValue, emit,
    failureRecorded, List.append_assoc, List.singleton_append, List.cons_append, List.nil_append]

theorem onProgressCanceled_eq (s : ClangToolRunWorker) :
    onProgressCanceled s = { s with
      m_progress := { s.m_progress with canceled := true }
      log := (s.log ++ [Event.progressReportCanceled, Event.initiateStop]) } := by
  simp [onProgressCanceled, emit]

theorem activeRunner_some {s : ClangToolRunWorker} {id : Nat} {r : ClangToolRunner}
    (h : activeRunner s id = some r) : r ∈ s.m_runners ∧ r.id = id ∧ r.started = true := by
  unfold activeRunner at h
  have h1 := List.mem_of_find?_eq_some h
  have h2 := List.find?_some h
  simp at h2
  exact ⟨h1, h2.1, h2.2⟩

/-- The early exits of `start`: only the project files and the log change, and the log
grows by preamble events that contain a `reportFailure`. -/
theorem start_of_not_startsAnalysis (fuel : Nat) (env : Env) (units : AnalyzeUnits)
    (w0 : ClangToolRunWorker) (h : startsAnalysis env w0 = false) :
    ∃ evs pf, (∀ e ∈ evs, isPreambleEvent e = true) ∧ (∃ m, Event.reportFailure m ∈ evs) ∧
      start fuel env units w0 = some { w0 with m_projectFiles := pf, log := (w0.log ++ evs) } := by
  unfold startsAnalysis at h
  obtain ⟨rs, dc, pb, pf, q, rn, iq, fa, fna, sc, pr, nr, lg⟩ := w0
  simp only [] at h
  by_cases h1 : (pb && !env.projectBuilderSuccess) = true
  · refine ⟨[Event.clearTasks, Event.saveModifiedFiles, Event.reportFailure none],
      pf, ?_, ⟨none, by simp⟩, ?_⟩
    · simp [isPreambleEvent]
    · simp only [start, emit, h1]
      simp
  · have h1b : (pb && !env.projectBuilderSuccess) = false := by simpa using h1
    by_cases h2 : env.configurationOrFilesChanged = true
    · refine ⟨[Event.clearTasks, Event.saveModifiedFiles,
        Event.reportFailure (some Message.configurationChanged)], env.projectFiles, ?_,
        ⟨some Message.configurationChanged, by simp⟩, ?_⟩
      · simp [isPreambleEvent]
      · simp only [start, emit, h1b, h2]
        simp
    · have h2b : env.configurationOrFilesChanged = false := by simpa using h2
      have h3 : env.temporaryDirValid = false := by
        rw [h1b, h2b] at h
        simpa using h
      refine ⟨[Event.clearTasks, Event.saveModifiedFiles,
        Event.appendMessage (Message.runningTool dc.displayName)
          OutputFormat.NormalMessageFormat,
        Event.appendMessage Message.temporaryDirFailed OutputFormat.ErrorMessageFormat,
        Event.addTask Message.temporaryDirFailed, Event.requestPopup,
        Event.reportFailure (some Message.temporaryDirFailed)], env.projectFiles, ?_,
        ⟨some Message.temporaryDirFailed, by simp⟩, ?_⟩
      · simp [isPreambleEvent]
      · simp only [start, emit, h1b, h2b, h3]
        simp

/-- Past the early exits, `start` is: a failure report when `parallelRuns < 1`; `finalize`
when the queue is empty; otherwise `reportStarted` and the fill loop. -/
theorem start_of_startsAnalysis (fuel : Nat) (env : Env) (units : AnalyzeUnits)
    (w0 : ClangToolRunWorker) (h : startsAnalysis env w0 = true) :
    start fuel env units w0 =
      if ¬ (w0.m_runSettings.parallelJobs ≥ 1) then
        some ((startPrepared env units w0).emit (Event.reportFailure none))
      else if buildQueue env w0 units = [] then
        some (finalize env { startPrepared env units w0 with m_success := true })
      else
        startLoop env w0.m_runSettings.parallelJobs fuel
          (({ startPrepared env units w0 with m_success := true }).emit Event.reportStarted) := by
  unfold startsAnalysis at h
  simp at h
  obtain ⟨⟨h1, h2⟩, h3⟩ := h
  have h1b : (w0.m_projectBuilder && !env.projectBuilderSuccess) = false := by
    cases hb : w0.m_projectBuilder <;> simp [hb] at h1 ⊢
    exact h1
  obtain ⟨rs, dc, pb, pf, q, rn, iq, fa, fna, sc, pr, nr, lg⟩ := w0
  simp only [] at h1b
  simp only [start, emit, h1b, h2, h3, startPrepared, buildQueue, runnerCreators]
  by_cases hb : rs.parallelJobs ≥ 1
  · simp [hb]
  · simp [hb]

/-! ## Induction principles -/

/-- An invariant of the fill loop of `start` holds when the loop ends, and the loop
condition is false then. -/
theorem startLoop_invariant (env : Env) (b : Int) (P : ClangToolRunWorker → Prop)
    (hP : ∀ s, P s → (s.m_runners.length : Int) < b → s.m_queue ≠ [] →
      P (analyzeNextFile env s)) :
    ∀ (fuel : Nat) (s t : ClangToolRunWorker), P s → startLoop env b fuel s = some t →
      P t ∧ ¬ ((t.m_runners.length : Int) < b ∧ t.m_queue ≠ []) := by
  intro fuel
  induction fuel with
  | zero =>
    intro s t hs h
    unfold startLoop at h
    by_cases hc : (s.m_runners.length : Int) < b ∧ s.m_queue ≠ []
    · simp [hc] at h
    · rw [if_neg hc] at h
      cases h
      exact ⟨hs, hc⟩
  | succ fuel ih =>
    intro s t hs h
    unfold startLoop at h
    by_cases hc : (s.m_runners.length : Int) < b ∧ s.m_queue ≠ []
    · rw [if_pos hc] at h
      exact ih _ t (hP s hs hc.1 hc.2) h
    · rw [if_neg hc] at h
      cases h
      exact ⟨hs, hc⟩

/-- A property holds of the state `start` returns when it holds of the states of the early
exits, of the three ways past them, and is kept by the iterations of the fill loop. -/
theorem start_invariant (env : Env) (units : AnalyzeUnits) (w0 : ClangToolRunWorker)
    (P : ClangToolRunWorker → Prop)
    (hexit : ∀ evs pf, (∀ e ∈ evs, isPreambleEvent e = true) →
      P { w0 with m_projectFiles := pf, log := (w0.log ++ evs) })
    (hbound : ¬ (w0.m_runSettings.parallelJobs ≥ 1) →
      P ((startPrepared env units w0).emit (Event.reportFailure none)))
    (hempty : w0.m_runSettings.parallelJobs ≥ 1 → buildQueue env w0 units = [] →
      P (finalize env { startPrepared env units w0 with m_success := true }))
    (hfill : w0.m_runSettings.parallelJobs ≥ 1 → buildQueue env w0 units ≠ [] →
      P (({ startPrepared env units w0 with m_success := true }).emit Event.reportStarted))
    (hstep : ∀ s, P s → (s.m_runners.length : Int) < w0.m_runSettings.parallelJobs →
      s.m_queue ≠ [] → P (analyzeNextFile env s)) :
    ∀ (fuel : Nat) (s : ClangToolRunWorker), start fuel env units w0 = some s → P s := by
  intro fuel s h
  by_cases hs : startsAnalysis env w0 = true
  · rw [start_of_startsAnalysis fuel env units w0 hs] at h
    by_cases hb : w0.m_runSettings.parallelJobs ≥ 1
    · rw [if_neg (not_not.mpr hb)] at h
      by_cases hq : buildQueue env w0 units = []
      · rw [if_pos hq] at h
        cases h
        exact hempty hb hq
      · rw [if_neg hq] at h
        exact (startLoop_invariant env _ P hstep fuel _ s (hfill hb hq) h).1
    · rw [if_pos hb] at h
      cases h
      exact hbound hb
  · have hs2 : startsAnalysis env w0 = false := by simpa using hs
    obtain ⟨evs, pf, hevs, -, heq⟩ := start_of_not_startsAnalysis fuel env units w0 hs2
    rw [heq] at h
    cases h
    exact hexit evs pf hevs

/-- Induction over the states of a batch, with the handlers in closed form. -/
theorem reachable_invariant (env : Env) (units : AnalyzeUnits) (w0 : ClangToolRunWorker)
    (P : ClangToolRunWorker → Prop)
    (hstart : ∀ fuel s, start fuel env units w0 = some s → P s)
    (hsuccess : ∀ s sender diagnostics errorMessage, P s → sender ∈ s.m_runners →
      sender.started = true →
      P (analyzeNextFile env
        (successRecorded sender sender.fileToAnalyze diagnostics errorMessage s)))
    (hfailure : ∀ s sender errorMessage errorDetails, P s → sender ∈ s.m_runners →
      sender.started = true →
      P (analyzeNextFile env (failureRecorded sender errorMessage errorDetails s)))
    (hstop : ∀ s, P s → P (stop s))
    (hcancel : ∀ s, P s → P (onProgressCanceled s)) :
    ∀ s, Reachable env units w0 s → P s := by
  intro s hs
  induction hs with
  | start fuel s h => exact hstart fuel s h
  | step s op t _ h ih =>
    cases op with
    | finishedWithSuccess id d e =>
      simp only [step, Option.map_eq_some'] at h
      obtain ⟨sender, hsender, rfl⟩ := h
      obtain ⟨hm, -, hst⟩ := activeRunner_some hsender
      rw [onRunnerFinishedWithSuccess_eq]
      exact hsuccess s sender d e ih hm hst
    | finishedWithFailure id m d =>
      simp only [step, Option.map_eq_some'] at h
      obtain ⟨sender, hsender, rfl⟩ := h
      obtain ⟨hm, -, hst⟩ := activeRunner_some hsender
      rw [onRunnerFinishedWithFailure_eq]
      exact hfailure s sender m d ih hm hst
    | stop =>
      simp only [step, Option.some.injEq] at h
      subst h
      exact hstop s ih
    | progressCanceled =>
      simp only [step, Option.some.injEq] at h
      subst h
      exact hcancel s ih

theorem reachable_runOps {env : Env} {units : AnalyzeUnits} {w0 s : ClangToolRunWorker}
    (hs : Reachable env units w0 s) :
    ∀ (ops : List Op) (t : ClangToolRunWorker), runOps env s ops = some t →
      Reachable env units w0 t := by
  intro ops
  induction ops generalizing s with
  | nil =>
    intro t h
    simp only [runOps, Option.some.injEq] at h
    exact h ▸ hs
  | cons op ops ih =>
    intro t h
    simp only [runOps, Option.bind_eq_some] at h
    obtain ⟨u, hu, ht⟩ := h
    exact ih (Reachable.step s op u hs hu) t ht

/-! ## The active runners -/

theorem QSet.length_insert_le {α : Type} [DecidableEq α] (a : α) (l : List α) :
    (QSet.insert a l).length ≤ l.length + 1 := by
  unfold QSet.insert
  split <;> simp

theorem analyzeNextFile_runners_length_le (env : Env) (s : ClangToolRunWorker) :
    (analyzeNextFile env s).m_runners.length ≤ s.m_runners.length + 1 := by
  apply analyzeNextFile_cases env s (fun t => t.m_runners.length ≤ s.m_runners.length + 1)
  · intro _; omega
  · intro _ _ _; simp [finalize_eq]
  · intro _ _ _; omega
  · intro item rest _ _ _; simp [stop_eq]
  · intro item rest _ _ _
    simpa [launched, dispatched] using QSet.length_insert_le _ _

theorem successRecorded_runners_length {sender : ClangToolRunner} {s : ClangToolRunWorker}
    (h : sender ∈ s.m_runners) (filePath : String) (d : Diagnostics) (e : String) :
    (successRecorded sender filePath d e s).m_runners.length + 1 = s.m_runners.length := by
  have := List.length_pos_of_mem h
  simp [successRecorded, QSet.remove, List.length_erase_of_mem h]
  omega

theorem failureRecorded_runners_length {sender : ClangToolRunner} {s : ClangToolRunWorker}
    (h : sender ∈ s.m_runners) (m : String) (d : String) :
    (failureRecorded sender m d s).m_runners.length + 1 = s.m_runners.length := by
  have := List.length_pos_of_mem h
  simp [failureRecorded, QSet.remove, List.length_erase_of_mem h]
  omega

/-- C1. In every state of a batch started with `parallelJobs ≥ 1`, whatever completions,
stops and cancels were handled, the number of runners in `m_runners` is at most
`parallelJobs`. -/
theorem active_runners_le_bound (env : Env) (units : AnalyzeUnits) (rs : RunSettings)
    (dc : ClangDiagnosticConfig) (preventBuild : Bool) (hb : 1 ≤ rs.parallelJobs)
    (s : ClangToolRunWorker) (hs : Reachable env units (create rs dc preventBuild) s) :
    (s.m_runners.length : Int) ≤ rs.parallelJobs := by
  revert s
  apply reachable_invariant
  · apply start_invariant
    · intro evs pf _
      simp [create]; omega
    · intro h
      exact absurd hb h
    · intro _ _
      simp [finalize_eq, startPrepared]; omega
    · intro _ _
      simp [emit, startPrepared]; omega
    · intro s _ hlt _
      have := analyzeNextFile_runners_length_le env s
      simp [create] at hlt
      omega
  · intro s sender d e hP hm _
    have h1 := analyzeNextFile_runners_length_le env
      (successRecorded sender sender.fileToAnalyze d e s)
    have h2 := successRecorded_runners_length hm sender.fileToAnalyze d e
    omega
  · intro s sender m d hP hm _
    have h1 := analyzeNextFile_runners_length_le env (failureRecorded sender m d s)
    have h2 := failureRecorded_runners_length hm m d
    omega
  · intro s _
    simp [stop_eq]; omega
  · intro s h
    simpa [onProgressCanceled_eq] using h

/-! ## Executions of `finalize` -/

theorem countP_summary_stopEvents (l : List ClangToolRunner) :
    (stopEvents l).countP isFinalizeSummary = 0 := by
  induction l with
  | nil => simp [stopEvents]
  | cons r l ih =>
    simp only [stopEvents, List.flatMap_cons, List.countP_append] at ih ⊢
    simp [ih, isFinalizeSummary]

theorem countP_summary_finalizeEvents (env : Env) (s : ClangToolRunWorker) :
    (finalizeEvents env s).countP isFinalizeSummary = 1 := by
  unfold finalizeEvents
  by_cases h1 : s.m_filesNotAnalyzed.card = 0
  · simp [h1, isFinalizeSummary, List.countP_cons]
  · by_cases h2 : (env.hasTarget && !env.buildDirectoryExists &&
        !s.m_runSettings.buildBeforeAnalysis) = true
    · simp [h1, h2, isFinalizeSummary, List.countP_cons]
    · simp [h1, h2, isFinalizeSummary, List.countP_cons]

theorem countP_summary_preamble (evs : List Event)
    (h : ∀ e ∈ evs, isPreambleEvent e = true) : evs.countP isFinalizeSummary = 0 := by
  rw [List.countP_eq_zero]
  intro e he
  have := h e he
  cases e <;> simp [isFinalizeSummary, isPreambleEvent] at this ⊢
  rename_i msg fmt
  cases msg <;> simp [isFinalizeSummary, isPreambleEvent] at this ⊢

theorem finalizeOnce_analyzeNextFile (env : Env) (s : ClangToolRunWorker)
    (h : FinalizeOnce s) : FinalizeOnce (analyzeNextFile env s) := by
  apply analyzeNextFile_cases env s FinalizeOnce
  · intro _; exact h
  all_goals unfold FinalizeOnce at h ⊢
  · intro hf _ hr
    have h0 : finalizeCount s = 0 := by
      rcases Nat.lt_or_ge (finalizeCount s) 1 with h1 | h1
      · omega
      · have := h.2 (by omega)
        rw [hf] at this
        simp at this
    unfold finalizeCount at h0 ⊢
    simp [finalize_eq, List.countP_append, h0, countP_summary_finalizeEvents, hr]
  · intro _ _ _; exact h
  · intro item rest _ _ _
    unfold finalizeCount at h ⊢
    simp [stop_eq, rejected, dispatched, List.countP_append, countP_summary_stopEvents,
      isFinalizeSummary, List.countP_cons]
    exact h.1
  · intro item rest hf _ _
    have h0 : finalizeCount s = 0 := by
      rcases Nat.lt_or_ge (finalizeCount s) 1 with h1 | h1
      · omega
      · have := h.2 (by omega)
        rw [hf] at this
        simp at this
    unfold finalizeCount at h0 ⊢
    by_cases hr : env.run s.nextRunner = true <;>
      simp [launched, dispatched, List.countP_append, isFinalizeSummary, List.countP_cons, hr, h0]

theorem finalizeOnce_reachable (env : Env) (units : AnalyzeUnits) (rs : RunSettings)
    (dc : ClangDiagnosticConfig) (preventBuild : Bool) :
    ∀ s, Reachable env units (create rs dc preventBuild) s → FinalizeOnce s := by
  apply reachable_invariant
  · apply start_invariant
    · intro evs pf hevs
      simp [FinalizeOnce, finalizeCount, create, countP_summary_preamble evs hevs]
    · intro _
      simp [FinalizeOnce, finalizeCount, create, startPrepared, emit, isFinalizeSummary,
        List.countP_cons]
    · intro _ _
      simp [FinalizeOnce, finalizeCount, create, startPrepared, finalize_eq,
        List.countP_append, countP_summary_finalizeEvents, isFinalizeSummary, List.countP_cons]
    · intro _ _
      simp [FinalizeOnce, finalizeCount, create, startPrepared, emit, isFinalizeSummary,
        List.countP_cons]
    · intro s hs _ _
      exact finalizeOnce_analyzeNextFile env s hs
  · intro s sender d e hs hm _
    apply finalizeOnce_analyzeNextFile
    have hne : s.m_runners ≠ [] := List.ne_nil_of_mem hm
    have h0 : finalizeCount s = 0 := by
      rcases Nat.lt_or_ge (finalizeCount s) 1 with h1 | h1
      · omega
      · exact absurd (hs.2 (by have := hs.1; omega)).2 hne
    unfold FinalizeOnce finalizeCount at *
    by_cases he : e = "" <;> by_cases hd : d = [] <;>
      simp [successRecorded, List.countP_append, isFinalizeSummary, List.countP_cons, h0, he, hd]
  · intro s sender m d hs hm _
    apply finalizeOnce_analyzeNextFile
    have hne : s.m_runners ≠ [] := List.ne_nil_of_mem hm
    have h0 : finalizeCount s = 0 := by
      rcases Nat.lt_or_ge (finalizeCount s) 1 with h1 | h1
      · omega
      · exact absurd (hs.2 (by have := hs.1; omega)).2 hne
    unfold FinalizeOnce finalizeCount at *
    simp [failureRecorded, List.countP_append, isFinalizeSummary, List.countP_cons, h0]
  · intro s hs
    unfold FinalizeOnce finalizeCount at *
    simp [stop_eq, List.countP_append, countP_summary_stopEvents, isFinalizeSummary,
      List.countP_cons]
    exact hs.1
  · intro s hs
    unfold FinalizeOnce finalizeCount at *
    simpa [onProgressCanceled_eq, List.countP_append, isFinalizeSummary, List.countP_cons]
      using hs

/-- C2. In every state of a batch (one `start`, then completions of started runners in any
order, with `stop` or a cancel at any point), `finalize` has been executed at most once. -/
theorem finalize_at_most_once (env : Env) (units : AnalyzeUnits) (rs : RunSettings)
    (dc : ClangDiagnosticConfig) (preventBuild : Bool) (s : ClangToolRunWorker)
    (hs : Reachable env units (create rs dc preventBuild) s) : finalizeCount s ≤ 1 :=
  (finalizeOnce_reachable env units rs dc preventBuild s hs).1

/-! ## The result sets -/

theorem analyzeNextFile_files (env : Env) (s : ClangToolRunWorker) :
    (analyzeNextFile env s).m_filesAnalyzed = s.m_filesAnalyzed ∧
      (analyzeNextFile env s).m_filesNotAnalyzed = s.m_filesNotAnalyzed := by
  apply analyzeNextFile_cases env s
    (fun t => t.m_filesAnalyzed = s.m_filesAnalyzed ∧
      t.m_filesNotAnalyzed = s.m_filesNotAnalyzed)
  · intro _; exact ⟨rfl, rfl⟩
  · intro _ _ _; simp [finalize_eq]
  · intro _ _ _; exact ⟨rfl, rfl⟩
  · intro item rest _ _ _; simp [stop_eq, rejected, dispatched]
  · intro item rest _ _ _; simp [launched, dispatched]

theorem filesDisjoint_analyzeNextFile (env : Env) (s : ClangToolRunWorker)
    (h : FilesDisjoint s) : FilesDisjoint (analyzeNextFile env s) := by
  unfold FilesDisjoint at h ⊢
  rw [(analyzeNextFile_files env s).1, (analyzeNextFile_files env s).2]
  exact h

theorem filesDisjoint_successRecorded (sender : ClangToolRunner) (filePath : String)
    (d : Diagnostics) (e : String) (s : ClangToolRunWorker) (h : FilesDisjoint s) :
    FilesDisjoint (successRecorded sender filePath d e s) := by
  unfold FilesDisjoint at h ⊢
  intro f
  have hf := h f
  by_cases he : e = ""
  · by_cases hm : filePath ∈ s.m_filesNotAnalyzed
    · simpa [successRecorded, he, hm] using hf
    · simp only [successRecorded, he, hm, ne_eq, not_true_eq_false, if_false, not_false_eq_true,
        if_true, Finset.mem_insert]
      rintro ⟨h1 | h1, h2⟩
      · exact hm (h1 ▸ h2)
      · exact hf ⟨h1, h2⟩
  · simp only [successRecorded, he, ne_eq, not_false_eq_true, if_true, Finset.mem_erase,
      Finset.mem_insert]
    rintro ⟨⟨h1, h2⟩, h3 | h3⟩
    · exact h1 h3
    · exact hf ⟨h2, h3⟩

theorem filesDisjoint_failureRecorded (sender : ClangToolRunner) (m : String) (d : String)
    (s : ClangToolRunWorker) (h : FilesDisjoint s) :
    FilesDisjoint (failureRecorded sender m d s) := by
  unfold FilesDisjoint at h ⊢
  intro f
  simp only [failureRecorded, Finset.mem_erase, Finset.mem_insert]
  rintro ⟨⟨h1, h2⟩, h3 | h3⟩
  · exact h1 h3
  · exact h f ⟨h2, h3⟩

theorem filesDisjoint_reachable (env : Env) (units : AnalyzeUnits) (rs : RunSettings)
    (dc : ClangDiagnosticConfig) (preventBuild : Bool) :
    ∀ s, Reachable env units (create rs dc preventBuild) s → FilesDisjoint s := by
  apply reachable_invariant
  · apply start_invariant
    · intro evs pf _
      simp [FilesDisjoint, create]
    · intro _
      simp [FilesDisjoint, startPrepared, emit]
    · intro _ _
      simp [FilesDisjoint, startPrepared, finalize_eq]
    · intro _ _
      simp [FilesDisjoint, startPrepared, emit]
    · intro s hs _ _
      exact filesDisjoint_analyzeNextFile env s hs
  · intro s sender d e hs _ _
    exact filesDisjoint_analyzeNextFile env _ (filesDisjoint_successRecorded _ _ _ _ s hs)
  · intro s sender m d hs _ _
    exact filesDisjoint_analyzeNextFile env _ (filesDisjoint_failureRecorded _ _ _ s hs)
  · intro s hs
    simpa [FilesDisjoint, stop_eq] using hs
  · intro s hs
    simpa [FilesDisjoint, onProgressCanceled_eq] using hs

/-- C3. After `start` and after every completion handler (a success whose output is read,
a success whose output cannot be read, a failure), no file path is in both `m_filesAnalyzed`
and `m_filesNotAnalyzed`. -/
theorem files_never_in_both_sets (env : Env) (units : AnalyzeUnits) (rs : RunSettings)
    (dc : ClangDiagnosticConfig) (preventBuild : Bool) (s : ClangToolRunWorker)
    (hs : Reachable env units (create rs dc preventBuild) s) (f : String) :
    ¬ (f ∈ s.m_filesAnalyzed ∧ f ∈ s.m_filesNotAnalyzed) :=
  filesDisjoint_reachable env units rs dc preventBuild s hs f

theorem step_notAnalyzed_mono {env : Env} {s t : ClangToolRunWorker} {op : Op}
    (h : step env s op = some t) (f : String) (hf : f ∈ s.m_filesNotAnalyzed) :
    f ∈ t.m_filesNotAnalyzed := by
  cases op with
  | finishedWithSuccess id d e =>
    simp only [step, Option.map_eq_some'] at h
    obtain ⟨sender, -, rfl⟩ := h
    rw [onRunnerFinishedWithSuccess_eq, (analyzeNextFile_files env _).2]
    by_cases he : e = "" <;> simp [successRecorded, he, hf]
  | finishedWithFailure id m d =>
    simp only [step, Option.map_eq_some'] at h
    obtain ⟨sender, -, rfl⟩ := h
    rw [onRunnerFinishedWithFailure_eq, (analyzeNextFile_files env _).2]
    simp [failureRecorded, hf]
  | stop =>
    simp only [step, Option.some.injEq] at h
    subst h
    simpa [stop_eq] using hf
  | progressCanceled =>
    simp only [step, Option.some.injEq] at h
    subst h
    simpa [onProgressCanceled_eq] using hf

theorem runOps_notAnalyzed_mono {env : Env} (f : String) :
    ∀ (ops : List Op) (s t : ClangToolRunWorker), runOps env s ops = some t →
      f ∈ s.m_filesNotAnalyzed → f ∈ t.m_filesNotAnalyzed := by
  intro ops
  induction ops with
  | nil =>
    intro s t h hf
    simp only [runOps, Option.some.injEq] at h
    exact h ▸ hf
  | cons op ops ih =>
    intro s t h hf
    simp only [runOps, Option.bind_eq_some] at h
    obtain ⟨u, hu, ht⟩ := h
    exact ih u t ht (step_notAnalyzed_mono hu f hf)

/-- C4. Within one batch, a file path that is in `m_filesNotAnalyzed` in some state is still
there after any further operations (among them a successful run of another tool on the same
file), and it is not in `m_filesAnalyzed` then. -/
theorem not_analyzed_is_sticky (env : Env) (units : AnalyzeUnits) (rs : RunSettings)
    (dc : ClangDiagnosticConfig) (preventBuild : Bool) (s : ClangToolRunWorker)
    (hs : Reachable env units (create rs dc preventBuild) s) (ops : List Op)
    (t : ClangToolRunWorker) (ht : runOps env s ops = some t) (f : String)
    (hf : f ∈ s.m_filesNotAnalyzed) :
    f ∈ t.m_filesNotAnalyzed ∧ f ∉ t.m_filesAnalyzed := by
  have h1 := runOps_notAnalyzed_mono f ops s t ht hf
  refine ⟨h1, fun h2 => ?_⟩
  exact filesDisjoint_reachable env units rs dc preventBuild t (reachable_runOps hs ops t ht) f
    ⟨h2, h1⟩

/-! ## The queue built by `start` -/

theorem foldl_enqueue (unit : AnalyzeUnit) (creators : List RunnerCreator)
    (queue : List QueueItem) :
    creators.foldl (fun queue creator => queue ++ [QueueItem.mk unit creator]) queue
      = queue ++ creators.map (fun creator => QueueItem.mk unit creator) := by
  induction creators generalizing queue with
  | nil => simp
  | cons c cs ih => simp [List.foldl_cons, ih]

theorem foldl_units (creators : List RunnerCreator) (units : AnalyzeUnits)
    (queue : List QueueItem) :
    units.foldl (fun queue unit =>
        creators.foldl (fun queue creator => queue ++ [QueueItem.mk unit creator]) queue) queue
      = queue ++ crossProductQueue units creators := by
  induction units generalizing queue with
  | nil => simp [crossProductQueue]
  | cons u us ih =>
    rw [List.foldl_cons, ih, foldl_enqueue]
    simp [crossProductQueue, List.flatMap_cons]

theorem buildQueue_eq (env : Env) (w : ClangToolRunWorker) (units : AnalyzeUnits) :
    buildQueue env w units = crossProductQueue units (runnerCreators env w) := by
  unfold buildQueue
  rw [foldl_units]
  simp

theorem crossProductQueue_length (units : AnalyzeUnits) (factories : List RunnerCreator) :
    (crossProductQueue units factories).length = units.length * factories.length := by
  induction units with
  | nil => simp [crossProductQueue]
  | cons u us ih =>
    simp only [crossProductQueue, List.flatMap_cons, List.length_append, List.length_map,
      List.length_cons] at ih ⊢
    rw [ih]
    ring

theorem analyzeNextFile_initialQueueSize (env : Env) (s : ClangToolRunWorker) :
    (analyzeNextFile env s).m_initialQueueSize = s.m_initialQueueSize := by
  apply analyzeNextFile_cases env s (fun t => t.m_initialQueueSize = s.m_initialQueueSize)
  · intro _; rfl
  · intro _ _ _; simp [finalize_eq]
  · intro _ _ _; rfl
  · intro item rest _ _ _; simp [stop_eq, rejected, dispatched]
  · intro item rest _ _ _; simp [launched, dispatched]

/-- The variant of `start_invariant` for a `start` that gets past its early exits. -/
theorem start_invariant_analysis (env : Env) (units : AnalyzeUnits) (w0 : ClangToolRunWorker)
    (hw : startsAnalysis env w0 = true) (P : ClangToolRunWorker → Prop)
    (hbound : ¬ (w0.m_runSettings.parallelJobs ≥ 1) →
      P ((startPrepared env units w0).emit (Event.reportFailure none)))
    (hempty : w0.m_runSettings.parallelJobs ≥ 1 → buildQueue env w0 units = [] →
      P (finalize env { startPrepared env units w0 with m_success := true }))
    (hfill : w0.m_runSettings.parallelJobs ≥ 1 → buildQueue env w0 units ≠ [] →
      P (({ startPrepared env units w0 with m_success := true }).emit Event.reportStarted))
    (hstep : ∀ s, P s → (s.m_runners.length : Int) < w0.m_runSettings.parallelJobs →
      s.m_queue ≠ [] → P (analyzeNextFile env s)) :
    ∀ (fuel : Nat) (s : ClangToolRunWorker), start fuel env units w0 = some s → P s := by
  intro fuel s h
  rw [start_of_startsAnalysis fuel env units w0 hw] at h
  by_cases hb : w0.m_runSettings.parallelJobs ≥ 1
  · rw [if_neg (not_not.mpr hb)] at h
    by_cases hq : buildQueue env w0 units = []
    · rw [if_pos hq] at h
      cases h
      exact hempty hb hq
    · rw [if_neg hq] at h
      exact (startLoop_invariant env _ P hstep fuel _ s (hfill hb hq) h).1
  · rw [if_pos hb] at h
    cases h
    exact hbound hb

/-- C6. The loops of `start` build the queue of (unit, creator) pairs with the units in input
order as the outer loop and the creators of `runnerCreators` as the inner loop; its length
is `|units| * |creators|`, and this is the `m_initialQueueSize` of the state `start` returns
when it gets past its early exits. -/
theorem start_builds_cross_product_queue (env : Env) (units : AnalyzeUnits)
    (w : ClangToolRunWorker) (hw : startsAnalysis env w = true) (fuel : Nat)
    (s : ClangToolRunWorker) (hs : start fuel env units w = some s) :
    buildQueue env w units = crossProductQueue units (runnerCreators env w) ∧
      (buildQueue env w units).length = units.length * (runnerCreators env w).length ∧
      s.m_initialQueueSize = ((units.length * (runnerCreators env w).length : Nat) : Int) := by
  have hlen : (buildQueue env w units).length = units.length * (runnerCreators env w).length := by
    rw [buildQueue_eq, crossProductQueue_length]
  refine ⟨buildQueue_eq env w units, hlen, ?_⟩
  rw [← hlen]
  revert fuel s
  apply start_invariant_analysis env units w hw
    (fun s => s.m_initialQueueSize = (((buildQueue env w units).length : Nat) : Int))
  · intro _
    simp [startPrepared, emit]
  · intro _ _
    simp [startPrepared, finalize_eq]
  · intro _ _
    simp [startPrepared, emit]
  · intro s hs _ _
    rw [analyzeNextFile_initialQueueSize]
    exact hs

/-! ## Dispatch order -/

theorem createdClasses_append (l₁ l₂ : List Event) :
    createdClasses (l₁ ++ l₂) = createdClasses l₁ ++ createdClasses l₂ := by
  simp [createdClasses, List.filterMap_append]

theorem runUnits_append (l₁ l₂ : List Event) :
    runUnits (l₁ ++ l₂) = runUnits l₁ ++ runUnits l₂ := by
  simp [runUnits, List.filterMap_append]

theorem createdClasses_stopEvents (l : List ClangToolRunner) :
    createdClasses (stopEvents l) = [] := by
  induction l with
  | nil => simp [stopEvents, createdClasses]
  | cons r l ih =>
    simp only [stopEvents, List.flatMap_cons] at ih ⊢
    rw [createdClasses_append, ih]
    simp [createdClasses]

theorem runUnits_stopEvents (l : List ClangToolRunner) : runUnits (stopEvents l) = [] := by
  induction l with
  | nil => simp [stopEvents, runUnits]
  | cons r l ih =>
    simp only [stopEvents, List.flatMap_cons] at ih ⊢
    rw [runUnits_append, ih]
    simp [runUnits]

theorem createdClasses_finalizeEvents (env : Env) (s : ClangToolRunWorker) :
    createdClasses (finalizeEvents env s) = [] := by
  unfold finalizeEvents
  by_cases h1 : s.m_filesNotAnalyzed.card = 0
  · simp [h1, createdClasses]
  · by_cases h2 : (env.hasTarget && !env.buildDirectoryExists &&
        !s.m_runSettings.buildBeforeAnalysis) = true <;> simp [h1, h2, createdClasses]

theorem runUnits_finalizeEvents (env : Env) (s : ClangToolRunWorker) :
    runUnits (finalizeEvents env s) = [] := by
  unfold finalizeEvents
  by_cases h1 : s.m_filesNotAnalyzed.card = 0
  · simp [h1, runUnits]
  · by_cases h2 : (env.hasTarget && !env.buildDirectoryExists &&
        !s.m_runSettings.buildBeforeAnalysis) = true <;> simp [h1, h2, runUnits]

theorem createdClasses_preamble (evs : List Event)
    (h : ∀ e ∈ evs, isPreambleEvent e = true) : createdClasses evs = [] := by
  unfold createdClasses
  rw [List.filterMap_eq_nil_iff]
  intro e he
  have := h e he
  cases e <;> simp [isPreambleEvent] at this ⊢

theorem runUnits_preamble (evs : List Event)
    (h : ∀ e ∈ evs, isPreambleEvent e = true) : runUnits evs = [] := by
  unfold runUnits
  rw [List.filterMap_eq_nil_iff]
  intro e he
  have := h e he
  cases e <;> simp [isPreambleEvent] at this ⊢

theorem drop_eq_cons {α : Type} {l : List α} {k : Nat} {a : α} {rest : List α}
    (h : l.drop k = a :: rest) :
    k < l.length ∧ l.take (k + 1) = l.take k ++ [a] ∧ l.drop (k + 1) = rest := by
  have hk : k < l.length := by
    by_contra hge
    rw [List.drop_eq_nil_of_le (by omega)] at h
    cases h
  have h1 : l[k]? = some a := by
    have := congrArg (fun x => x[0]?) h
    simpa [List.getElem?_drop] using this
  refine ⟨hk, ?_, ?_⟩
  · rw [List.take_succ, h1]
    rfl
  · have := congrArg (fun x => x.drop 1) h
    simpa [List.drop_drop, Nat.add_comm] using this

theorem fifo_analyzeNextFile (env : Env) (queue : List QueueItem) (s : ClangToolRunWorker)
    (h : Fifo queue s) : Fifo queue (analyzeNextFile env s) := by
  apply analyzeNextFile_cases env s (Fifo queue)
  · intro _; exact h
  all_goals unfold Fifo at h ⊢
  · intro _ hq _
    obtain ⟨h1, h2, h3⟩ := h
    simp only [finalize_eq, createdClasses_append, createdClasses_finalizeEvents,
      runUnits_append, runUnits_finalizeEvents, List.append_nil]
    exact ⟨h1, h2, h3⟩
  · intro _ _ _; exact h
  · intro item rest _ hq _
    obtain ⟨h1, h2, h3⟩ := h
    rcases h3 with ⟨h3, h4⟩ | ⟨h3, _⟩
    · rw [hq] at h3
      obtain ⟨hk, htake, hdrop⟩ := drop_eq_cons h3.symm
      simp only [stop_eq, rejected, dispatched, createdClasses_append,
        createdClasses_stopEvents, runUnits_append, runUnits_stopEvents, List.append_nil]
      refine ⟨hk, ?_, Or.inr ⟨by simp, ?_⟩⟩
      · simp [createdClasses, htake, h2]
        simpa [createdClasses] using h2
      · simp only [runUnits, List.filterMap_append, List.filterMap_cons, List.filterMap_nil,
          List.append_nil]
        rw [show List.filterMap _ s.log = runUnits s.log from rfl, h4]
        exact ⟨(queue.drop s.nextRunner).map (fun item => item.unit), by
          rw [← List.map_append, List.take_append_drop]⟩
    · rw [hq] at h3
      cases h3
  · intro item rest _ hq _
    obtain ⟨h1, h2, h3⟩ := h
    rcases h3 with ⟨h3, h4⟩ | ⟨h3, _⟩
    · rw [hq] at h3
      obtain ⟨hk, htake, hdrop⟩ := drop_eq_cons h3.symm
      simp only [launched, dispatched, createdClasses_append, runUnits_append]
      refine ⟨hk, ?_, Or.inl ⟨hdrop.symm, ?_⟩⟩
      · by_cases hr : env.run s.nextRunner = true <;>
          simp [createdClasses, htake, hr] <;> simpa [createdClasses] using h2
      · by_cases hr : env.run s.nextRunner = true <;>
          simp [runUnits, htake, hr] <;> simpa [runUnits] using h4
    · rw [hq] at h3
      cases h3

theorem fifo_of_frame {queue : List QueueItem} {s t : ClangToolRunWorker} (h : Fifo queue s)
    (hn : t.nextRunner = s.nextRunner) (hq : t.m_queue = s.m_queue ∨ t.m_queue = [])
    (hc : createdClasses t.log = createdClasses s.log) (hr : runUnits t.log = runUnits s.log) :
    Fifo queue t := by
  unfold Fifo at h ⊢
  rw [hn, hc, hr]
  obtain ⟨h1, h2, h3⟩ := h
  refine ⟨h1, h2, ?_⟩
  have hpre : runUnits s.log <+: queue.map (fun item => item.unit) := by
    rcases h3 with ⟨_, h4⟩ | ⟨_, h4⟩
    · rw [h4]
      exact ⟨(queue.drop s.nextRunner).map (fun item => item.unit), by
        rw [← List.map_append, List.take_append_drop]⟩
    · exact h4
  rcases hq with hq | hq
  · rw [hq]
    exact h3
  · exact Or.inr ⟨hq, hpre⟩

theorem fifo_reachable (env : Env) (units : AnalyzeUnits) (rs : RunSettings)
    (dc : ClangDiagnosticConfig) (preventBuild : Bool) :
    ∀ s, Reachable env units (create rs dc preventBuild) s →
      Fifo (buildQueue env (create rs dc preventBuild) units) s := by
  apply reachable_invariant
  · apply start_invariant
    · intro evs pf hevs
      simp [Fifo, create, createdClasses_preamble evs hevs, runUnits_preamble evs hevs]
    · intro _
      simp [Fifo, startPrepared, emit, create, createdClasses, runUnits]
    · intro _ _
      have h0 : Fifo (buildQueue env (create rs dc preventBuild) units)
          (startPrepared env units (create rs dc preventBuild)) := by
        simp [Fifo, startPrepared, create, createdClasses, runUnits]
      apply fifo_of_frame h0
      · simp [finalize_eq]
      · simp [finalize_eq]
      · simp only [finalize_eq, createdClasses_append, createdClasses_finalizeEvents,
          List.append_nil]
      · simp only [finalize_eq, runUnits_append, runUnits_finalizeEvents, List.append_nil]
    · intro _ _
      simp [Fifo, startPrepared, emit, create, createdClasses, runUnits]
    · intro s hs _ _
      exact fifo_analyzeNextFile env _ s hs
  · intro s sender d e hs _ _
    apply fifo_analyzeNextFile
    refine fifo_of_frame hs ?_ ?_ ?_ ?_
    · simp [successRecorded]
    · simp [successRecorded]
    · by_cases he : e = "" <;> by_cases hd : d = [] <;>
        simp [successRecorded, createdClasses, he, hd]
    · by_cases he : e = "" <;> by_cases hd : d = [] <;>
        simp [successRecorded, runUnits, he, hd]
  · intro s sender m d hs _ _
    apply fifo_analyzeNextFile
    refine fifo_of_frame hs ?_ ?_ ?_ ?_
    · simp [failureRecorded]
    · simp [failureRecorded]
    · simp [failureRecorded, createdClasses]
    · simp [failureRecorded, runUnits]
  · intro s hs
    apply fifo_of_frame hs
    · simp [stop_eq]
    · simp [stop_eq]
    · simp only [stop_eq, createdClasses_append, createdClasses_stopEvents]
      simp [createdClasses]
    · simp only [stop_eq, runUnits_append, runUnits_stopEvents]
      simp [runUnits]
  · intro s hs
    apply fifo_of_frame hs
    · simp [onProgressCanceled_eq]
    · simp [onProgressCanceled_eq]
    · simp [onProgressCanceled_eq, createdClasses]
    · simp [onProgressCanceled_eq, runUnits]

/-- C7. Dispatch is first-in first-out. In every state of a batch the runners created so
far are those of the first `nextRunner` items of the queue `start` built, the units `run` was
called on are the first units of that queue, and `m_queue` is the rest of that queue or is
empty. Every call of `analyzeNextFile` that finds progress unfinished and a queue
`item :: rest` creates the runner of `item`, leaves `rest` in the queue (or the empty queue,
when the executable is invalid), and calls `run` on the unit of `item` when the executable
is valid. -/
theorem dispatch_is_fifo (env : Env) (units : AnalyzeUnits) (rs : RunSettings)
    (dc : ClangDiagnosticConfig) (preventBuild : Bool) (s : ClangToolRunWorker)
    (hs : Reachable env units (create rs dc preventBuild) s) :
    (s.nextRunner ≤ (buildQueue env (create rs dc preventBuild) units).length ∧
      createdClasses s.log =
        ((buildQueue env (create rs dc preventBuild) units).take s.nextRunner).map
          (fun item => item.runnerCreator) ∧
      runUnits s.log <+:
        (buildQueue env (create rs dc preventBuild) units).map (fun item => item.unit) ∧
      (s.m_queue = (buildQueue env (create rs dc preventBuild) units).drop s.nextRunner ∨
        s.m_queue = [])) ∧
    (∀ (u : ClangToolRunWorker) (item : QueueItem) (rest : List QueueItem),
      u.m_progress.finished = false → u.m_queue = item :: rest →
      createdClasses (analyzeNextFile env u).log = createdClasses u.log ++ [item.runnerCreator] ∧
      (env.isFileExecutable u.nextRunner = true →
        (analyzeNextFile env u).m_queue = rest ∧
        runUnits (analyzeNextFile env u).log = runUnits u.log ++ [item.unit]) ∧
      (env.isFileExecutable u.nextRunner = false →
        (analyzeNextFile env u).m_queue = [] ∧
        runUnits (analyzeNextFile env u).log = runUnits u.log)) := by
  constructor
  · obtain ⟨h1, h2, h3⟩ := fifo_reachable env units rs dc preventBuild s hs
    refine ⟨h1, h2, ?_, ?_⟩
    · rcases h3 with ⟨_, h4⟩ | ⟨_, h4⟩
      · rw [h4]
        exact ⟨((buildQueue env (create rs dc preventBuild) units).drop s.nextRunner).map
          (fun item => item.unit), by rw [← List.map_append, List.take_append_drop]⟩
      · exact h4
    · rcases h3 with ⟨h3, _⟩ | ⟨h3, _⟩
      · exact Or.inl h3
      · exact Or.inr h3
  · intro u item rest hf hq
    apply analyzeNextFile_cases env u (fun t =>
      createdClasses t.log = createdClasses u.log ++ [item.runnerCreator] ∧
      (env.isFileExecutable u.nextRunner = true →
        t.m_queue = rest ∧ runUnits t.log = runUnits u.log ++ [item.unit]) ∧
      (env.isFileExecutable u.nextRunner = false →
        t.m_queue = [] ∧ runUnits t.log = runUnits u.log))
    · intro h; rw [hf] at h; cases h
    · intro _ h _; rw [hq] at h; cases h
    · intro _ h _; rw [hq] at h; cases h
    · intro item2 rest2 _ hq2 he
      rw [hq] at hq2
      cases hq2
      simp only [stop_eq, rejected, dispatched, createdClasses_append,
        createdClasses_stopEvents, runUnits_append, runUnits_stopEvents, he]
      simp [createdClasses, runUnits]
    · intro item2 rest2 _ hq2 he
      rw [hq] at hq2
      cases hq2
      simp only [launched, dispatched, createdClasses_append, runUnits_append, he]
      by_cases hr : env.run u.nextRunner = true <;> simp [createdClasses, runUnits, hr]

/-! ## The empty queue and the invalid bound -/

theorem step_of_no_runners {env : Env} {s t : ClangToolRunWorker} {op : Op}
    (hr : s.m_runners = []) (h : step env s op = some t) :
    t = stop s ∨ t = onProgressCanceled s := by
  cases op with
  | finishedWithSuccess id d e =>
    simp [step, activeRunner, hr] at h
  | finishedWithFailure id m d =>
    simp [step, activeRunner, hr] at h
  | stop =>
    simp only [step, Option.some.injEq] at h
    exact Or.inl h.symm
  | progressCanceled =>
    simp only [step, Option.some.injEq] at h
    exact Or.inr h.symm

theorem noRunnerEver_runOps {env : Env} :
    ∀ (ops : List Op) (s t : ClangToolRunWorker), NoRunnerEver s → runOps env s ops = some t →
      NoRunnerEver t ∧ finalizeCount t = finalizeCount s := by
  intro ops
  induction ops with
  | nil =>
    intro s t hs h
    simp only [runOps, Option.some.injEq] at h
    subst h
    exact ⟨hs, rfl⟩
  | cons op ops ih =>
    intro s t hs h
    simp only [runOps, Option.bind_eq_some] at h
    obtain ⟨u, hu, ht⟩ := h
    have hu2 : NoRunnerEver u ∧ finalizeCount u = finalizeCount s := by
      obtain ⟨h1, h2, h3, h4⟩ := hs
      rcases step_of_no_runners h1 hu with rfl | rfl
      · refine ⟨⟨by simp [stop_eq], by simp [stop_eq, h2], ?_, ?_⟩, ?_⟩
        · simp only [stop_eq, createdClasses_append, createdClasses_stopEvents, h3]
          simp [createdClasses]
        · simp only [stop_eq, runUnits_append, runUnits_stopEvents, h4]
          simp [runUnits]
        · simp [finalizeCount, stop_eq, List.countP_append, countP_summary_stopEvents,
            isFinalizeSummary, List.countP_cons]
      · refine ⟨⟨by simp [onProgressCanceled_eq, h1], by simp [onProgressCanceled_eq, h2],
          ?_, ?_⟩, ?_⟩
        · simp only [onProgressCanceled_eq, createdClasses_append, h3]
          simp [createdClasses]
        · simp only [onProgressCanceled_eq, runUnits_append, h4]
          simp [runUnits]
        · simp [finalizeCount, onProgressCanceled_eq, List.countP_append, isFinalizeSummary,
            List.countP_cons]
    obtain ⟨h5, h6⟩ := ih u t hu2.1 ht
    exact ⟨h5, h6.trans hu2.2⟩

/-- C9. When `start` gets past its early exits with `parallelJobs ≥ 1` and the queue it
builds is empty (no units, or no runner creator), it returns, whatever the fuel, a state in
which `finalize` has run exactly once with the summary of 0 analyzed and 0 failed files, and
in that state and in every state reached from it no runner has been created. -/
theorem empty_queue_finalizes_at_once (env : Env) (units : AnalyzeUnits) (rs : RunSettings)
    (dc : ClangDiagnosticConfig) (preventBuild : Bool)
    (hw : startsAnalysis env (create rs dc preventBuild) = true) (hb : 1 ≤ rs.parallelJobs)
    (hq : units = [] ∨ runnerCreators env (create rs dc preventBuild) = []) (fuel : Nat) :
    ∃ s, start fuel env units (create rs dc preventBuild) = some s ∧
      finalizeCount s = 1 ∧
      Event.appendMessage (Message.finished 0 0) OutputFormat.NormalMessageFormat ∈ s.log ∧
      ∀ (ops : List Op) (t : ClangToolRunWorker), runOps env s ops = some t →
        finalizeCount t = 1 ∧ t.m_runners = [] ∧ t.nextRunner = 0 ∧
          createdClasses t.log = [] ∧ runUnits t.log = [] := by
  have hQ : buildQueue env (create rs dc preventBuild) units = [] := by
    rw [buildQueue_eq]
    rcases hq with h | h
    · simp [h, crossProductQueue]
    · simp [h, crossProductQueue]
  have hb2 : (create rs dc preventBuild).m_runSettings.parallelJobs ≥ 1 := hb
  refine ⟨finalize env { startPrepared env units (create rs dc preventBuild) with
    m_success := true }, ?_, ?_, ?_, ?_⟩
  · rw [start_of_startsAnalysis fuel env units _ hw, if_neg (not_not.mpr hb2), if_pos hQ]
  · simp [finalizeCount, finalize_eq, startPrepared, create, List.countP_append,
      countP_summary_finalizeEvents, isFinalizeSummary, List.countP_cons]
  · simp [finalize_eq, startPrepared, create, finalizeEvents]
  · intro ops t ht
    have h0 : NoRunnerEver (finalize env { startPrepared env units (create rs dc preventBuild)
        with m_success := true }) := by
      refine ⟨by simp [finalize_eq, startPrepared], by simp [finalize_eq, startPrepared, create],
        ?_, ?_⟩
      · simp only [finalize_eq, createdClasses_append, createdClasses_finalizeEvents]
        simp [startPrepared, create, createdClasses]
      · simp only [finalize_eq, runUnits_append, runUnits_finalizeEvents]
        simp [startPrepared, create, runUnits]
    obtain ⟨⟨h1, h2, h3, h4⟩, h5⟩ := noRunnerEver_runOps ops _ t h0 ht
    refine ⟨?_, h1, h2, h3, h4⟩
    rw [h5]
    simp [finalizeCount, finalize_eq, startPrepared, create, List.countP_append,
      countP_summary_finalizeEvents, isFinalizeSummary, List.countP_cons]

/-- C10. With `parallelJobs < 1`, `start` returns, for every environment, every list of
units and every fuel, a state whose log holds a `reportFailure`, in which no runner was
created, `run` was never called and `finalize` did not run; no item of the queue it may
have built was taken from it. -/
theorem invalid_bound_fails_without_runner (env : Env) (units : AnalyzeUnits)
    (rs : RunSettings) (dc : ClangDiagnosticConfig) (preventBuild : Bool)
    (hb : rs.parallelJobs < 1) (fuel : Nat) :
    ∃ s, start fuel env units (create rs dc preventBuild) = some s ∧
      (∃ m, Event.reportFailure m ∈ s.log) ∧
      s.m_runners = [] ∧ s.nextRunner = 0 ∧ createdClasses s.log = [] ∧ runUnits s.log = [] ∧
      finalizeCount s = 0 ∧
      (s.m_queue = buildQueue env (create rs dc preventBuild) units ∨ s.m_queue = []) := by
  by_cases hw : startsAnalysis env (create rs dc preventBuild) = true
  · have hb2 : ¬ ((create rs dc preventBuild).m_runSettings.parallelJobs ≥ 1) := by
      simp [create]; omega
    refine ⟨(startPrepared env units (create rs dc preventBuild)).emit
      (Event.reportFailure none), ?_, ⟨none, ?_⟩, ?_, ?_, ?_, ?_, ?_, ?_⟩
    · rw [start_of_startsAnalysis fuel env units _ hw, if_pos hb2]
    · simp [emit]
    · simp [emit, startPrepared]
    · simp [emit, startPrepared, create]
    · simp [emit, startPrepared, create, createdClasses]
    · simp [emit, startPrepared, create, runUnits]
    · simp [finalizeCount, emit, startPrepared, create, isFinalizeSummary, List.countP_cons]
    · left
      simp [emit, startPrepared]
  · have hw2 : startsAnalysis env (create rs dc preventBuild) = false := by simpa using hw
    obtain ⟨evs, pf, hevs, ⟨m, hm⟩, heq⟩ :=
      start_of_not_startsAnalysis fuel env units (create rs dc preventBuild) hw2
    refine ⟨_, heq, ⟨m, ?_⟩, ?_, ?_, ?_, ?_, ?_, ?_⟩
    · simp [hm]
    · simp [create]
    · simp [create]
    · simp [create, createdClasses_preamble evs hevs]
    · simp [create, runUnits_preamble evs hevs]
    · simp [finalizeCount, create, countP_summary_preamble evs hevs]
    · right
      simp [create]

/-! ## Batches without a failed dispatch -/

theorem QSet.mem_insert {α : Type} [DecidableEq α] (a b : α) (l : List α) :
    b ∈ QSet.insert a l ↔ b = a ∨ b ∈ l := by
  unfold QSet.insert
  split
  · constructor
    · intro h; exact Or.inr h
    · rintro (h | h)
      · subst h; assumption
      · exact h
  · simp [or_comm]

theorem normal_analyzeNextFile (env : Env) (hexec : ∀ i, env.isFileExecutable i = true)
    (hrun : ∀ i, env.run i = true) (queue : List QueueItem) (s : ClangToolRunWorker)
    (h : Normal queue s) : Normal queue (analyzeNextFile env s) := by
  apply analyzeNextFile_cases env s (Normal queue)
  · intro _; exact h
  all_goals unfold Normal at h ⊢
  · intro _ hq hr
    obtain ⟨h1, h2, h3, h4, h5, h6, h7⟩ := h
    simp only [finalize_eq, createdClasses_append, createdClasses_finalizeEvents,
      runUnits_append, runUnits_finalizeEvents, List.append_nil]
    exact ⟨h1, h2, h3, h4, fun _ => ⟨hq, hr⟩, h6, h7⟩
  · intro _ _ _; exact h
  · intro item rest _ _ he
    rw [hexec] at he
    cases he
  · intro item rest hf hq _
    obtain ⟨h1, h2, h3, h4, h5, h6, h7⟩ := h
    rw [hq] at h2
    obtain ⟨hk, htake, hdrop⟩ := drop_eq_cons h2.symm
    have hitem : queue[s.nextRunner]? = some item := by
      have := congrArg (fun x => x[0]?) h2
      simpa [List.getElem?_drop] using this.symm
    simp only [launched, dispatched, createdClasses_append, runUnits_append, hrun]
    refine ⟨hk, hdrop.symm, h3, ?_, ?_, ?_, ?_⟩
    · intro r hr
      rw [QSet.mem_insert] at hr
      rcases hr with rfl | hr
      · exact ⟨Nat.lt_succ_self _, rfl, item, hitem, rfl, rfl⟩
      · obtain ⟨h6, h7, h8⟩ := h4 r hr
        exact ⟨Nat.lt_succ_of_lt h6, h7, h8⟩
    · intro hfin
      rw [hf] at hfin
      cases hfin
    · rw [h6, htake]
      simp [createdClasses]
    · rw [h7, htake]
      simp [createdClasses, runUnits]

theorem normal_of_frame {queue : List QueueItem} {s t : ClangToolRunWorker}
    (h : Normal queue s) (hn : t.nextRunner = s.nextRunner) (hq : t.m_queue = s.m_queue)
    (hi : t.m_initialQueueSize = s.m_initialQueueSize)
    (hr : ∀ r ∈ t.m_runners, r ∈ s.m_runners)
    (hp : t.m_progress.finished = s.m_progress.finished)
    (hc : createdClasses t.log = createdClasses s.log)
    (hu : runUnits t.log = runUnits s.log) : Normal queue t := by
  unfold Normal at h ⊢
  obtain ⟨h1, h2, h3, h4, h5, h6, h7⟩ := h
  rw [hn, hq, hi, hp, hc, hu]
  refine ⟨h1, h2, h3, fun r hrt => h4 r (hr r hrt), fun hf => ⟨(h5 hf).1, ?_⟩, h6, h7⟩
  have := (h5 hf).2
  rcases ht : t.m_runners with _ | ⟨r, l⟩
  · rfl
  · have := hr r (by rw [ht]; exact List.mem_cons_self _ _)
    simp_all

theorem normal_successRecorded {queue : List QueueItem} {s : ClangToolRunWorker}
    (h : Normal queue s) (sender : ClangToolRunner) (filePath : String) (d : Diagnostics)
    (e : String) : Normal queue (successRecorded sender filePath d e s) := by
  refine normal_of_frame h ?_ ?_ ?_ ?_ ?_ ?_ ?_
  · simp [successRecorded]
  · simp [successRecorded]
  · simp [successRecorded]
  · intro r hr
    simp only [successRecorded, QSet.remove] at hr
    exact List.mem_of_mem_erase hr
  · simp [successRecorded]
  · by_cases he : e = "" <;> by_cases hd : d = [] <;>
      simp [successRecorded, createdClasses, he, hd]
  · by_cases he : e = "" <;> by_cases hd : d = [] <;>
      simp [successRecorded, runUnits, he, hd]

theorem normal_failureRecorded {queue : List QueueItem} {s : ClangToolRunWorker}
    (h : Normal queue s) (sender : ClangToolRunner) (m : String) (d : String) :
    Normal queue (failureRecorded sender m d s) := by
  refine normal_of_frame h ?_ ?_ ?_ ?_ ?_ ?_ ?_
  · simp [failureRecorded]
  · simp [failureRecorded]
  · simp [failureRecorded]
  · intro r hr
    simp only [failureRecorded, QSet.remove] at hr
    exact List.mem_of_mem_erase hr
  · simp [failureRecorded]
  · simp [failureRecorded, createdClasses]
  · simp [failureRecorded, runUnits]

theorem normal_start {env : Env} (hexec : ∀ i, env.isFileExecutable i = true)
    (hrun : ∀ i, env.run i = true) {units : AnalyzeUnits} {w0 : ClangToolRunWorker}
    (hn : w0.nextRunner = 0) (hl : w0.log = [])
    (hw : startsAnalysis env w0 = true) (hb : 1 ≤ w0.m_runSettings.parallelJobs) :
    ∀ (fuel : Nat) (s : ClangToolRunWorker), start fuel env units w0 = some s →
      Normal (buildQueue env w0 units) s := by
  apply start_invariant_analysis env units w0 hw
  · intro h; exact absurd hb h
  · intro _ hq
    simp only [Normal, finalize_eq, createdClasses_append, createdClasses_finalizeEvents,
      runUnits_append, runUnits_finalizeEvents]
    simp [startPrepared, hn, hq, hl, createdClasses, runUnits]
  · intro _ _
    simp [Normal, emit, startPrepared, hn, hl, createdClasses, runUnits]
  · intro s hs _ _
    exact normal_analyzeNextFile env hexec hrun _ s hs

theorem normal_step {env : Env} (hexec : ∀ i, env.isFileExecutable i = true)
    (hrun : ∀ i, env.run i = true) {queue : List QueueItem} {s t : ClangToolRunWorker}
    {op : Op} (h : Normal queue s) (hop : op ≠ Op.stop) (hst : step env s op = some t) :
    Normal queue t := by
  cases op with
  | finishedWithSuccess id d e =>
    simp only [step, Option.map_eq_some'] at hst
    obtain ⟨sender, -, rfl⟩ := hst
    rw [onRunnerFinishedWithSuccess_eq]
    exact normal_analyzeNextFile env hexec hrun _ _ (normal_successRecorded h _ _ _ _)
  | finishedWithFailure id m d =>
    simp only [step, Option.map_eq_some'] at hst
    obtain ⟨sender, -, rfl⟩ := hst
    rw [onRunnerFinishedWithFailure_eq]
    exact normal_analyzeNextFile env hexec hrun _ _ (normal_failureRecorded h _ _ _)
  | stop => exact absurd rfl hop
  | progressCanceled =>
    simp only [step, Option.some.injEq] at hst
    subst hst
    refine normal_of_frame h ?_ ?_ ?_ ?_ ?_ ?_ ?_ <;>
      simp [onProgressCanceled_eq, createdClasses, runUnits]

/-! ## Filling the pool -/

theorem analyzeNextFile_eq_launched {env : Env} {s : ClangToolRunWorker} {item : QueueItem}
    {rest : List QueueItem} (hf : s.m_progress.finished = false) (hq : s.m_queue = item :: rest)
    (he : env.isFileExecutable s.nextRunner = true) :
    analyzeNextFile env s = launched env item rest s := by
  apply analyzeNextFile_cases env s (fun t => t = launched env item rest s)
  · intro h; rw [hf] at h; cases h
  · intro _ h _; rw [hq] at h; cases h
  · intro _ h _; rw [hq] at h; cases h
  · intro _ _ _ _ h; rw [he] at h; cases h
  · intro item2 rest2 _ hq2 _
    rw [hq] at hq2
    cases hq2
    rfl

theorem filling_launched {env : Env} (hexec : ∀ i, env.isFileExecutable i = true)
    (hrun : ∀ i, env.run i = true) {queue : List QueueItem} {b : Int}
    {s : ClangToolRunWorker} {item : QueueItem} {rest : List QueueItem}
    (h : Filling queue b s) (hq : s.m_queue = item :: rest)
    (hlt : (s.m_runners.length : Int) < b) :
    Filling queue b (launched env item rest s) ∧
      (launched env item rest s).m_runners.length = s.m_runners.length + 1 ∧
      (launched env item rest s).m_queue = rest := by
  obtain ⟨hn, hf, hids, hle⟩ := h
  have hn2 : Normal queue (launched env item rest s) := by
    rw [← analyzeNextFile_eq_launched hf hq (hexec _)]
    exact normal_analyzeNextFile env hexec hrun queue s hn
  have hfresh : (ClangToolRunner.mk s.nextRunner item.runnerCreator item.unit.file
      (env.run s.nextRunner)) ∉ s.m_runners := by
    intro hmem
    have := (hn.2.2.2.1 _ hmem).1
    simp at this
  have hins : (launched env item rest s).m_runners = s.m_runners ++
      [ClangToolRunner.mk s.nextRunner item.runnerCreator item.unit.file
        (env.run s.nextRunner)] := by
    simp [launched, dispatched, QSet.insert, hfresh]
  refine ⟨⟨hn2, ?_, ?_, ?_⟩, ?_, ?_⟩
  · simpa [launched, dispatched] using hf
  · rw [hins]
    simp [launched, dispatched, hids, List.range_succ]
  · rw [hins]
    simp
    omega
  · rw [hins]
    simp
  · simp [launched, dispatched]

/-- With every executable valid and every `run` true, the fill loop ends when its fuel is
at least the smaller of the queue length and the number of free slots; it ends in a state
of the loop in which the loop condition is false. -/
theorem startLoop_filling {env : Env} (hexec : ∀ i, env.isFileExecutable i = true)
    (hrun : ∀ i, env.run i = true) (queue : List QueueItem) (b : Int) :
    ∀ (fuel : Nat) (s : ClangToolRunWorker), Filling queue b s →
      ((s.m_queue.length : Int) ≤ fuel ∨ b - s.m_runners.length ≤ fuel) →
      ∃ t, startLoop env b fuel s = some t ∧ Filling queue b t ∧
        ¬ ((t.m_runners.length : Int) < b ∧ t.m_queue ≠ []) := by
  intro fuel
  induction fuel with
  | zero =>
    intro s hs hfuel
    have hc : ¬ ((s.m_runners.length : Int) < b ∧ s.m_queue ≠ []) := by
      rintro ⟨h1, h2⟩
      rcases hfuel with h | h
      · have : s.m_queue.length = 0 := by
          simp at h
          simp [h]
        exact h2 (List.length_eq_zero.mp this)
      · simp at h
        omega
    exact ⟨s, by simp [startLoop, hc], hs, hc⟩
  | succ fuel ih =>
    intro s hs hfuel
    by_cases hc : (s.m_runners.length : Int) < b ∧ s.m_queue ≠ []
    · obtain ⟨hlt, hne⟩ := hc
      rcases hq : s.m_queue with _ | ⟨item, rest⟩
      · exact absurd hq hne
      · obtain ⟨h1, h2, h3⟩ := filling_launched hexec hrun hs hq hlt
        have hfuel2 : ((launched env item rest s).m_queue.length : Int) ≤ fuel ∨
            b - (launched env item rest s).m_runners.length ≤ fuel := by
          rw [h2, h3]
          rw [hq] at hfuel
          simp at hfuel
          rcases hfuel with h | h
          · left; omega
          · right; push_cast; omega
        obtain ⟨t, ht, ht2, ht3⟩ := ih _ h1 hfuel2
        refine ⟨t, ?_, ht2, ht3⟩
        rw [startLoop, if_pos ⟨hlt, hne⟩, analyzeNextFile_eq_launched hs.2.1 hq (hexec _)]
        exact ht
    · exact ⟨s, by simp [startLoop, hc], hs, hc⟩

/-! ## The result sets of a complete batch -/

theorem failedFile_append (queue : List QueueItem) (done : List Op) (op : Op) (f : String) :
    failedFile queue (done ++ [op]) f ↔
      failedFile queue done f ∨
        (op.failed = true ∧ ∃ i, op.runner = some i ∧ fileOf queue i = some f) := by
  unfold failedFile
  constructor
  · rintro ⟨op2, hmem, h⟩
    rw [List.mem_append, List.mem_singleton] at hmem
    rcases hmem with hmem | rfl
    · exact Or.inl ⟨op2, hmem, h⟩
    · exact Or.inr h
  · rintro (⟨op2, hmem, h⟩ | h)
    · exact ⟨op2, List.mem_append_left _ hmem, h⟩
    · exact ⟨op, by simp, h⟩

theorem passedFile_append (queue : List QueueItem) (done : List Op) (op : Op) (f : String) :
    passedFile queue (done ++ [op]) f ↔
      passedFile queue done f ∨
        (op.failed = false ∧ ∃ i, op.runner = some i ∧ fileOf queue i = some f) := by
  unfold passedFile
  constructor
  · rintro ⟨op2, hmem, h⟩
    rw [List.mem_append, List.mem_singleton] at hmem
    rcases hmem with hmem | rfl
    · exact Or.inl ⟨op2, hmem, h⟩
    · exact Or.inr h
  · rintro (⟨op2, hmem, h⟩ | h)
    · exact ⟨op2, List.mem_append_left _ hmem, h⟩
    · exact ⟨op, by simp, h⟩

theorem analyzeNextFile_runners {env : Env} (hexec : ∀ i, env.isFileExecutable i = true)
    (s : ClangToolRunWorker) :
    (∀ r ∈ s.m_runners, r ∈ (analyzeNextFile env s).m_runners) ∧
      (∀ i, i < (analyzeNextFile env s).nextRunner →
        i < s.nextRunner ∨ ∃ r ∈ (analyzeNextFile env s).m_runners, r.id = i) := by
  apply analyzeNextFile_cases env s (fun t =>
    (∀ r ∈ s.m_runners, r ∈ t.m_runners) ∧
      (∀ i, i < t.nextRunner → i < s.nextRunner ∨ ∃ r ∈ t.m_runners, r.id = i))
  · intro _; exact ⟨fun r h => h, fun i h => Or.inl h⟩
  · intro _ _ _
    simp only [finalize_eq]
    exact ⟨fun r h => h, fun i h => Or.inl h⟩
  · intro _ _ _; exact ⟨fun r h => h, fun i h => Or.inl h⟩
  · intro _ _ _ _ h; rw [hexec] at h; cases h
  · intro item rest _ _ _
    simp only [launched, dispatched]
    refine ⟨fun r h => (QSet.mem_insert _ _ _).mpr (Or.inr h), fun i h => ?_⟩
    rcases Nat.lt_succ_iff_lt_or_eq.mp h with h | h
    · exact Or.inl h
    · exact Or.inr ⟨_, (QSet.mem_insert _ _ _).mpr (Or.inl rfl), h.symm⟩

theorem results_analyzeNextFile {env : Env} (hexec : ∀ i, env.isFileExecutable i = true)
    {queue : List QueueItem} {done : List Op} {s : ClangToolRunWorker}
    (h : Results queue done s) : Results queue done (analyzeNextFile env s) := by
  obtain ⟨h1, h2, h3⟩ := h
  obtain ⟨h4, h5⟩ := analyzeNextFile_runners hexec s
  refine ⟨?_, ?_, ?_⟩
  · rw [(analyzeNextFile_files env s).2]
    exact h1
  · rw [(analyzeNextFile_files env s).1]
    exact h2
  · intro i hi
    rcases h5 i hi with h | h
    · rcases h3 i h with h | ⟨r, hr, hri⟩
      · exact Or.inl h
      · exact Or.inr ⟨r, h4 r hr, hri⟩
    · exact Or.inr h

theorem results_step {env : Env} (hexec : ∀ i, env.isFileExecutable i = true)
    {queue : List QueueItem} {done : List Op} {s t : ClangToolRunWorker} {op : Op}
    (hn : Normal queue s) (h : Results queue done s) (hop : op.isCompletion = true)
    (hst : step env s op = some t) : Results queue (done ++ [op]) t := by
  obtain ⟨h1, h2, h3⟩ := h
  have hcover : ∀ (sender : ClangToolRunner) (u : ClangToolRunWorker),
      op.runner = some sender.id → u.nextRunner = s.nextRunner →
      u.m_runners = QSet.remove sender s.m_runners →
      ∀ i, i < u.nextRunner → (∃ op2 ∈ done ++ [op], op2.runner = some i) ∨
        ∃ r ∈ u.m_runners, r.id = i := by
    intro sender u hrun hnext hrs i hi
    rw [hnext] at hi
    rcases h3 i hi with ⟨op2, hmem, h⟩ | ⟨r, hr, hri⟩
    · exact Or.inl ⟨op2, List.mem_append_left _ hmem, h⟩
    · by_cases hrs2 : r = sender
      · subst hrs2
        exact Or.inl ⟨op, by simp, by rw [hrun, hri]⟩
      · refine Or.inr ⟨r, ?_, hri⟩
        rw [hrs]
        exact (List.mem_erase_of_ne hrs2).mpr hr
  cases op with
  | finishedWithSuccess id d e =>
    simp only [step, Option.map_eq_some'] at hst
    obtain ⟨sender, hsender, rfl⟩ := hst
    obtain ⟨hm, hid, -⟩ := activeRunner_some hsender
    obtain ⟨-, -, item, hitem, hfile, -⟩ := hn.2.2.2.1 sender hm
    have hfileOf : fileOf queue id = some sender.fileToAnalyze := by
      rw [← hid]
      simp [fileOf, hitem, hfile]
    rw [onRunnerFinishedWithSuccess_eq]
    apply results_analyzeNextFile hexec
    refine ⟨?_, ?_, ?_⟩
    · intro f
      rw [failedFile_append, ← h1 f]
      by_cases he : e = ""
      · simp [successRecorded, he, Op.failed]
      · simp only [successRecorded, he, ne_eq, not_false_eq_true, if_true, Finset.mem_insert,
          Op.failed, decide_True, Op.runner, Option.some.injEq, exists_eq_left', hfileOf,
          true_and]
        rw [or_comm, eq_comm]
    · intro f
      rw [failedFile_append, passedFile_append, ← h1 f]
      by_cases he : e = ""
      · by_cases hmem : sender.fileToAnalyze ∈ s.m_filesNotAnalyzed
        · simp only [successRecorded, he, hmem, ne_eq, not_true_eq_false, if_false,
            not_false_eq_true, Op.failed, decide_False, Op.runner, Option.some.injEq,
            exists_eq_left', hfileOf, true_and, Bool.false_eq_true, false_and, or_false]
          rw [h2 f, ← h1 f]
          constructor
          · rintro ⟨h5, h6⟩
            exact ⟨Or.inl h5, h6⟩
          · rintro ⟨h5 | h5, h6⟩
            · exact ⟨h5, h6⟩
            · exact absurd (h5 ▸ hmem) h6
        · simp only [successRecorded, he, hmem, ne_eq, not_true_eq_false, if_false,
            not_false_eq_true, if_true, Finset.mem_insert, Op.failed, decide_False, Op.runner,
            Option.some.injEq, exists_eq_left', hfileOf, true_and, Bool.false_eq_true,
            false_and, or_false]
          rw [h2 f, ← h1 f]
          constructor
          · rintro (h5 | ⟨h5, h6⟩)
            · exact ⟨Or.inr h5.symm, h5 ▸ hmem⟩
            · exact ⟨Or.inl h5, h6⟩
          · rintro ⟨h5 | h5, h6⟩
            · exact Or.inr ⟨h5, h6⟩
            · exact Or.inl h5.symm
      · simp only [successRecorded, he, ne_eq, not_false_eq_true, if_true, Finset.mem_erase,
          Finset.mem_insert, Op.failed, decide_True, Op.runner, Option.some.injEq,
          exists_eq_left', hfileOf, true_and, Bool.true_eq_false, false_and, or_false]
        rw [h2 f, ← h1 f]
        constructor
        · rintro ⟨h5, h6, h7⟩
          exact ⟨h6, fun h8 => h8.elim h7 (fun h9 => h5 h9.symm)⟩
        · rintro ⟨h5, h6⟩
          exact ⟨fun h7 => h6 (Or.inr h7.symm), h5, fun h7 => h6 (Or.inl h7)⟩
    · exact hcover sender _ (by simp [Op.runner, hid]) (by simp [successRecorded])
        (by simp [successRecorded])
  | finishedWithFailure id m d =>
    simp only [step, Option.map_eq_some'] at hst
    obtain ⟨sender, hsender, rfl⟩ := hst
    obtain ⟨hm, hid, -⟩ := activeRunner_some hsender
    obtain ⟨-, -, item, hitem, hfile, -⟩ := hn.2.2.2.1 sender hm
    have hfileOf : fileOf queue id = some sender.fileToAnalyze := by
      rw [← hid]
      simp [fileOf, hitem, hfile]
    rw [onRunnerFinishedWithFailure_eq]
    apply results_analyzeNextFile hexec
    refine ⟨?_, ?_, ?_⟩
    · intro f
      rw [failedFile_append, ← h1 f]
      simp only [failureRecorded, Finset.mem_insert, Op.failed, Op.runner, Option.some.injEq,
        exists_eq_left', hfileOf, true_and]
      rw [or_comm, eq_comm]
    · intro f
      rw [failedFile_append, passedFile_append, ← h1 f]
      simp only [failureRecorded, Finset.mem_erase, Finset.mem_insert, Op.failed, Op.runner,
        Option.some.injEq, exists_eq_left', hfileOf, true_and, Bool.true_eq_false, false_and,
        or_false]
      rw [h2 f, ← h1 f]
      constructor
      · rintro ⟨h5, h6, h7⟩
        exact ⟨h6, fun h8 => h8.elim h7 (fun h9 => h5 h9.symm)⟩
      · rintro ⟨h5, h6⟩
        exact ⟨fun h7 => h6 (Or.inr h7.symm), h5, fun h7 => h6 (Or.inl h7)⟩
    · exact hcover sender _ (by simp [Op.runner, hid]) (by simp [failureRecorded])
        (by simp [failureRecorded])
  | stop => simp [Op.isCompletion, Op.runner] at hop
  | progressCanceled => simp [Op.isCompletion, Op.runner] at hop

theorem results_runOps {env : Env} (hexec : ∀ i, env.isFileExecutable i = true)
    (hrun : ∀ i, env.run i = true) {queue : List QueueItem} :
    ∀ (ops done : List Op) (s t : ClangToolRunWorker), Normal queue s → Results queue done s →
      (∀ op ∈ ops, op.isCompletion = true) → runOps env s ops = some t →
      Normal queue t ∧ Results queue (done ++ ops) t := by
  intro ops
  induction ops with
  | nil =>
    intro done s t hn hr _ h
    simp only [runOps, Option.some.injEq] at h
    subst h
    simpa using ⟨hn, hr⟩
  | cons op ops ih =>
    intro done s t hn hr hops h
    simp only [runOps, Option.bind_eq_some] at h
    obtain ⟨u, hu, ht⟩ := h
    have hop : op.isCompletion = true := hops op (List.mem_cons_self _ _)
    have hne : op ≠ Op.stop := by
      intro h; subst h; simp [Op.isCompletion, Op.runner] at hop
    have h1 := normal_step hexec hrun hn hne hu
    have h2 := results_step hexec hn hr hop hu
    have := ih (done ++ [op]) u t h1 h2 (fun o ho => hops o (List.mem_cons_of_mem _ ho)) ht
    simpa using this

theorem runOps_completions_of_no_runners {env : Env} {s t : ClangToolRunWorker}
    {ops : List Op} (hr : s.m_runners = []) (hops : ∀ op ∈ ops, op.isCompletion = true)
    (h : runOps env s ops = some t) : t = s := by
  cases ops with
  | nil =>
    simp only [runOps, Option.some.injEq] at h
    exact h.symm
  | cons op ops =>
    simp only [runOps, Option.bind_eq_some] at h
    obtain ⟨u, hu, -⟩ := h
    have hop := hops op (List.mem_cons_self _ _)
    rcases step_of_no_runners hr hu with h1 | h1 <;>
      cases op <;> simp [Op.isCompletion, Op.runner, step, activeRunner, hr] at hop hu

/-- A batch that reaches `finalize` through completions only was started past the early
exits of `start` and with `parallelJobs ≥ 1`. -/
theorem start_ok_of_finalized {env : Env} {units : AnalyzeUnits} {rs : RunSettings}
    {dc : ClangDiagnosticConfig} {preventBuild : Bool} {fuel : Nat}
    {s0 s : ClangToolRunWorker} {ops : List Op}
    (hstart : start fuel env units (create rs dc preventBuild) = some s0)
    (hops : ∀ op ∈ ops, op.isCompletion = true) (hrunOps : runOps env s0 ops = some s)
    (hfin : finalizeCount s = 1) :
    startsAnalysis env (create rs dc preventBuild) = true ∧ 1 ≤ rs.parallelJobs := by
  by_cases hw : startsAnalysis env (create rs dc preventBuild) = true
  · refine ⟨hw, ?_⟩
    by_contra hb
    have hb2 : ¬ ((create rs dc preventBuild).m_runSettings.parallelJobs ≥ 1) := by
      simpa [create] using hb
    rw [start_of_startsAnalysis fuel env units _ hw, if_pos hb2] at hstart
    cases hstart
    have := runOps_completions_of_no_runners (by simp [emit, startPrepared]) hops hrunOps
    subst this
    simp [finalizeCount, emit, startPrepared, create, isFinalizeSummary, List.countP_cons]
      at hfin
  · have hw2 : startsAnalysis env (create rs dc preventBuild) = false := by simpa using hw
    obtain ⟨evs, pf, hevs, -, heq⟩ :=
      start_of_not_startsAnalysis fuel env units (create rs dc preventBuild) hw2
    rw [heq] at hstart
    cases hstart
    have := runOps_completions_of_no_runners (by simp [create]) hops hrunOps
    subst this
    simp [finalizeCount, create, countP_summary_preamble evs hevs] at hfin

theorem results_start {env : Env} (hexec : ∀ i, env.isFileExecutable i = true)
    {units : AnalyzeUnits} {w0 : ClangToolRunWorker} (hn : w0.nextRunner = 0)
    (hw : startsAnalysis env w0 = true) (hb : 1 ≤ w0.m_runSettings.parallelJobs) :
    ∀ (fuel : Nat) (s : ClangToolRunWorker), start fuel env units w0 = some s →
      Results (buildQueue env w0 units) [] s := by
  apply start_invariant_analysis env units w0 hw
  · intro h; exact absurd hb h
  · intro _ _
    simp [Results, finalize_eq, startPrepared, hn, failedFile, passedFile]
  · intro _ _
    simp [Results, emit, startPrepared, hn, failedFile, passedFile]
  · intro s hs _ _
    exact results_analyzeNextFile hexec hs

/-- The result sets when a batch has finalized after the completions `ops`. -/
theorem results_of_finalized {env : Env} (hexec : ∀ i, env.isFileExecutable i = true)
    (hrun : ∀ i, env.run i = true) {units : AnalyzeUnits} {rs : RunSettings}
    {dc : ClangDiagnosticConfig} {preventBuild : Bool} {fuel : Nat}
    {s0 s : ClangToolRunWorker} {ops : List Op}
    (hstart : start fuel env units (create rs dc preventBuild) = some s0)
    (hops : ∀ op ∈ ops, op.isCompletion = true) (hrunOps : runOps env s0 ops = some s)
    (hfin : finalizeCount s = 1) :
    (∀ i, i < (buildQueue env (create rs dc preventBuild) units).length →
      ∃ op ∈ ops, op.runner = some i) ∧
    (∀ f, f ∈ s.m_filesNotAnalyzed ↔
      failedFile (buildQueue env (create rs dc preventBuild) units) ops f) ∧
    (∀ f, f ∈ s.m_filesAnalyzed ↔
      (∃ item ∈ buildQueue env (create rs dc preventBuild) units, item.unit.file = f) ∧
        ¬ failedFile (buildQueue env (create rs dc preventBuild) units) ops f) := by
  obtain ⟨hw, hb⟩ := start_ok_of_finalized hstart hops hrunOps hfin
  have hn0 := @normal_start env hexec hrun units (create rs dc preventBuild)
    rfl rfl hw hb fuel s0 hstart
  have hr0 := @results_start env hexec units (create rs dc preventBuild)
    rfl hw hb fuel s0 hstart
  obtain ⟨hn, hr⟩ := results_runOps hexec hrun ops [] s0 s hn0 hr0 hops hrunOps
  rw [List.nil_append] at hr
  have hreach : Reachable env units (create rs dc preventBuild) s :=
    reachable_runOps (Reachable.start fuel s0 hstart) ops s hrunOps
  obtain ⟨hfinished, hempty⟩ := (finalizeOnce_reachable env units rs dc preventBuild s hreach).2 hfin
  obtain ⟨h1, h2, h3⟩ := hr
  have hq := (hn.2.2.2.2.1 hfinished).1
  rw [hn.2.1, List.drop_eq_nil_iff] at hq
  have hcover : ∀ i, i < (buildQueue env (create rs dc preventBuild) units).length →
      ∃ op ∈ ops, op.runner = some i := by
    intro i hi
    rcases h3 i (by omega) with h | ⟨r, hr, -⟩
    · exact h
    · rw [hempty] at hr
      cases hr
  refine ⟨hcover, h1, fun f => ?_⟩
  rw [h2 f]
  constructor
  · rintro ⟨⟨op, -, -, i, -, hfile⟩, h5⟩
    refine ⟨?_, h5⟩
    unfold fileOf at hfile
    rcases hi : (buildQueue env (create rs dc preventBuild) units)[i]? with _ | item
    · simp [hi] at hfile
    · simp [hi] at hfile
      exact ⟨item, List.getElem?_mem hi, hfile⟩
  · rintro ⟨⟨item, hitem, hfile⟩, h5⟩
    refine ⟨?_, h5⟩
    obtain ⟨i, hi, hget⟩ := List.mem_iff_getElem.mp hitem
    obtain ⟨op, hop, hrunner⟩ := hcover i hi
    have hfo : fileOf (buildQueue env (create rs dc preventBuild) units) i = some f := by
      simp [fileOf, List.getElem?_eq_getElem hi, hget, hfile]
    refine ⟨op, hop, ?_, i, hrunner, hfo⟩
    by_contra hfailed
    have hfailed2 : op.failed = true := by simpa using hfailed
    exact h5 ⟨op, hop, hfailed2, i, hrunner, hfo⟩

theorem failedFile_perm {queue : List QueueItem} {ops ops2 : List Op} (h : ops2.Perm ops)
    (f : String) : failedFile queue ops2 f ↔ failedFile queue ops f := by
  unfold failedFile
  constructor
  · rintro ⟨op, hop, h2⟩
    exact ⟨op, h.mem_iff.mp hop, h2⟩
  · rintro ⟨op, hop, h2⟩
    exact ⟨op, h.mem_iff.mpr hop, h2⟩

/-- C5. Take a batch in which every executable is valid and every `run` returns true, and
which has finalized after the completions `ops` (no `stop`, no cancel), so that every queue
item was dispatched and has completed. Then a file is in `m_filesNotAnalyzed` if and only if
one of its tool runs ended in a failure or an unreadable output, and it is in
`m_filesAnalyzed` if and only if it is the file of a queue item and is not in
`m_filesNotAnalyzed`; and a batch that finalizes after the same completions in another
arrival order ends with the same two sets. -/
theorem result_sets_of_complete_batch (env : Env) (hexec : ∀ i, env.isFileExecutable i = true)
    (hrun : ∀ i, env.run i = true) (units : AnalyzeUnits) (rs : RunSettings)
    (dc : ClangDiagnosticConfig) (preventBuild : Bool) (fuel : Nat)
    (s0 s : ClangToolRunWorker) (ops : List Op)
    (hstart : start fuel env units (create rs dc preventBuild) = some s0)
    (hops : ∀ op ∈ ops, op.isCompletion = true) (hrunOps : runOps env s0 ops = some s)
    (hfin : finalizeCount s = 1) :
    (∀ i, i < (buildQueue env (create rs dc preventBuild) units).length →
      ∃ op ∈ ops, op.runner = some i) ∧
    (∀ f, f ∈ s.m_filesNotAnalyzed ↔
      failedFile (buildQueue env (create rs dc preventBuild) units) ops f) ∧
    (∀ f, f ∈ s.m_filesAnalyzed ↔
      (∃ item ∈ buildQueue env (create rs dc preventBuild) units, item.unit.file = f) ∧
        f ∉ s.m_filesNotAnalyzed) ∧
    (∀ (ops2 : List Op) (s2 : ClangToolRunWorker), (∀ op ∈ ops2, op.isCompletion = true) →
      runOps env s0 ops2 = some s2 → finalizeCount s2 = 1 → ops2.Perm ops →
      s2.m_filesAnalyzed = s.m_filesAnalyzed ∧
        s2.m_filesNotAnalyzed = s.m_filesNotAnalyzed) := by
  obtain ⟨h0, h1, h2⟩ := results_of_finalized hexec hrun hstart hops hrunOps hfin
  refine ⟨h0, h1, fun f => ?_, ?_⟩
  · rw [h2 f, h1 f]
  · intro ops2 s2 hops2 hrunOps2 hfin2 hperm
    obtain ⟨-, h3, h4⟩ := results_of_finalized hexec hrun hstart hops2 hrunOps2 hfin2
    constructor
    · ext f
      rw [h4 f, h2 f, failedFile_perm hperm f]
    · ext f
      rw [h3 f, h1 f, failedFile_perm hperm f]

/-! ## The summary of `finalize` -/

theorem finalizeCount_zero_of_not_finished {s : ClangToolRunWorker} (h : FinalizeOnce s)
    (hf : s.m_progress.finished = false ∨ s.m_runners ≠ []) : finalizeCount s = 0 := by
  rcases Nat.lt_or_ge (finalizeCount s) 1 with h1 | h1
  · omega
  · have h2 := h.2 (by have := h.1; omega)
    rcases hf with hf | hf
    · rw [hf] at h2
      simp at h2
    · exact absurd h2.2 hf

theorem summaryLogged_analyzeNextFile (env : Env) (s : ClangToolRunWorker)
    (h : SummaryLogged s) : SummaryLogged (analyzeNextFile env s) := by
  refine ⟨finalizeOnce_analyzeNextFile env s h.1, ?_⟩
  rw [(analyzeNextFile_files env s).1, (analyzeNextFile_files env s).2]
  apply analyzeNextFile_cases env s (fun t => finalizeCount t = 1 →
      Event.appendMessage (Message.finished s.m_filesAnalyzed.card s.m_filesNotAnalyzed.card)
        OutputFormat.NormalMessageFormat ∈ t.log)
  · intro _; exact h.2
  · intro _ _ _ _
    simp [finalize_eq, finalizeEvents]
  · intro _ _ _; exact h.2
  · intro item rest hf _ _ hc
    have h0 := finalizeCount_zero_of_not_finished h.1 (Or.inl hf)
    unfold finalizeCount at h0 hc
    simp [stop_eq, rejected, dispatched, List.countP_append, countP_summary_stopEvents,
      isFinalizeSummary, List.countP_cons, h0] at hc
  · intro item rest hf _ _ hc
    have h0 := finalizeCount_zero_of_not_finished h.1 (Or.inl hf)
    unfold finalizeCount at h0 hc
    by_cases hr : env.run s.nextRunner = true <;>
      simp [launched, dispatched, List.countP_append, isFinalizeSummary, List.countP_cons, hr,
        h0] at hc

theorem summaryLogged_reachable (env : Env) (units : AnalyzeUnits) (rs : RunSettings)
    (dc : ClangDiagnosticConfig) (preventBuild : Bool) :
    ∀ s, Reachable env units (create rs dc preventBuild) s → SummaryLogged s := by
  apply reachable_invariant
  · apply start_invariant
    · intro evs pf hevs
      simp [SummaryLogged, FinalizeOnce, finalizeCount, create,
        countP_summary_preamble evs hevs]
    · intro _
      simp [SummaryLogged, FinalizeOnce, finalizeCount, create, startPrepared, emit,
        isFinalizeSummary, List.countP_cons]
    · intro _ _
      simp [SummaryLogged, FinalizeOnce, finalizeCount, create, startPrepared, finalize_eq,
        List.countP_append, countP_summary_finalizeEvents, isFinalizeSummary, List.countP_cons]
      simp [finalizeEvents]
    · intro _ _
      simp [SummaryLogged, FinalizeOnce, finalizeCount, create, startPrepared, emit,
        isFinalizeSummary, List.countP_cons]
    · intro s hs _ _
      exact summaryLogged_analyzeNextFile env s hs
  · intro s sender d e hs hm _
    apply summaryLogged_analyzeNextFile
    have h0 := finalizeCount_zero_of_not_finished hs.1 (Or.inr (List.ne_nil_of_mem hm))
    unfold SummaryLogged FinalizeOnce finalizeCount at *
    by_cases he : e = "" <;> by_cases hd : d = [] <;>
      simp [successRecorded, List.countP_append, isFinalizeSummary, List.countP_cons, h0, he, hd]
  · intro s sender m d hs hm _
    apply summaryLogged_analyzeNextFile
    have h0 := finalizeCount_zero_of_not_finished hs.1 (Or.inr (List.ne_nil_of_mem hm))
    unfold SummaryLogged FinalizeOnce finalizeCount at *
    simp [failureRecorded, List.countP_append, isFinalizeSummary, List.countP_cons, h0]
  · intro s hs
    unfold SummaryLogged FinalizeOnce finalizeCount at *
    simp only [stop_eq, List.countP_append, countP_summary_stopEvents]
    simp [isFinalizeSummary, List.countP_cons]
    exact ⟨hs.1.1, fun h => Or.inl (hs.2 h)⟩
  · intro s hs
    unfold SummaryLogged FinalizeOnce finalizeCount at *
    simp only [onProgressCanceled_eq, List.countP_append]
    simp [isFinalizeSummary, List.countP_cons]
    exact hs

theorem analyzeNextFile_nextRunner (env : Env) (s : ClangToolRunWorker) :
    (analyzeNextFile env s).nextRunner =
      if s.m_progress.finished = false ∧ s.m_queue ≠ [] then s.nextRunner + 1
      else s.nextRunner := by
  apply analyzeNextFile_cases env s (fun t => t.nextRunner =
      if s.m_progress.finished = false ∧ s.m_queue ≠ [] then s.nextRunner + 1
      else s.nextRunner)
  · intro h; simp [h]
  · intro _ h _; simp [h, finalize_eq]
  · intro _ h _; simp [h]
  · intro item rest hf hq _; simp [hf, hq, stop_eq, rejected, dispatched]
  · intro item rest hf hq _; simp [hf, hq, launched, dispatched]

theorem step_nextRunner {env : Env} {s t : ClangToolRunWorker} {op : Op}
    (hop : op.isCompletion = true) (hst : step env s op = some t) :
    t.nextRunner =
      if s.m_progress.finished = false ∧ s.m_queue ≠ [] then s.nextRunner + 1
      else s.nextRunner := by
  cases op with
  | finishedWithSuccess id d e =>
    simp only [step, Option.map_eq_some'] at hst
    obtain ⟨sender, -, rfl⟩ := hst
    rw [onRunnerFinishedWithSuccess_eq, analyzeNextFile_nextRunner]
    simp [successRecorded]
  | finishedWithFailure id m d =>
    simp only [step, Option.map_eq_some'] at hst
    obtain ⟨sender, -, rfl⟩ := hst
    rw [onRunnerFinishedWithFailure_eq, analyzeNextFile_nextRunner]
    simp [failureRecorded]
  | stop => simp [Op.isCompletion, Op.runner] at hop
  | progressCanceled => simp [Op.isCompletion, Op.runner] at hop

/-- C8. Let `start` get past its early exits with a queue of `n ≥ 1` items and
`parallelJobs = b ≥ 1`, every executable valid and every `run` true, and fuel at least
`min n b`. Then `start` returns a state with exactly `min n b` runners, all started, created
for the first `min n b` queue items in order, and with the other `n - min n b` items
queued. In that state `stop` and a cancel dispatch nothing, and the handling of a completion
dispatches exactly the next queue item when one is queued and nothing otherwise. When the
batch finalizes after completions that all are successes with a readable output, the
summary reports every file as analyzed and 0 as failed. -/
theorem start_fills_pool (env : Env) (hexec : ∀ i, env.isFileExecutable i = true)
    (hrun : ∀ i, env.run i = true) (units : AnalyzeUnits) (rs : RunSettings)
    (dc : ClangDiagnosticConfig) (preventBuild : Bool)
    (hw : startsAnalysis env (create rs dc preventBuild) = true) (hb : 1 ≤ rs.parallelJobs)
    (hq : buildQueue env (create rs dc preventBuild) units ≠ []) (fuel : Nat)
    (hfuel : min ((buildQueue env (create rs dc preventBuild) units).length : Int)
      rs.parallelJobs ≤ fuel) :
    ∃ s, start fuel env units (create rs dc preventBuild) = some s ∧
      ((s.nextRunner : Int) =
        min ((buildQueue env (create rs dc preventBuild) units).length : Int) rs.parallelJobs ∧
       s.m_runners.length = s.nextRunner ∧
       s.m_runners.map (fun r => r.id) = List.range s.nextRunner ∧
       (∀ r ∈ s.m_runners, r.started = true ∧
          ∃ item, (buildQueue env (create rs dc preventBuild) units)[r.id]? = some item ∧
            r.fileToAnalyze = item.unit.file ∧ r.cls = item.runnerCreator) ∧
       createdClasses s.log =
         ((buildQueue env (create rs dc preventBuild) units).take s.nextRunner).map
           (fun item => item.runnerCreator) ∧
       runUnits s.log =
         ((buildQueue env (create rs dc preventBuild) units).take s.nextRunner).map
           (fun item => item.unit) ∧
       s.m_queue = (buildQueue env (create rs dc preventBuild) units).drop s.nextRunner ∧
       (s.m_queue.length : Int) =
         (buildQueue env (create rs dc preventBuild) units).length -
           min ((buildQueue env (create rs dc preventBuild) units).length : Int)
             rs.parallelJobs) ∧
      (createdClasses (stop s).log = createdClasses s.log ∧
       runUnits (stop s).log = runUnits s.log ∧
       createdClasses (onProgressCanceled s).log = createdClasses s.log ∧
       runUnits (onProgressCanceled s).log = runUnits s.log) ∧
      (∀ (op : Op) (t : ClangToolRunWorker), op.isCompletion = true →
        step env s op = some t →
        (s.m_queue = [] → t.nextRunner = s.nextRunner ∧ createdClasses t.log = createdClasses s.log
          ∧ runUnits t.log = runUnits s.log) ∧
        (s.m_queue ≠ [] → t.nextRunner = s.nextRunner + 1 ∧
          createdClasses t.log =
            ((buildQueue env (create rs dc preventBuild) units).take (s.nextRunner + 1)).map
              (fun item => item.runnerCreator) ∧
          runUnits t.log =
            ((buildQueue env (create rs dc preventBuild) units).take (s.nextRunner + 1)).map
              (fun item => item.unit) ∧
          t.m_queue =
            (buildQueue env (create rs dc preventBuild) units).drop (s.nextRunner + 1))) ∧
      (∀ (ops : List Op) (t : ClangToolRunWorker),
        (∀ op ∈ ops, op.isCompletion = true ∧ op.failed = false) →
        runOps env s ops = some t → finalizeCount t = 1 →
        Event.appendMessage
          (Message.finished
            ((buildQueue env (create rs dc preventBuild) units).map
              (fun item => item.unit.file)).toFinset.card 0)
          OutputFormat.NormalMessageFormat ∈ t.log) := by
  have hb2 : (create rs dc preventBuild).m_runSettings.parallelJobs ≥ 1 := hb
  have hstartEq := start_of_startsAnalysis fuel env units _ hw
  rw [if_neg (not_not.mpr hb2), if_neg hq] at hstartEq
  have hfill0 : Filling (buildQueue env (create rs dc preventBuild) units) rs.parallelJobs
      (({ startPrepared env units (create rs dc preventBuild) with m_success := true }).emit
        Event.reportStarted) := by
    refine ⟨?_, ?_, ?_, ?_⟩
    · simp [Normal, emit, startPrepared, create, createdClasses, runUnits]
    · simp [emit, startPrepared]
    · simp [emit, startPrepared, create]
    · simp [emit, startPrepared]
      omega
  obtain ⟨s, hs, ⟨hn, hf, hids, hle⟩, hexit⟩ := startLoop_filling hexec hrun _ rs.parallelJobs
    fuel _ hfill0 (by
      simp only [emit, startPrepared, List.length_nil, Nat.cast_zero, sub_zero]
      exact min_le_iff.mp hfuel)
  have hstart : start fuel env units (create rs dc preventBuild) = some s := by
    rw [hstartEq]
    exact hs
  have hlen : s.m_runners.length = s.nextRunner := by
    have := congrArg List.length hids
    simpa using this
  obtain ⟨h1, h2, h3, h4, h5, h6, h7⟩ := hn
  have hqlen : s.m_queue.length =
      (buildQueue env (create rs dc preventBuild) units).length - s.nextRunner := by
    rw [h2, List.length_drop]
  have hnext : (s.nextRunner : Int) =
      min ((buildQueue env (create rs dc preventBuild) units).length : Int)
        rs.parallelJobs := by
    rw [hlen] at hle hexit
    by_cases hlt : (s.nextRunner : Int) < rs.parallelJobs
    · have hqe : s.m_queue = [] := by
        by_contra hne
        exact hexit ⟨hlt, hne⟩
      rw [hqe] at hqlen
      simp at hqlen
      rw [min_def]
      split <;> omega
    · rw [min_def]
      split <;> omega
  refine ⟨s, hstart, ⟨hnext, hlen, hids, fun r hr => ⟨(h4 r hr).2.1, (h4 r hr).2.2⟩, h6, h7,
    h2, ?_⟩, ⟨?_, ?_, ?_, ?_⟩, ?_, ?_⟩
  · rw [← hnext, hqlen]
    omega
  · simp only [stop_eq, createdClasses_append, createdClasses_stopEvents]
    simp [createdClasses]
  · simp only [stop_eq, runUnits_append, runUnits_stopEvents]
    simp [runUnits]
  · simp [onProgressCanceled_eq, createdClasses]
  · simp [onProgressCanceled_eq, runUnits]
  · intro op t hop hst
    have hne : op ≠ Op.stop := by
      intro h; subst h; simp [Op.isCompletion, Op.runner] at hop
    have hns : Normal (buildQueue env (create rs dc preventBuild) units) s :=
      ⟨h1, h2, h3, h4, h5, h6, h7⟩
    have hnt := normal_step hexec hrun hns hne hst
    have hnr := step_nextRunner hop hst
    obtain ⟨-, t2, -, -, -, t6, t7⟩ := hnt
    constructor
    · intro hqe
      rw [if_neg (by simp [hqe])] at hnr
      rw [t6, t7, hnr, h6, h7]
      exact ⟨rfl, rfl, rfl⟩
    · intro hqne
      rw [if_pos ⟨hf, hqne⟩] at hnr
      rw [t6, t7, t2, hnr]
      exact ⟨rfl, rfl, rfl, rfl⟩
  · intro ops t hops hrunOps hfin
    obtain ⟨-, r1, r2⟩ := results_of_finalized hexec hrun hstart
      (fun op hop => (hops op hop).1) hrunOps hfin
    have hreach : Reachable env units (create rs dc preventBuild) t :=
      reachable_runOps (Reachable.start fuel s hstart) ops t hrunOps
    have hsum := (summaryLogged_reachable env units rs dc preventBuild t hreach).2 hfin
    have hnofail : ∀ f, ¬ failedFile (buildQueue env (create rs dc preventBuild) units) ops f := by
      rintro f ⟨op, hop, hfail, -⟩
      rw [(hops op hop).2] at hfail
      cases hfail
    have hNA : t.m_filesNotAnalyzed = ∅ := by
      ext f
      simp [r1 f, hnofail f]
    have hA : t.m_filesAnalyzed =
        ((buildQueue env (create rs dc preventBuild) units).map
          (fun item => item.unit.file)).toFinset := by
      ext f
      simp [r2 f, hnofail f]
    rw [hNA, hA] at hsum
    simpa using hsum

/-! ## The results at concrete batches -/

theorem eq_some_getD {α : Type} (o : Option α) (d : α) (h : o.isSome = true) :
    o = some (o.getD d) := by
  cases o with
  | none => cases h
  | some a => rfl

theorem reachable_scenarioAfter (env : Env) (dc : ClangDiagnosticConfig) (b : Int)
    (units : AnalyzeUnits) (ops : List Op)
    (h1 : (start 4 env units (scenarioWorker dc b)).isSome = true)
    (h2 : (runOps env (scenarioStarted env dc b units) ops).isSome = true) :
    Reachable env units (scenarioWorker dc b) (scenarioAfter env dc b units ops) :=
  reachable_runOps (Reachable.start 4 _ (eq_some_getD _ (scenarioWorker dc b) h1)) ops _
    (eq_some_getD _ (scenarioStarted env dc b units) h2)

/-- Witness of C1: three files, one tool, two parallel jobs, after the completion of the
second runner. -/
theorem active_runners_le_bound_witness :
    (1 : Int) ≤ (RunSettings.mk 2 false).parallelJobs ∧
    Reachable scenarioEnv scenarioUnits (create (RunSettings.mk 2 false) oneTool false)
      (scenarioAfter scenarioEnv oneTool 2 scenarioUnits [Op.finishedWithSuccess 1 [] ""]) ∧
    ((scenarioAfter scenarioEnv oneTool 2 scenarioUnits
      [Op.finishedWithSuccess 1 [] ""]).m_runners.length : Int) ≤
        (RunSettings.mk 2 false).parallelJobs :=
  have hreach := reachable_scenarioAfter scenarioEnv oneTool 2 scenarioUnits
    [Op.finishedWithSuccess 1 [] ""] (by decide) (by decide)
  ⟨by decide, hreach,
    active_runners_le_bound scenarioEnv scenarioUnits (RunSettings.mk 2 false) oneTool false
      (by decide) _ hreach⟩

/-- Witness of C2: three files, one tool, two parallel jobs, after all three completions. -/
theorem finalize_at_most_once_witness :
    Reachable scenarioEnv scenarioUnits (create (RunSettings.mk 2 false) oneTool false)
      (scenarioAfter scenarioEnv oneTool 2 scenarioUnits
        [Op.finishedWithSuccess 1 [] "", Op.finishedWithSuccess 0 [] "",
          Op.finishedWithSuccess 2 [] "", Op.stop]) ∧
    finalizeCount (scenarioAfter scenarioEnv oneTool 2 scenarioUnits
        [Op.finishedWithSuccess 1 [] "", Op.finishedWithSuccess 0 [] "",
          Op.finishedWithSuccess 2 [] "", Op.stop]) ≤ 1 :=
  have hreach := reachable_scenarioAfter scenarioEnv oneTool 2 scenarioUnits
    [Op.finishedWithSuccess 1 [] "", Op.finishedWithSuccess 0 [] "",
      Op.finishedWithSuccess 2 [] "", Op.stop] (by decide) (by decide)
  ⟨hreach,
    finalize_at_most_once scenarioEnv scenarioUnits (RunSettings.mk 2 false) oneTool false _
      hreach⟩

/-- Witness of C3: two tools, after the first run on `a.cpp` failed and the second
succeeded. -/
theorem files_never_in_both_sets_witness :
    Reachable scenarioEnv scenarioUnits (create (RunSettings.mk 2 false) twoTools false)
      (scenarioAfter scenarioEnv twoTools 2 scenarioUnits
        [Op.finishedWithFailure 0 "crashed" "", Op.finishedWithSuccess 1 [] ""]) ∧
    ¬ ("a.cpp" ∈ (scenarioAfter scenarioEnv twoTools 2 scenarioUnits
        [Op.finishedWithFailure 0 "crashed" "", Op.finishedWithSuccess 1 [] ""]).m_filesAnalyzed ∧
      "a.cpp" ∈ (scenarioAfter scenarioEnv twoTools 2 scenarioUnits
        [Op.finishedWithFailure 0 "crashed" "",
          Op.finishedWithSuccess 1 [] ""]).m_filesNotAnalyzed) :=
  have hreach := reachable_scenarioAfter scenarioEnv twoTools 2 scenarioUnits
    [Op.finishedWithFailure 0 "crashed" "", Op.finishedWithSuccess 1 [] ""]
    (by decide) (by decide)
  ⟨hreach,
    files_never_in_both_sets scenarioEnv scenarioUnits (RunSettings.mk 2 false) twoTools false _
      hreach "a.cpp"⟩

/-- Witness of C4: two tools; the clang-tidy run on `a.cpp` failed, then the clazy run on
`a.cpp` succeeds. -/
theorem not_analyzed_is_sticky_witness :
    Reachable scenarioEnv scenarioUnits (create (RunSettings.mk 2 false) twoTools false)
      (scenarioAfter scenarioEnv twoTools 2 scenarioUnits
        [Op.finishedWithFailure 0 "crashed" ""]) ∧
    "a.cpp" ∈ (scenarioAfter scenarioEnv twoTools 2 scenarioUnits
        [Op.finishedWithFailure 0 "crashed" ""]).m_filesNotAnalyzed ∧
    ("a.cpp" ∈ ((runOps scenarioEnv (scenarioAfter scenarioEnv twoTools 2 scenarioUnits
          [Op.finishedWithFailure 0 "crashed" ""]) [Op.finishedWithSuccess 1 [] ""]).getD
        (scenarioWorker twoTools 2)).m_filesNotAnalyzed ∧
      "a.cpp" ∉ ((runOps scenarioEnv (scenarioAfter scenarioEnv twoTools 2 scenarioUnits
          [Op.finishedWithFailure 0 "crashed" ""]) [Op.finishedWithSuccess 1 [] ""]).getD
        (scenarioWorker twoTools 2)).m_filesAnalyzed) :=
  have hreach := reachable_scenarioAfter scenarioEnv twoTools 2 scenarioUnits
    [Op.finishedWithFailure 0 "crashed" ""] (by decide) (by decide)
  have hmem : "a.cpp" ∈ (scenarioAfter scenarioEnv twoTools 2 scenarioUnits
      [Op.finishedWithFailure 0 "crashed" ""]).m_filesNotAnalyzed := by decide
  ⟨hreach, hmem,
    not_analyzed_is_sticky scenarioEnv scenarioUnits (RunSettings.mk 2 false) twoTools false _
      hreach [Op.finishedWithSuccess 1 [] ""] _
      (eq_some_getD _ (scenarioWorker twoTools 2) (by decide)) "a.cpp" hmem⟩

/-- Witness of C5: three files and two tools with two parallel jobs; the clazy run on `a.cpp`
fails, the other five runs succeed. -/
theorem result_sets_of_complete_batch_witness :
    start 4 scenarioEnv scenarioUnits (create (RunSettings.mk 2 false) twoTools false)
      = some (scenarioStarted scenarioEnv twoTools 2 scenarioUnits) ∧
    runOps scenarioEnv (scenarioStarted scenarioEnv twoTools 2 scenarioUnits)
      scenarioCompletions
      = some (scenarioAfter scenarioEnv twoTools 2 scenarioUnits scenarioCompletions) ∧
    finalizeCount (scenarioAfter scenarioEnv twoTools 2 scenarioUnits scenarioCompletions) = 1 ∧
    ("a.cpp" ∈ (scenarioAfter scenarioEnv twoTools 2 scenarioUnits
        scenarioCompletions).m_filesNotAnalyzed ↔
      failedFile (buildQueue scenarioEnv (create (RunSettings.mk 2 false) twoTools false)
        scenarioUnits) scenarioCompletions "a.cpp") :=
  have h1 : start 4 scenarioEnv scenarioUnits (create (RunSettings.mk 2 false) twoTools false)
      = some (scenarioStarted scenarioEnv twoTools 2 scenarioUnits) :=
    eq_some_getD _ (scenarioWorker twoTools 2) (by decide)
  have h2 : runOps scenarioEnv (scenarioStarted scenarioEnv twoTools 2 scenarioUnits)
      scenarioCompletions
      = some (scenarioAfter scenarioEnv twoTools 2 scenarioUnits scenarioCompletions) :=
    eq_some_getD _ (scenarioStarted scenarioEnv twoTools 2 scenarioUnits) (by decide)
  have h3 : finalizeCount
      (scenarioAfter scenarioEnv twoTools 2 scenarioUnits scenarioCompletions) = 1 := by decide
  ⟨h1, h2, h3,
    (result_sets_of_complete_batch scenarioEnv (fun _ => rfl) (fun _ => rfl) scenarioUnits
      (RunSettings.mk 2 false) twoTools false 4 _ _ scenarioCompletions h1 (by decide) h2
      h3).2.1 "a.cpp"⟩

/-- Witness of C6: three files and two tools give a queue of six items. -/
theorem start_builds_cross_product_queue_witness :
    startsAnalysis scenarioEnv (scenarioWorker twoTools 2) = true ∧
    start 4 scenarioEnv scenarioUnits (scenarioWorker twoTools 2)
      = some (scenarioStarted scenarioEnv twoTools 2 scenarioUnits) ∧
    (buildQueue scenarioEnv (scenarioWorker twoTools 2) scenarioUnits
        = crossProductQueue scenarioUnits (runnerCreators scenarioEnv (scenarioWorker twoTools 2)) ∧
      (buildQueue scenarioEnv (scenarioWorker twoTools 2) scenarioUnits).length
        = scenarioUnits.length * (runnerCreators scenarioEnv (scenarioWorker twoTools 2)).length ∧
      (scenarioStarted scenarioEnv twoTools 2 scenarioUnits).m_initialQueueSize
        = ((scenarioUnits.length *
            (runnerCreators scenarioEnv (scenarioWorker twoTools 2)).length : Nat) : Int)) :=
  have h1 : start 4 scenarioEnv scenarioUnits (scenarioWorker twoTools 2)
      = some (scenarioStarted scenarioEnv twoTools 2 scenarioUnits) :=
    eq_some_getD _ (scenarioWorker twoTools 2) (by decide)
  ⟨by decide, h1,
    start_builds_cross_product_queue scenarioEnv scenarioUnits (scenarioWorker twoTools 2)
      (by decide) 4 _ h1⟩

/-- Witness of C7: three files, one tool, two parallel jobs, after the completion of the
second runner: three runners were created, in queue order. -/
theorem dispatch_is_fifo_witness :
    Reachable scenarioEnv scenarioUnits (create (RunSettings.mk 2 false) oneTool false)
      (scenarioAfter scenarioEnv oneTool 2 scenarioUnits [Op.finishedWithSuccess 1 [] ""]) ∧
    createdClasses (scenarioAfter scenarioEnv oneTool 2 scenarioUnits
        [Op.finishedWithSuccess 1 [] ""]).log =
      ((buildQueue scenarioEnv (create (RunSettings.mk 2 false) oneTool false)
          scenarioUnits).take
        (scenarioAfter scenarioEnv oneTool 2 scenarioUnits
          [Op.finishedWithSuccess 1 [] ""]).nextRunner).map (fun item => item.runnerCreator) :=
  have hreach := reachable_scenarioAfter scenarioEnv oneTool 2 scenarioUnits
    [Op.finishedWithSuccess 1 [] ""] (by decide) (by decide)
  ⟨hreach,
    (dispatch_is_fifo scenarioEnv scenarioUnits (RunSettings.mk 2 false) oneTool false _
      hreach).1.2.1⟩

/-- Witness of C8, scenario A: three files, one tool, two parallel jobs. `start` starts two
runners and leaves one item queued; the third runner is created when the first completion
is handled; after three successes the summary reports 3 analyzed and 0 failed. -/
theorem start_fills_pool_witness :
    startsAnalysis scenarioEnv (create (RunSettings.mk 2 false) oneTool false) = true ∧
    buildQueue scenarioEnv (create (RunSettings.mk 2 false) oneTool false) scenarioUnits ≠ [] ∧
    (∃ s, start 2 scenarioEnv scenarioUnits (create (RunSettings.mk 2 false) oneTool false)
        = some s ∧
      (s.nextRunner : Int) =
        min ((buildQueue scenarioEnv (create (RunSettings.mk 2 false) oneTool false)
          scenarioUnits).length : Int) 2 ∧
      s.m_runners.length = s.nextRunner) ∧
    (scenarioStarted scenarioEnv oneTool 2 scenarioUnits).m_runners.length = 2 ∧
    (scenarioStarted scenarioEnv oneTool 2 scenarioUnits).m_queue.length = 1 ∧
    (scenarioAfter scenarioEnv oneTool 2 scenarioUnits
      [Op.finishedWithSuccess 1 [] ""]).nextRunner = 3 ∧
    Event.appendMessage (Message.finished 3 0) OutputFormat.NormalMessageFormat ∈
      (scenarioAfter scenarioEnv oneTool 2 scenarioUnits
        [Op.finishedWithSuccess 1 [] "", Op.finishedWithSuccess 0 [] "",
          Op.finishedWithSuccess 2 [] ""]).log :=
  ⟨by decide, by decide,
    (start_fills_pool scenarioEnv (fun _ => rfl) (fun _ => rfl) scenarioUnits
      (RunSettings.mk 2 false) oneTool false (by decide) (by decide) (by decide) 2
      (min_le_right _ _)).elim
      (fun s h => ⟨s, h.1, h.2.1.1, h.2.1.2.1⟩),
    by decide, by decide, by decide, by decide⟩

/-- Witness of C9: an empty list of units. -/
theorem empty_queue_finalizes_at_once_witness :
    startsAnalysis scenarioEnv (create (RunSettings.mk 2 false) oneTool false) = true ∧
    (1 : Int) ≤ (RunSettings.mk 2 false).parallelJobs ∧
    ∃ s, start 0 scenarioEnv [] (create (RunSettings.mk 2 false) oneTool false) = some s ∧
      finalizeCount s = 1 ∧
      Event.appendMessage (Message.finished 0 0) OutputFormat.NormalMessageFormat ∈ s.log :=
  ⟨by decide, by decide,
    (empty_queue_finalizes_at_once scenarioEnv [] (RunSettings.mk 2 false) oneTool false
      (by decide) (by decide) (Or.inl rfl) 0).elim
      (fun s h => ⟨s, h.1, h.2.1, h.2.2.1⟩)⟩

/-- Witness of C10: three files and `parallelJobs = 0`. -/
theorem invalid_bound_fails_without_runner_witness :
    (RunSettings.mk 0 false).parallelJobs < 1 ∧
    ∃ s, start 4 scenarioEnv scenarioUnits (create (RunSettings.mk 0 false) oneTool false)
        = some s ∧
      (∃ m, Event.reportFailure m ∈ s.log) ∧ s.m_runners = [] ∧ s.nextRunner = 0 :=
  ⟨by decide,
    (invalid_bound_fails_without_runner scenarioEnv scenarioUnits (RunSettings.mk 0 false)
      oneTool false (by decide) 4).elim
      (fun s h => ⟨s, h.1, h.2.1, h.2.2.1, h.2.2.2.1⟩)⟩

/-! ## The invalid executable -/

theorem progressValues_append (l₁ l₂ : List Event) :
    progressValues (l₁ ++ l₂) = progressValues l₁ ++ progressValues l₂ := by
  simp [progressValues, List.filterMap_append]

theorem progressValues_stopEvents (l : List ClangToolRunner) :
    progressValues (stopEvents l) = [] := by
  induction l with
  | nil => simp [stopEvents, progressValues]
  | cons r l ih =>
    simp only [stopEvents, List.flatMap_cons] at ih ⊢
    rw [progressValues_append, ih]
    simp [progressValues]

theorem countP_failure_stopEvents (l : List ClangToolRunner) :
    (stopEvents l).countP isReportFailure = 0 := by
  induction l with
  | nil => simp [stopEvents]
  | cons r l ih =>
    simp only [stopEvents, List.flatMap_cons, List.countP_append] at ih ⊢
    simp [ih, isReportFailure]

theorem countP_stopped_stopEvents (l : List ClangToolRunner) :
    (stopEvents l).countP isReportStopped = 0 := by
  induction l with
  | nil => simp [stopEvents]
  | cons r l ih =>
    simp only [stopEvents, List.flatMap_cons, List.countP_append] at ih ⊢
    simp [ih, isReportStopped]

theorem quiet_stop (s : ClangToolRunWorker) : Quiet s (stop s) := by
  refine ⟨?_, ?_, ?_, ?_, ?_, ?_, ?_, ?_, ?_, ?_⟩
  · simp [stop_eq]
  · simp [stop_eq]
  · simp [stop_eq]
  · simp [stop_eq]
  · simp [stop_eq]
  · simp only [stop_eq, createdClasses_append, createdClasses_stopEvents]
    simp [createdClasses]
  · simp only [stop_eq, runUnits_append, runUnits_stopEvents]
    simp [runUnits]
  · simp [finalizeCount, stop_eq, List.countP_append, countP_summary_stopEvents,
      isFinalizeSummary, List.countP_cons]
  · simp [failureReports, stop_eq, List.countP_append, countP_failure_stopEvents,
      isReportFailure, List.countP_cons]
  · simp only [stop_eq, progressValues_append, progressValues_stopEvents]
    simp [progressValues]

theorem quiet_onProgressCanceled (s : ClangToolRunWorker) (h : s.m_runners = []) :
    Quiet s (onProgressCanceled s) := by
  refine ⟨?_, ?_, ?_, ?_, ?_, ?_, ?_, ?_, ?_, ?_⟩ <;>
    simp [onProgressCanceled_eq, h, createdClasses, runUnits, finalizeCount, failureReports,
      progressValues, List.countP_append, isFinalizeSummary, isReportFailure, List.countP_cons]

theorem quiet_trans {s t u : ClangToolRunWorker} (h1 : Quiet s t) (h2 : Quiet t u) :
    Quiet s u := by
  obtain ⟨a1, a2, a3, a4, a5, a6, a7, a8, a9, a10⟩ := h1
  obtain ⟨b1, b2, b3, b4, b5, b6, b7, b8, b9, b10⟩ := h2
  exact ⟨b1, b2.trans a2, b3.trans a3, b4.trans a4, b5.trans a5, b6.trans a6, b7.trans a7,
    b8.trans a8, b9.trans a9, b10.trans a10⟩

/-- A worker without runners stays without runners: only `stop` and cancel can happen. -/
theorem quiet_runOps {env : Env} :
    ∀ (ops : List Op) (s t : ClangToolRunWorker), s.m_runners = [] →
      runOps env s ops = some t → Quiet s t := by
  intro ops
  induction ops with
  | nil =>
    intro s t hs h
    simp only [runOps, Option.some.injEq] at h
    subst h
    exact ⟨hs, rfl, rfl, rfl, rfl, rfl, rfl, rfl, rfl, rfl⟩
  | cons op ops ih =>
    intro s t hs h
    simp only [runOps, Option.bind_eq_some] at h
    obtain ⟨u, hu, ht⟩ := h
    have hq : Quiet s u := by
      rcases step_of_no_runners hs hu with rfl | rfl
      · exact quiet_stop s
      · exact quiet_onProgressCanceled s hs
    exact quiet_trans hq (ih u t hq.1 ht)

theorem analyzeNextFile_eq_rejected {env : Env} {s : ClangToolRunWorker} {item : QueueItem}
    {rest : List QueueItem} (hf : s.m_progress.finished = false) (hq : s.m_queue = item :: rest)
    (he : env.isFileExecutable s.nextRunner = false) :
    analyzeNextFile env s = stop (rejected item rest s) := by
  apply analyzeNextFile_cases env s (fun t => t = stop (rejected item rest s))
  · intro h; rw [hf] at h; cases h
  · intro _ h _; rw [hq] at h; cases h
  · intro _ h _; rw [hq] at h; cases h
  · intro item2 rest2 _ hq2 _
    rw [hq] at hq2
    cases hq2
    rfl
  · intro _ _ _ _ h; rw [he] at h; cases h

theorem start_eq_startLoop (fuel : Nat) (env : Env) (units : AnalyzeUnits)
    (w0 : ClangToolRunWorker) (hw : startsAnalysis env w0 = true)
    (hb : 1 ≤ w0.m_runSettings.parallelJobs) (hq : buildQueue env w0 units ≠ []) :
    start fuel env units w0 =
      startLoop env w0.m_runSettings.parallelJobs fuel (startReported env units w0) := by
  have hb2 : w0.m_runSettings.parallelJobs ≥ 1 := hb
  rw [start_of_startsAnalysis fuel env units _ hw, if_neg (not_not.mpr hb2), if_neg hq]
  rfl

theorem startLoop_of_queue_nil (env : Env) (b : Int) (fuel : Nat) (s : ClangToolRunWorker)
    (h : s.m_queue = []) : startLoop env b fuel s = some s := by
  cases fuel <;> simp [startLoop, h]

/-- C11. When `analyzeNextFile` takes an item from the queue and the executable of its
runner is not an executable file, it reports exactly one failure (with the message for the
invalid executable) and runs `stop` once: every runner that was active is disconnected and
deleted, `m_queue` and `m_runners` are empty and progress is finished; `finalize` is not
run. Afterwards nothing is dispatched: the fill loop of `start` ends at once, and no later
operation creates a runner, calls `run`, records a file or runs `finalize`. When this
happens at the first dispatch of `start`, no file is ever recorded as analyzed. -/
theorem invalid_executable_stops_batch (env : Env) (s : ClangToolRunWorker) (item : QueueItem)
    (rest : List QueueItem) (hf : s.m_progress.finished = false)
    (hq : s.m_queue = item :: rest) (he : env.isFileExecutable s.nextRunner = false) :
    (failureReports (analyzeNextFile env s) = failureReports s + 1 ∧
      Event.reportFailure (some (Message.invalidExecutable item.runnerCreator s.nextRunner)) ∈
        (analyzeNextFile env s).log ∧
      stopCount (analyzeNextFile env s) = stopCount s + 1 ∧
      (∀ r ∈ s.m_runners, Event.disconnectRunner r.id ∈ (analyzeNextFile env s).log ∧
        Event.deleteRunner r.id ∈ (analyzeNextFile env s).log) ∧
      (analyzeNextFile env s).m_runners = [] ∧ (analyzeNextFile env s).m_queue = [] ∧
      (analyzeNextFile env s).m_progress.finished = true ∧
      Event.progressReportFinished ∈ (analyzeNextFile env s).log ∧
      finalizeCount (analyzeNextFile env s) = finalizeCount s ∧
      runUnits (analyzeNextFile env s).log = runUnits s.log ∧
      (analyzeNextFile env s).m_filesAnalyzed = s.m_filesAnalyzed) ∧
    (∀ (b : Int) (fuel : Nat),
      startLoop env b fuel (analyzeNextFile env s) = some (analyzeNextFile env s)) ∧
    (∀ (ops : List Op) (t : ClangToolRunWorker),
      runOps env (analyzeNextFile env s) ops = some t →
      t.nextRunner = (analyzeNextFile env s).nextRunner ∧
      createdClasses t.log = createdClasses (analyzeNextFile env s).log ∧
      runUnits t.log = runUnits s.log ∧
      t.m_filesAnalyzed = s.m_filesAnalyzed ∧
      finalizeCount t = finalizeCount s ∧
      failureReports t = failureReports s + 1) ∧
    (∀ (units : AnalyzeUnits) (rs : RunSettings) (dc : ClangDiagnosticConfig)
      (preventBuild : Bool) (fuel : Nat),
      startsAnalysis env (create rs dc preventBuild) = true → 1 ≤ rs.parallelJobs →
      buildQueue env (create rs dc preventBuild) units ≠ [] →
      env.isFileExecutable 0 = false →
      ∃ t, start (fuel + 1) env units (create rs dc preventBuild) = some t ∧
        failureReports t = 1 ∧ stopCount t = 1 ∧ t.m_queue = [] ∧ t.m_runners = [] ∧
        t.nextRunner = 1 ∧ runUnits t.log = [] ∧
        ∀ (ops : List Op) (u : ClangToolRunWorker), runOps env t ops = some u →
          u.m_filesAnalyzed = ∅ ∧ finalizeCount u = 0 ∧ u.nextRunner = 1 ∧
            runUnits u.log = []) := by
  have key : ∀ (s : ClangToolRunWorker) (item : QueueItem) (rest : List QueueItem),
      failureReports (stop (rejected item rest s)) = failureReports s + 1 ∧
      stopCount (stop (rejected item rest s)) = stopCount s + 1 ∧
      finalizeCount (stop (rejected item rest s)) = finalizeCount s ∧
      runUnits (stop (rejected item rest s)).log = runUnits s.log ∧
      (stop (rejected item rest s)).m_filesAnalyzed = s.m_filesAnalyzed ∧
      (stop (rejected item rest s)).m_runners = [] ∧
      (stop (rejected item rest s)).m_queue = [] ∧
      (stop (rejected item rest s)).nextRunner = s.nextRunner + 1 := by
    intro s item rest
    refine ⟨?_, ?_, ?_, ?_, ?_, ?_, ?_, ?_⟩
    · simp [failureReports, stop_eq, rejected, dispatched, List.countP_append,
        countP_failure_stopEvents, isReportFailure, List.countP_cons]
    · simp [stopCount, stop_eq, rejected, dispatched, List.countP_append,
        countP_stopped_stopEvents, isReportStopped, List.countP_cons]
    · simp [finalizeCount, stop_eq, rejected, dispatched, List.countP_append,
        countP_summary_stopEvents, isFinalizeSummary, List.countP_cons]
    · simp only [stop_eq, rejected, dispatched, runUnits_append, runUnits_stopEvents]
      simp [runUnits]
    · simp [stop_eq, rejected, dispatched]
    · simp [stop_eq]
    · simp [stop_eq]
    · simp [stop_eq, rejected, dispatched]
  have later : ∀ (s : ClangToolRunWorker) (item : QueueItem) (rest : List QueueItem)
      (ops : List Op) (t : ClangToolRunWorker),
      runOps env (stop (rejected item rest s)) ops = some t →
      t.nextRunner = (stop (rejected item rest s)).nextRunner ∧
      createdClasses t.log = createdClasses (stop (rejected item rest s)).log ∧
      runUnits t.log = runUnits s.log ∧
      t.m_filesAnalyzed = s.m_filesAnalyzed ∧
      finalizeCount t = finalizeCount s ∧
      failureReports t = failureReports s + 1 := by
    intro s item rest ops t ht
    obtain ⟨k1, k2, k3, k4, k5, k6, k7, k8⟩ := key s item rest
    obtain ⟨-, q2, q3, -, -, q6, q7, q8, q9, -⟩ := quiet_runOps ops _ t k6 ht
    exact ⟨q2, q6, q7.trans k4, q3.trans k5, q8.trans k3, q9.trans k1⟩
  rw [analyzeNextFile_eq_rejected hf hq he]
  obtain ⟨k1, k2, k3, k4, k5, k6, k7, k8⟩ := key s item rest
  refine ⟨⟨k1, ?_, k2, ?_, k6, k7, ?_, ?_, k3, k4, k5⟩, ?_, later s item rest, ?_⟩
  · simp [stop_eq, rejected, dispatched]
  · intro r hr
    have hmem : r ∈ QSet.insert
        (ClangToolRunner.mk s.nextRunner item.runnerCreator "" false) s.m_runners :=
      (QSet.mem_insert _ _ _).mpr (Or.inr hr)
    constructor
    · simp only [stop_eq, rejected, dispatched, stopEvents, List.mem_append,
        List.mem_flatMap]
      exact Or.inl (Or.inr ⟨r, hmem, by simp⟩)
    · simp only [stop_eq, rejected, dispatched, stopEvents, List.mem_append,
        List.mem_flatMap]
      exact Or.inl (Or.inr ⟨r, hmem, by simp⟩)
  · simp [stop_eq]
  · simp [stop_eq]
  · intro b fuel
    exact startLoop_of_queue_nil env b fuel _ k7
  · intro units rs dc preventBuild fuel hw hb hne he0
    have hb2 : (create rs dc preventBuild).m_runSettings.parallelJobs ≥ 1 := hb
    rcases hQ : buildQueue env (create rs dc preventBuild) units with _ | ⟨item0, rest0⟩
    · exact absurd hQ hne
    · have hstart := start_eq_startLoop (fuel + 1) env units (create rs dc preventBuild) hw hb hne
      have hf0 : (startReported env units (create rs dc preventBuild)).m_progress.finished
          = false := by
        simp [startReported, emit, startPrepared]
      have hq0 : (startReported env units (create rs dc preventBuild)).m_queue
          = item0 :: rest0 := by
        simp [startReported, emit, startPrepared, hQ]
      have hn0 : (startReported env units (create rs dc preventBuild)).nextRunner = 0 := by
        simp [startReported, emit, startPrepared, create]
      have hr0 : (startReported env units (create rs dc preventBuild)).m_runners = [] := by
        simp [startReported, emit, startPrepared]
      have hfr0 : failureReports (startReported env units (create rs dc preventBuild)) = 0 := by
        simp [failureReports, startReported, emit, startPrepared, create, isReportFailure,
          List.countP_cons]
      have hsc0 : stopCount (startReported env units (create rs dc preventBuild)) = 0 := by
        simp [stopCount, startReported, emit, startPrepared, create, isReportStopped,
          List.countP_cons]
      have hfc0 : finalizeCount (startReported env units (create rs dc preventBuild)) = 0 := by
        simp [finalizeCount, startReported, emit, startPrepared, create, isFinalizeSummary,
          List.countP_cons]
      have hru0 : runUnits (startReported env units (create rs dc preventBuild)).log = [] := by
        simp [startReported, emit, startPrepared, create, runUnits]
      have hfa0 : (startReported env units (create rs dc preventBuild)).m_filesAnalyzed
          = ∅ := by
        simp [startReported, emit, startPrepared]
      have he1 : env.isFileExecutable
          (startReported env units (create rs dc preventBuild)).nextRunner = false := by
        rw [hn0]; exact he0
      obtain ⟨k1, k2, k3, k4, k5, k6, k7, k8⟩ :=
        key (startReported env units (create rs dc preventBuild)) item0 rest0
      refine ⟨stop (rejected item0 rest0 (startReported env units (create rs dc preventBuild))),
        ?_, ?_, ?_, k7, k6, ?_, ?_, ?_⟩
      · rw [hstart, startLoop, if_pos ⟨by rw [hr0]; simp [create]; omega, by rw [hq0]; simp⟩,
          analyzeNextFile_eq_rejected hf0 hq0 he1]
        exact startLoop_of_queue_nil env _ fuel _ k7
      · rw [k1, hfr0]
      · rw [k2, hsc0]
      · rw [k8, hn0]
      · rw [k4, hru0]
      · intro ops u hu
        obtain ⟨l1, -, l3, l4, l5, -⟩ := later _ item0 rest0 ops u hu
        exact ⟨l4.trans hfa0, l5.trans hfc0, by rw [l1, k8, hn0], l3.trans hru0⟩

/-! ## Completion handlers -/

theorem analyzeNextFile_success (env : Env) (s : ClangToolRunWorker) :
    (analyzeNextFile env s).m_success = s.m_success := by
  apply analyzeNextFile_cases env s (fun t => t.m_success = s.m_success)
  · intro _; rfl
  · intro _ _ _; simp [finalize_eq]
  · intro _ _ _; rfl
  · intro item rest _ _ _; simp [stop_eq, rejected, dispatched]
  · intro item rest _ _ _; simp [launched, dispatched]

theorem step_success_false {env : Env} {s t : ClangToolRunWorker} {op : Op}
    (h : step env s op = some t) (hs : s.m_success = false) : t.m_success = false := by
  cases op with
  | finishedWithSuccess id d e =>
    simp only [step, Option.map_eq_some'] at h
    obtain ⟨sender, -, rfl⟩ := h
    rw [onRunnerFinishedWithSuccess_eq, analyzeNextFile_success]
    simpa [successRecorded] using hs
  | finishedWithFailure id m d =>
    simp only [step, Option.map_eq_some'] at h
    obtain ⟨sender, -, rfl⟩ := h
    rw [onRunnerFinishedWithFailure_eq, analyzeNextFile_success]
    simp [failureRecorded]
  | stop =>
    simp only [step, Option.some.injEq] at h
    subst h
    simpa [stop_eq] using hs
  | progressCanceled =>
    simp only [step, Option.some.injEq] at h
    subst h
    simpa [onProgressCanceled_eq] using hs

theorem runOps_success_false {env : Env} :
    ∀ (ops : List Op) (s t : ClangToolRunWorker), runOps env s ops = some t →
      s.m_success = false → t.m_success = false := by
  intro ops
  induction ops with
  | nil =>
    intro s t h hs
    simp only [runOps, Option.some.injEq] at h
    exact h ▸ hs
  | cons op ops ih =>
    intro s t h hs
    simp only [runOps, Option.bind_eq_some] at h
    obtain ⟨u, hu, ht⟩ := h
    exact ih u t ht (step_success_false hu hs)

/-- C12. When a started runner of a batch signals a failure, the handler runs, and after it
the runner's file is in `m_filesNotAnalyzed` and not in `m_filesAnalyzed` and `m_success` is
false; all three stay so after any further operations of the batch. -/
theorem failure_marks_file_and_batch (env : Env) (units : AnalyzeUnits) (rs : RunSettings)
    (dc : ClangDiagnosticConfig) (preventBuild : Bool) (s : ClangToolRunWorker)
    (hs : Reachable env units (create rs dc preventBuild) s) (id : Nat)
    (sender : ClangToolRunner) (hsender : activeRunner s id = some sender)
    (errorMessage : String) (errorDetails : String) :
    ∃ t, step env s (Op.finishedWithFailure id errorMessage errorDetails) = some t ∧
      sender.fileToAnalyze ∈ t.m_filesNotAnalyzed ∧
      sender.fileToAnalyze ∉ t.m_filesAnalyzed ∧ t.m_success = false ∧
      ∀ (ops : List Op) (u : ClangToolRunWorker), runOps env t ops = some u →
        sender.fileToAnalyze ∈ u.m_filesNotAnalyzed ∧
        sender.fileToAnalyze ∉ u.m_filesAnalyzed ∧ u.m_success = false := by
  have hstep : step env s (Op.finishedWithFailure id errorMessage errorDetails) =
      some (onRunnerFinishedWithFailure env sender errorMessage errorDetails s) := by
    simp [step, hsender]
  have hreach := Reachable.step s _ _ hs hstep
  have hmem : sender.fileToAnalyze ∈
      (onRunnerFinishedWithFailure env sender errorMessage errorDetails s).m_filesNotAnalyzed := by
    rw [onRunnerFinishedWithFailure_eq, (analyzeNextFile_files env _).2]
    simp [failureRecorded]
  have hsucc : (onRunnerFinishedWithFailure env sender errorMessage errorDetails s).m_success
      = false := by
    rw [onRunnerFinishedWithFailure_eq, analyzeNextFile_success]
    simp [failureRecorded]
  refine ⟨_, hstep, hmem, ?_, hsucc, ?_⟩
  · intro h
    exact filesDisjoint_reachable env units rs dc preventBuild _ hreach _ ⟨h, hmem⟩
  · intro ops u hu
    have h1 := runOps_notAnalyzed_mono sender.fileToAnalyze ops _ u hu hmem
    refine ⟨h1, fun h2 => ?_, runOps_success_false ops _ u hu hsucc⟩
    exact filesDisjoint_reachable env units rs dc preventBuild u
      (reachable_runOps hreach ops u hu) _ ⟨h2, h1⟩

theorem finished_no_runners_reachable (env : Env) (units : AnalyzeUnits) (rs : RunSettings)
    (dc : ClangDiagnosticConfig) (preventBuild : Bool) :
    ∀ s, Reachable env units (create rs dc preventBuild) s →
      s.m_progress.finished = true → s.m_runners = [] := by
  have hstep : ∀ s : ClangToolRunWorker,
      (s.m_progress.finished = true → s.m_runners = []) →
      (analyzeNextFile env s).m_progress.finished = true →
        (analyzeNextFile env s).m_runners = [] := by
    intro s h
    apply analyzeNextFile_cases env s
      (fun t => t.m_progress.finished = true → t.m_runners = [])
    · intro _; exact h
    · intro _ _ hr _; simpa [finalize_eq] using hr
    · intro _ _ _; exact h
    · intro item rest _ _ _ _; simp [stop_eq]
    · intro item rest hf _ _ hfin
      simp [launched, dispatched, hf] at hfin
  apply reachable_invariant
  · apply start_invariant
    · intro evs pf _; simp [create]
    · intro _; simp [emit, startPrepared]
    · intro _ _; simp [finalize_eq, startPrepared]
    · intro _ _; simp [emit, startPrepared]
    · intro s h _ _; exact hstep s h
  · intro s sender d e h _ _
    apply hstep
    intro hf
    have := h (by simpa [successRecorded] using hf)
    simp [successRecorded, QSet.remove, this]
  · intro s sender m d h _ _
    apply hstep
    intro hf
    have := h (by simpa [failureRecorded] using hf)
    simp [failureRecorded, QSet.remove, this]
  · intro s _ _; simp [stop_eq]
  · intro s h hf
    simpa [onProgressCanceled_eq] using h (by simpa [onProgressCanceled_eq] using hf)

theorem step_completion {env : Env} {s t : ClangToolRunWorker} {op : Op}
    (hop : op.isCompletion = true) (hst : step env s op = some t) :
    ∃ (sender : ClangToolRunner) (u : ClangToolRunWorker), sender ∈ s.m_runners ∧
      sender.started = true ∧ op.runner = some sender.id ∧ t = analyzeNextFile env u ∧
      u.m_queue = s.m_queue ∧ u.nextRunner = s.nextRunner ∧
      u.m_progress = s.m_progress ∧ u.m_initialQueueSize = s.m_initialQueueSize ∧
      u.m_runners = QSet.remove sender s.m_runners ∧
      createdClasses u.log = createdClasses s.log ∧ runUnits u.log = runUnits s.log ∧
      stopCount u = stopCount s ∧ finalizeCount u = finalizeCount s ∧
      failureReports u = failureReports s ∧
      progressValues u.log =
        progressValues s.log ++ [s.m_initialQueueSize - s.m_queue.length] := by
  cases op with
  | finishedWithSuccess id d e =>
    simp only [step, Option.map_eq_some'] at hst
    obtain ⟨sender, hsender, rfl⟩ := hst
    obtain ⟨hm, hid, hstarted⟩ := activeRunner_some hsender
    refine ⟨sender, successRecorded sender sender.fileToAnalyze d e s, hm, hstarted,
      by simp [Op.runner, hid], onRunnerFinishedWithSuccess_eq _ _ _ _ _ _,
      rfl, rfl, rfl, rfl, rfl, ?_, ?_, ?_, ?_, ?_, ?_⟩ <;>
    by_cases he : e = "" <;> by_cases hd : d = [] <;>
      simp [successRecorded, createdClasses, runUnits, stopCount, finalizeCount,
        failureReports, progressValues, List.countP_append, List.countP_cons,
        isReportStopped, isFinalizeSummary, isReportFailure, List.filterMap_append, he, hd]
  | finishedWithFailure id m d =>
    simp only [step, Option.map_eq_some'] at hst
    obtain ⟨sender, hsender, rfl⟩ := hst
    obtain ⟨hm, hid, hstarted⟩ := activeRunner_some hsender
    refine ⟨sender, failureRecorded sender m d s, hm, hstarted,
      by simp [Op.runner, hid], onRunnerFinishedWithFailure_eq _ _ _ _ _,
      rfl, rfl, rfl, rfl, rfl, ?_, ?_, ?_, ?_, ?_, ?_⟩ <;>
      simp [failureRecorded, createdClasses, runUnits, stopCount, finalizeCount,
        failureReports, progressValues, List.countP_append, List.countP_cons,
        isReportStopped, isFinalizeSummary, isReportFailure, List.filterMap_append]
  | stop => simp [Op.isCompletion, Op.runner] at hop
  | progressCanceled => simp [Op.isCompletion, Op.runner] at hop

theorem isCompletion_of_failed {op : Op} (h : op.failed = true) : op.isCompletion = true := by
  cases op <;> simp [Op.failed, Op.isCompletion, Op.runner] at h ⊢

/-- C14. In a batch, when the completion of a run that failed or whose output cannot be
read is handled while the queue holds `item :: rest` and the executable of the next runner
is valid, the handler dispatches exactly the item at the head of the queue (one runner is
created for it and `run` is called on its unit), leaves `rest` queued, and runs neither
`stop` nor `finalize`; progress is not finished afterwards. -/
theorem file_errors_keep_dispatching (env : Env) (units : AnalyzeUnits) (rs : RunSettings)
    (dc : ClangDiagnosticConfig) (preventBuild : Bool) (s : ClangToolRunWorker)
    (hs : Reachable env units (create rs dc preventBuild) s) (op : Op)
    (t : ClangToolRunWorker) (hop : op.failed = true) (hst : step env s op = some t)
    (item : QueueItem) (rest : List QueueItem) (hq : s.m_queue = item :: rest)
    (he : env.isFileExecutable s.nextRunner = true) :
    t.nextRunner = s.nextRunner + 1 ∧
    createdClasses t.log = createdClasses s.log ++ [item.runnerCreator] ∧
    runUnits t.log = runUnits s.log ++ [item.unit] ∧
    t.m_queue = rest ∧
    (∃ r ∈ t.m_runners, r.id = s.nextRunner ∧ r.cls = item.runnerCreator ∧
      r.fileToAnalyze = item.unit.file) ∧
    stopCount t = stopCount s ∧ finalizeCount t = finalizeCount s ∧
    failureReports t = failureReports s ∧
    t.m_progress.finished = false := by
  obtain ⟨sender, u, hm, -, -, rfl, u1, u2, u3, -, -, u6, u7, u8, u9, u10, -⟩ :=
    step_completion (isCompletion_of_failed hop) hst
  have hf : s.m_progress.finished = false := by
    by_contra hfin
    have := finished_no_runners_reachable env units rs dc preventBuild s hs (by simpa using hfin)
    rw [this] at hm
    cases hm
  have hfu : u.m_progress.finished = false := by rw [u3]; exact hf
  rw [analyzeNextFile_eq_launched hfu (u1.trans hq) (by rw [u2]; exact he)]
  refine ⟨?_, ?_, ?_, ?_, ?_, ?_, ?_, ?_, ?_⟩
  · simp [launched, dispatched, u2]
  · simp only [launched, dispatched, createdClasses_append, u6]
    by_cases hr : env.run u.nextRunner = true <;> simp [createdClasses, hr]
  · simp only [launched, dispatched, runUnits_append, u7]
    by_cases hr : env.run u.nextRunner = true <;> simp [runUnits, hr]
  · simp [launched, dispatched]
  · refine ⟨_, (QSet.mem_insert _ _ _).mpr (Or.inl rfl), ?_, rfl, rfl⟩
    simp [u2]
  · rw [← u8]
    by_cases hr : env.run u.nextRunner = true <;>
      simp [stopCount, launched, dispatched, List.countP_append, List.countP_cons,
        isReportStopped, hr]
  · rw [← u9]
    by_cases hr : env.run u.nextRunner = true <;>
      simp [finalizeCount, launched, dispatched, List.countP_append, List.countP_cons,
        isFinalizeSummary, hr]
  · rw [← u10]
    by_cases hr : env.run u.nextRunner = true <;>
      simp [failureReports, launched, dispatched, List.countP_append, List.countP_cons,
        isReportFailure, hr]
  · simp [launched, dispatched, hfu]

theorem diagnosticsForwarded_append (l₁ l₂ : List Event) :
    diagnosticsForwarded (l₁ ++ l₂) = diagnosticsForwarded l₁ ++ diagnosticsForwarded l₂ := by
  simp [diagnosticsForwarded, List.filterMap_append]

theorem diagnosticsForwarded_stopEvents (l : List ClangToolRunner) :
    diagnosticsForwarded (stopEvents l) = [] := by
  induction l with
  | nil => simp [stopEvents, diagnosticsForwarded]
  | cons r l ih =>
    simp only [stopEvents, List.flatMap_cons] at ih ⊢
    rw [diagnosticsForwarded_append, ih]
    simp [diagnosticsForwarded]

theorem diagnosticsForwarded_finalizeEvents (env : Env) (s : ClangToolRunWorker) :
    diagnosticsForwarded (finalizeEvents env s) = [] := by
  unfold finalizeEvents
  by_cases h1 : s.m_filesNotAnalyzed.card = 0
  · simp [h1, diagnosticsForwarded]
  · by_cases h2 : (env.hasTarget && !env.buildDirectoryExists &&
        !s.m_runSettings.buildBeforeAnalysis) = true <;> simp [h1, h2, diagnosticsForwarded]

theorem analyzeNextFile_diagnosticsForwarded (env : Env) (s : ClangToolRunWorker) :
    diagnosticsForwarded (analyzeNextFile env s).log = diagnosticsForwarded s.log := by
  apply analyzeNextFile_cases env s
    (fun t => diagnosticsForwarded t.log = diagnosticsForwarded s.log)
  · intro _; rfl
  · intro _ _ _
    simp only [finalize_eq, diagnosticsForwarded_append, diagnosticsForwarded_finalizeEvents,
      List.append_nil]
  · intro _ _ _; rfl
  · intro item rest _ _ _
    simp only [stop_eq, rejected, dispatched, diagnosticsForwarded_append,
      diagnosticsForwarded_stopEvents]
    simp [diagnosticsForwarded]
  · intro item rest _ _ _
    simp only [launched, dispatched, diagnosticsForwarded_append]
    by_cases hr : env.run s.nextRunner = true <;> simp [diagnosticsForwarded, hr]

/-- C15. When `onRunnerFinishedWithSuccess` runs and reading the output gives no error
message, afterwards `m_filesAnalyzed` has the file added if it is not in
`m_filesNotAnalyzed` and is unchanged if it is, `m_filesNotAnalyzed` and `m_success` are
unchanged, and the diagnostics were passed to `onNewDiagnosticsAvailable` (once) if they are
non-empty and not at all if they are empty. -/
theorem readable_success_records_file (env : Env) (sender : ClangToolRunner)
    (filePath : String) (diagnostics : Diagnostics) (errorMessage : String)
    (s : ClangToolRunWorker) (he : errorMessage = "") :
    (onRunnerFinishedWithSuccess env sender filePath diagnostics errorMessage s).m_filesAnalyzed
      = (if filePath ∈ s.m_filesNotAnalyzed then s.m_filesAnalyzed
         else insert filePath s.m_filesAnalyzed) ∧
    (onRunnerFinishedWithSuccess env sender filePath diagnostics
      errorMessage s).m_filesNotAnalyzed = s.m_filesNotAnalyzed ∧
    (onRunnerFinishedWithSuccess env sender filePath diagnostics errorMessage s).m_success
      = s.m_success ∧
    diagnosticsForwarded
        (onRunnerFinishedWithSuccess env sender filePath diagnostics errorMessage s).log
      = diagnosticsForwarded s.log ++ (if diagnostics ≠ [] then [diagnostics] else []) := by
  subst he
  rw [onRunnerFinishedWithSuccess_eq, (analyzeNextFile_files env _).1,
    (analyzeNextFile_files env _).2, analyzeNextFile_success,
    analyzeNextFile_diagnosticsForwarded]
  refine ⟨?_, ?_, ?_, ?_⟩
  · by_cases hm : filePath ∈ s.m_filesNotAnalyzed <;> simp [successRecorded, hm]
  · simp [successRecorded]
  · simp [successRecorded]
  · by_cases hd : diagnostics = [] <;>
      simp [successRecorded, diagnosticsForwarded, List.filterMap_append, hd]

/-! ## Progress values -/

theorem progressValues_finalizeEvents (env : Env) (s : ClangToolRunWorker) :
    progressValues (finalizeEvents env s) = [] := by
  unfold finalizeEvents
  by_cases h1 : s.m_filesNotAnalyzed.card = 0
  · simp [h1, progressValues]
  · by_cases h2 : (env.hasTarget && !env.buildDirectoryExists &&
        !s.m_runSettings.buildBeforeAnalysis) = true <;> simp [h1, h2, progressValues]

theorem progressValues_preamble (evs : List Event)
    (h : ∀ e ∈ evs, isPreambleEvent e = true) : progressValues evs = [] := by
  unfold progressValues
  rw [List.filterMap_eq_nil_iff]
  intro e he
  have := h e he
  cases e <;> simp [isPreambleEvent] at this ⊢

/-- What `analyzeNextFile` does to the progress values (nothing), to `m_initialQueueSize`
(nothing) and to the queue (it takes one item when it dispatches; the queue is empty when it
had to stop). -/
theorem analyzeNextFile_progress (env : Env) (s : ClangToolRunWorker) :
    progressValues (analyzeNextFile env s).log = progressValues s.log ∧
    (analyzeNextFile env s).m_initialQueueSize = s.m_initialQueueSize ∧
    (analyzeNextFile env s).m_queue.length ≤ s.m_queue.length ∧
    (s.m_progress.finished = false →
      ((analyzeNextFile env s).m_queue.length + (if s.m_queue = [] then 0 else 1)
          = s.m_queue.length ∨ (analyzeNextFile env s).m_runners = [])) := by
  apply analyzeNextFile_cases env s (fun t =>
    progressValues t.log = progressValues s.log ∧
    t.m_initialQueueSize = s.m_initialQueueSize ∧
    t.m_queue.length ≤ s.m_queue.length ∧
    (s.m_progress.finished = false →
      (t.m_queue.length + (if s.m_queue = [] then 0 else 1) = s.m_queue.length ∨
        t.m_runners = [])))
  · intro h; simp [h]
  · intro _ hq _
    simp only [finalize_eq, progressValues_append, progressValues_finalizeEvents]
    simp [hq]
  · intro _ hq _; simp [hq]
  · intro item rest _ hq _
    simp only [stop_eq, rejected, dispatched, progressValues_append, progressValues_stopEvents]
    simp [progressValues]
  · intro item rest _ hq _
    simp only [launched, dispatched, progressValues_append]
    by_cases hr : env.run s.nextRunner = true <;> simp [progressValues, hr, hq]

theorem progressBounded_analyzeNextFile (env : Env) (s : ClangToolRunWorker)
    (h : ProgressBounded s) : ProgressBounded (analyzeNextFile env s) := by
  obtain ⟨h1, h2, h3⟩ := h
  obtain ⟨a1, a2, a3, -⟩ := analyzeNextFile_progress env s
  unfold ProgressBounded
  rw [a1, a2]
  refine ⟨by omega, fun v hv => ?_, h3⟩
  have := h2 v hv
  constructor
  · exact this.1
  · have := this.2
    omega

theorem progressBounded_append {s u : ClangToolRunWorker} (h : ProgressBounded s)
    (hq : u.m_queue = s.m_queue) (hi : u.m_initialQueueSize = s.m_initialQueueSize)
    (hp : progressValues u.log =
      progressValues s.log ++ [s.m_initialQueueSize - s.m_queue.length]) :
    ProgressBounded u := by
  obtain ⟨h1, h2, h3⟩ := h
  unfold ProgressBounded
  rw [hq, hi, hp]
  refine ⟨h1, fun v hv => ?_, ?_⟩
  · rw [List.mem_append, List.mem_singleton] at hv
    rcases hv with hv | rfl
    · exact h2 v hv
    · constructor <;> omega
  · rw [List.pairwise_append]
    refine ⟨h3, by simp, fun a ha b hb => ?_⟩
    rw [List.mem_singleton] at hb
    subst hb
    exact (h2 a ha).2

theorem progressBounded_reachable (env : Env) (units : AnalyzeUnits) (rs : RunSettings)
    (dc : ClangDiagnosticConfig) (preventBuild : Bool) :
    ∀ s, Reachable env units (create rs dc preventBuild) s → ProgressBounded s := by
  intro s hs
  induction hs with
  | start fuel s h =>
    revert fuel s
    apply start_invariant
    · intro evs pf hevs
      simp [ProgressBounded, create, progressValues_preamble evs hevs]
    · intro _
      simp [ProgressBounded, emit, startPrepared, create, progressValues]
    · intro _ _
      simp only [ProgressBounded, finalize_eq, progressValues_append,
        progressValues_finalizeEvents]
      simp [startPrepared, create, progressValues]
    · intro _ _
      simp [ProgressBounded, emit, startPrepared, create, progressValues]
    · intro s hs _ _
      exact progressBounded_analyzeNextFile env s hs
  | step s op t _ h ih =>
    by_cases hop : op.isCompletion = true
    · obtain ⟨sender, u, -, -, -, rfl, u1, -, -, u4, -, -, -, -, -, -, u11⟩ :=
        step_completion hop h
      exact progressBounded_analyzeNextFile env u (progressBounded_append ih u1 u4 u11)
    · have hq : progressValues t.log = progressValues s.log ∧
          t.m_initialQueueSize = s.m_initialQueueSize ∧
          t.m_queue.length ≤ s.m_queue.length := by
        cases op with
        | finishedWithSuccess id d e => simp [Op.isCompletion, Op.runner] at hop
        | finishedWithFailure id m d => simp [Op.isCompletion, Op.runner] at hop
        | stop =>
          simp only [step, Option.some.injEq] at h
          subst h
          exact ⟨(quiet_stop s).2.2.2.2.2.2.2.2.2, by simp [stop_eq], by simp [stop_eq]⟩
        | progressCanceled =>
          simp only [step, Option.some.injEq] at h
          subst h
          exact ⟨by simp [onProgressCanceled_eq, progressValues],
            by simp [onProgressCanceled_eq], by simp [onProgressCanceled_eq]⟩
      obtain ⟨h1, h2, h3⟩ := ih
      obtain ⟨q1, q2, q3⟩ := hq
      unfold ProgressBounded
      rw [q1, q2]
      refine ⟨by omega, fun v hv => ?_, h3⟩
      have := h2 v hv
      constructor
      · exact this.1
      · have := this.2
        omega

theorem progressValues_bounded_reachable (env : Env) (units : AnalyzeUnits)
    (rs : RunSettings) (dc : ClangDiagnosticConfig) (preventBuild : Bool)
    (s : ClangToolRunWorker) (hs : Reachable env units (create rs dc preventBuild) s) :
    (∀ v ∈ progressValues s.log, 0 ≤ v ∧ v ≤ s.m_initialQueueSize) ∧
      (progressValues s.log).Pairwise (fun a b => a ≤ b) := by
  obtain ⟨h1, h2, h3⟩ := progressBounded_reachable env units rs dc preventBuild s hs
  refine ⟨fun v hv => ⟨(h2 v hv).1, ?_⟩, h3⟩
  have := (h2 v hv).2
  omega

/-- C17. In every state of a batch, every progress value reported so far lies between 0 and
`m_initialQueueSize`, and the values reported by the successive completions are
non-decreasing. -/
theorem progress_values_bounded_and_monotone (env : Env) (units : AnalyzeUnits)
    (rs : RunSettings) (dc : ClangDiagnosticConfig) (preventBuild : Bool)
    (s : ClangToolRunWorker) (hs : Reachable env units (create rs dc preventBuild) s) :
    (∀ v ∈ progressValues s.log, 0 ≤ v ∧ v ≤ s.m_initialQueueSize) ∧
      (progressValues s.log).Pairwise (fun a b => a ≤ b) :=
  progressValues_bounded_reachable env units rs dc preventBuild s hs

theorem progressValue_append (s : ClangToolRunWorker) (l : List Int) (v : Int)
    (h : progressValues s.log = l ++ [v]) : progressValue s = v := by
  simp [progressValue, h]

/-- C16, as amended. In a batch, the handling of a completion reports exactly one progress
value, `m_initialQueueSize - m_queue.size()` taken before the next item is dispatched; the
value reported by the next completion is greater by one when the first completion found an
item in the queue, and is the same when it found the queue empty. -/
theorem progress_value_of_completion (env : Env) (units : AnalyzeUnits) (rs : RunSettings)
    (dc : ClangDiagnosticConfig) (preventBuild : Bool) (s : ClangToolRunWorker)
    (hs : Reachable env units (create rs dc preventBuild) s) (op₁ op₂ : Op)
    (t u : ClangToolRunWorker) (h₁ : op₁.isCompletion = true) (hst₁ : step env s op₁ = some t)
    (h₂ : op₂.isCompletion = true) (hst₂ : step env t op₂ = some u) :
    progressValues t.log =
      progressValues s.log ++ [s.m_initialQueueSize - s.m_queue.length] ∧
    progressValues u.log =
      progressValues t.log ++
        [s.m_initialQueueSize - s.m_queue.length + (if s.m_queue = [] then 0 else 1)] := by
  obtain ⟨sender, r, hm, -, -, rfl, r1, -, r3, r4, -, -, -, -, -, -, r11⟩ :=
    step_completion h₁ hst₁
  obtain ⟨sender₂, r₂, hm₂, -, -, rfl, -, -, -, -, -, -, -, -, -, -, p11⟩ :=
    step_completion h₂ hst₂
  have hf : s.m_progress.finished = false := by
    by_contra hfin
    have := finished_no_runners_reachable env units rs dc preventBuild s hs (by simpa using hfin)
    rw [this] at hm
    cases hm
  obtain ⟨a1, a2, -, a4⟩ := analyzeNextFile_progress env r
  obtain ⟨b1, -, -, -⟩ := analyzeNextFile_progress env r₂
  have hlen : (analyzeNextFile env r).m_queue.length + (if s.m_queue = [] then 0 else 1)
      = s.m_queue.length := by
    rcases a4 (by rw [r3]; exact hf) with h | h
    · rw [r1] at h
      exact h
    · rw [h] at hm₂
      cases hm₂
  refine ⟨by rw [a1, r11], ?_⟩
  rw [b1, p11, a2, r4]
  congr 2
  by_cases hq : s.m_queue = []
  · simp [hq] at hlen ⊢
    simp [hlen]
  · simp [hq] at hlen ⊢
    omega

theorem analyzeNextFile_finalizeCount (env : Env) (s : ClangToolRunWorker) :
    finalizeCount (analyzeNextFile env s) = finalizeCount s ∨
      (s.m_queue = [] ∧ finalizeCount (analyzeNextFile env s) = finalizeCount s + 1) := by
  apply analyzeNextFile_cases env s (fun t => finalizeCount t = finalizeCount s ∨
      (s.m_queue = [] ∧ finalizeCount t = finalizeCount s + 1))
  · intro _; exact Or.inl rfl
  · intro _ hq _
    right
    simp [finalizeCount, finalize_eq, List.countP_append, countP_summary_finalizeEvents, hq]
  · intro _ _ _; exact Or.inl rfl
  · intro item rest _ _ _
    left
    simp [finalizeCount, stop_eq, rejected, dispatched, List.countP_append,
      countP_summary_stopEvents, isFinalizeSummary, List.countP_cons]
  · intro item rest _ _ _
    left
    by_cases hr : env.run s.nextRunner = true <;>
      simp [finalizeCount, launched, dispatched, List.countP_append, isFinalizeSummary,
        List.countP_cons, hr]

/-- C18, as amended. In a batch, when the handling of a completion runs `finalize`, the
progress value it has reported equals `m_initialQueueSize`, and every progress value
reported before is at most `m_initialQueueSize`. -/
theorem progress_at_finalize (env : Env) (units : AnalyzeUnits) (rs : RunSettings)
    (dc : ClangDiagnosticConfig) (preventBuild : Bool) (s : ClangToolRunWorker)
    (hs : Reachable env units (create rs dc preventBuild) s) (op : Op)
    (t : ClangToolRunWorker) (hop : op.isCompletion = true) (hst : step env s op = some t)
    (hfin : finalizeCount t = finalizeCount s + 1) :
    progressValues t.log = progressValues s.log ++ [t.m_initialQueueSize] ∧
    progressValue t = t.m_initialQueueSize ∧
    (∀ v ∈ progressValues s.log, v ≤ t.m_initialQueueSize) := by
  obtain ⟨sender, r, -, -, -, rfl, r1, -, -, r4, -, -, -, -, r9, -, r11⟩ :=
    step_completion hop hst
  obtain ⟨a1, a2, -, -⟩ := analyzeNextFile_progress env r
  have hq : s.m_queue = [] := by
    rcases analyzeNextFile_finalizeCount env r with h | ⟨h, -⟩
    · rw [r9] at h
      omega
    · rw [← r1]
      exact h
  have hpv : progressValues (analyzeNextFile env r).log =
      progressValues s.log ++ [(analyzeNextFile env r).m_initialQueueSize] := by
    rw [a1, r11, a2, r4, hq]
    simp
  refine ⟨hpv, progressValue_append _ _ _ hpv, fun v hv => ?_⟩
  rw [a2, r4]
  exact ((progressValues_bounded_reachable env units rs dc preventBuild s hs).1 v hv).2

/-! ## Stop -/

/-- C20. After `stop`, whatever the state before: every runner that was in `m_runners` has
been disconnected and deleted, `m_queue` and `m_runners` are empty, progress is finished
and `reportFinished` was called, `reportStopped` was called once by this `stop`, and
`finalize` was not run. A cancel of the progress bar reports the cancel and asks the run
control to stop, and changes nothing else. -/
theorem stop_clears_everything (s : ClangToolRunWorker) :
    (∀ r ∈ s.m_runners, Event.disconnectRunner r.id ∈ (stop s).log ∧
      Event.deleteRunner r.id ∈ (stop s).log) ∧
    (stop s).m_runners = [] ∧ (stop s).m_queue = [] ∧
    (stop s).m_progress.finished = true ∧
    (stop s).log = s.log ++ stopEvents s.m_runners ++
      [Event.progressReportFinished, Event.reportStopped] ∧
    stopCount (stop s) = stopCount s + 1 ∧
    finalizeCount (stop s) = finalizeCount s ∧
    ((onProgressCanceled s).log =
        s.log ++ [Event.progressReportCanceled, Event.initiateStop] ∧
      (onProgressCanceled s).m_runners = s.m_runners ∧
      (onProgressCanceled s).m_queue = s.m_queue ∧
      finalizeCount (onProgressCanceled s) = finalizeCount s) := by
  refine ⟨fun r hr => ?_, by simp [stop_eq], by simp [stop_eq], by simp [stop_eq],
    by simp [stop_eq], ?_, (quiet_stop s).2.2.2.2.2.2.2.1, by simp [onProgressCanceled_eq],
    by simp [onProgressCanceled_eq], by simp [onProgressCanceled_eq], ?_⟩
  · constructor
    · simp only [stop_eq, stopEvents, List.mem_append, List.mem_flatMap]
      exact Or.inl (Or.inr ⟨r, hr, by simp⟩)
    · simp only [stop_eq, stopEvents, List.mem_append, List.mem_flatMap]
      exact Or.inl (Or.inr ⟨r, hr, by simp⟩)
  · simp [stopCount, stop_eq, List.countP_append, countP_stopped_stopEvents,
      isReportStopped, List.countP_cons]
  · simp [finalizeCount, onProgressCanceled_eq, List.countP_append, isFinalizeSummary,
      List.countP_cons]

/-- Scenario E of C20: `stop` with two active runners and five queued items. -/
theorem stop_clears_everything_witness :
    (scenarioStarted scenarioEnv oneTool 2 sevenUnits).m_runners.length = 2 ∧
    (scenarioStarted scenarioEnv oneTool 2 sevenUnits).m_queue.length = 5 ∧
    (stop (scenarioStarted scenarioEnv oneTool 2 sevenUnits)).m_runners = [] ∧
    (stop (scenarioStarted scenarioEnv oneTool 2 sevenUnits)).m_queue = [] ∧
    Event.deleteRunner 0 ∈ (stop (scenarioStarted scenarioEnv oneTool 2 sevenUnits)).log ∧
    Event.deleteRunner 1 ∈ (stop (scenarioStarted scenarioEnv oneTool 2 sevenUnits)).log ∧
    finalizeCount (stop (scenarioStarted scenarioEnv oneTool 2 sevenUnits)) = 0 ∧
    stopCount (stop (scenarioStarted scenarioEnv oneTool 2 sevenUnits)) = 1 :=
  have h := stop_clears_everything (scenarioStarted scenarioEnv oneTool 2 sevenUnits)
  ⟨by decide, by decide, h.2.1, h.2.2.1, by decide, by decide,
    h.2.2.2.2.2.2.1.trans (by decide), h.2.2.2.2.2.1.trans (by decide)⟩

/-- C13, the code at the failing input: three files, one tool; the first runner succeeds
but its output cannot be read. The file is recorded as not analyzed and a message is
emitted, but `m_success` is still true; after a runner failure it is false. -/
theorem unreadable_output_keeps_success_flag :
    "a.cpp" ∈ (scenarioAfter scenarioEnv oneTool 2 scenarioUnits
      [Op.finishedWithSuccess 0 [] "cannot parse"]).m_filesNotAnalyzed ∧
    "a.cpp" ∉ (scenarioAfter scenarioEnv oneTool 2 scenarioUnits
      [Op.finishedWithSuccess 0 [] "cannot parse"]).m_filesAnalyzed ∧
    (scenarioAfter scenarioEnv oneTool 2 scenarioUnits
      [Op.finishedWithSuccess 0 [] "cannot parse"]).m_success = true ∧
    (scenarioAfter scenarioEnv oneTool 2 scenarioUnits
      [Op.finishedWithSuccess 0 [] "cannot parse", Op.finishedWithSuccess 1 [] "",
        Op.finishedWithSuccess 2 [] ""]).m_success = true ∧
    Event.appendMessage (Message.finished 2 1) OutputFormat.NormalMessageFormat ∈
      (scenarioAfter scenarioEnv oneTool 2 scenarioUnits
        [Op.finishedWithSuccess 0 [] "cannot parse", Op.finishedWithSuccess 1 [] "",
          Op.finishedWithSuccess 2 [] ""]).log ∧
    (scenarioAfter scenarioEnv oneTool 2 scenarioUnits
      [Op.finishedWithFailure 0 "crashed" ""]).m_success = false := by
  decide

/-- C19, the code at the failing input: three files, one tool, two parallel jobs, and `run`
returns false for the first runner. `start` reports no failure and does not stop: the first
runner stays in `m_runners` without a started process, the second item is dispatched, the
third stays queued and is dispatched by the next completion; after the two other runners
have completed, `finalize` has not run and the first runner is still in `m_runners`. -/
theorem run_false_is_not_fatal :
    failureReports (scenarioStarted scenarioEnvRunFails oneTool 2 scenarioUnits) = 0 ∧
    stopCount (scenarioStarted scenarioEnvRunFails oneTool 2 scenarioUnits) = 0 ∧
    (scenarioStarted scenarioEnvRunFails oneTool 2 scenarioUnits).m_runners =
      [ClangToolRunner.mk 0 RunnerClass.ClangTidyRunner "a.cpp" false,
        ClangToolRunner.mk 1 RunnerClass.ClangTidyRunner "b.cpp" true] ∧
    (scenarioStarted scenarioEnvRunFails oneTool 2 scenarioUnits).m_queue.length = 1 ∧
    (scenarioStarted scenarioEnvRunFails oneTool 2 scenarioUnits).m_progress.finished = false ∧
    (scenarioAfter scenarioEnvRunFails oneTool 2 scenarioUnits
      [Op.finishedWithSuccess 1 [] "", Op.finishedWithSuccess 2 [] ""]).m_runners =
      [ClangToolRunner.mk 0 RunnerClass.ClangTidyRunner "a.cpp" false] ∧
    (scenarioAfter scenarioEnvRunFails oneTool 2 scenarioUnits
      [Op.finishedWithSuccess 1 [] "", Op.finishedWithSuccess 2 [] ""]).m_queue = [] ∧
    finalizeCount (scenarioAfter scenarioEnvRunFails oneTool 2 scenarioUnits
      [Op.finishedWithSuccess 1 [] "", Op.finishedWithSuccess 2 [] ""]) = 0 ∧
    failureReports (scenarioAfter scenarioEnvRunFails oneTool 2 scenarioUnits
      [Op.finishedWithSuccess 1 [] "", Op.finishedWithSuccess 2 [] ""]) = 0 ∧
    stopCount (scenarioAfter scenarioEnvRunFails oneTool 2 scenarioUnits
      [Op.finishedWithSuccess 1 [] "", Op.finishedWithSuccess 2 [] ""]) = 0 := by
  decide

/-- Counterexample to C16 as stated: three files, one tool, two parallel jobs, all runs
succeed. The values reported by the three completions are 2, 3 and 3: the first completion
moves the value from 0 to 2, the third does not move it. -/
theorem progress_advances_by_one_counterexample :
    progressValues (scenarioAfter scenarioEnv oneTool 2 scenarioUnits
      [Op.finishedWithSuccess 1 [] "", Op.finishedWithSuccess 0 [] "",
        Op.finishedWithSuccess 2 [] ""]).log = [2, 3, 3] ∧
    ¬ (∀ (s t : ClangToolRunWorker) (op : Op),
      Reachable scenarioEnv scenarioUnits (scenarioWorker oneTool 2) s →
      op.isCompletion = true → step scenarioEnv s op = some t →
      progressValue t = progressValue s + 1) := by
  refine ⟨by decide, fun h => ?_⟩
  have hreach := reachable_scenarioAfter scenarioEnv oneTool 2 scenarioUnits
    [Op.finishedWithSuccess 1 [] "", Op.finishedWithSuccess 0 [] ""] (by decide) (by decide)
  have hstep := eq_some_getD
    (step scenarioEnv (scenarioAfter scenarioEnv oneTool 2 scenarioUnits
      [Op.finishedWithSuccess 1 [] "", Op.finishedWithSuccess 0 [] ""])
      (Op.finishedWithSuccess 2 [] "")) (scenarioWorker oneTool 2) (by decide)
  have := h _ _ _ hreach (by decide) hstep
  revert this
  decide

/-- Counterexample to C18 as stated: three files, one tool, two parallel jobs. After two
completions `finalize` has not run and `stop` was not called, yet the progress value
already equals `m_initialQueueSize`. -/
theorem progress_reaches_initial_count_counterexample :
    finalizeCount (scenarioAfter scenarioEnv oneTool 2 scenarioUnits
      [Op.finishedWithSuccess 1 [] "", Op.finishedWithSuccess 0 [] ""]) = 0 ∧
    stopCount (scenarioAfter scenarioEnv oneTool 2 scenarioUnits
      [Op.finishedWithSuccess 1 [] "", Op.finishedWithSuccess 0 [] ""]) = 0 ∧
    progressValue (scenarioAfter scenarioEnv oneTool 2 scenarioUnits
      [Op.finishedWithSuccess 1 [] "", Op.finishedWithSuccess 0 [] ""]) = 3 ∧
    (scenarioAfter scenarioEnv oneTool 2 scenarioUnits
      [Op.finishedWithSuccess 1 [] "", Op.finishedWithSuccess 0 [] ""]).m_initialQueueSize = 3 ∧
    ¬ (∀ s : ClangToolRunWorker,
      Reachable scenarioEnv scenarioUnits (scenarioWorker oneTool 2) s →
      finalizeCount s = 0 → stopCount s = 0 →
      progressValue s < s.m_initialQueueSize) := by
  refine ⟨by decide, by decide, by decide, by decide, fun h => ?_⟩
  have hreach := reachable_scenarioAfter scenarioEnv oneTool 2 scenarioUnits
    [Op.finishedWithSuccess 1 [] "", Op.finishedWithSuccess 0 [] ""] (by decide) (by decide)
  have := h _ hreach (by decide) (by decide)
  revert this
  decide

/-- Witness of C11: three files, one tool, and an invalid executable at the first
dispatch. -/
theorem invalid_executable_stops_batch_witness :
    (startReported scenarioEnvInvalid scenarioUnits
      (scenarioWorker oneTool 2)).m_progress.finished = false ∧
    (startReported scenarioEnvInvalid scenarioUnits (scenarioWorker oneTool 2)).m_queue =
      QueueItem.mk (AnalyzeUnit.mk "a.cpp" ["-c"]) RunnerClass.ClangTidyRunner ::
        [QueueItem.mk (AnalyzeUnit.mk "b.cpp" ["-c"]) RunnerClass.ClangTidyRunner,
          QueueItem.mk (AnalyzeUnit.mk "c.cpp" ["-c"]) RunnerClass.ClangTidyRunner] ∧
    failureReports (analyzeNextFile scenarioEnvInvalid
        (startReported scenarioEnvInvalid scenarioUnits (scenarioWorker oneTool 2)))
      = failureReports (startReported scenarioEnvInvalid scenarioUnits
          (scenarioWorker oneTool 2)) + 1 ∧
    (analyzeNextFile scenarioEnvInvalid
        (startReported scenarioEnvInvalid scenarioUnits (scenarioWorker oneTool 2))).m_queue
      = [] :=
  have h := invalid_executable_stops_batch scenarioEnvInvalid
    (startReported scenarioEnvInvalid scenarioUnits (scenarioWorker oneTool 2))
    (QueueItem.mk (AnalyzeUnit.mk "a.cpp" ["-c"]) RunnerClass.ClangTidyRunner)
    [QueueItem.mk (AnalyzeUnit.mk "b.cpp" ["-c"]) RunnerClass.ClangTidyRunner,
      QueueItem.mk (AnalyzeUnit.mk "c.cpp" ["-c"]) RunnerClass.ClangTidyRunner]
    (by decide) (by decide) rfl
  ⟨by decide, by decide, h.1.1, h.1.2.2.2.2.2.1⟩

/-- Witness of C12: three files, one tool; the first runner fails. -/
theorem failure_marks_file_and_batch_witness :
    Reachable scenarioEnv scenarioUnits (create (RunSettings.mk 2 false) oneTool false)
      (scenarioAfter scenarioEnv oneTool 2 scenarioUnits []) ∧
    activeRunner (scenarioAfter scenarioEnv oneTool 2 scenarioUnits []) 0 =
      some (ClangToolRunner.mk 0 RunnerClass.ClangTidyRunner "a.cpp" true) ∧
    ∃ t, step scenarioEnv (scenarioAfter scenarioEnv oneTool 2 scenarioUnits [])
        (Op.finishedWithFailure 0 "crashed" "details") = some t ∧
      "a.cpp" ∈ t.m_filesNotAnalyzed ∧ "a.cpp" ∉ t.m_filesAnalyzed ∧ t.m_success = false :=
  have hreach := reachable_scenarioAfter scenarioEnv oneTool 2 scenarioUnits []
    (by decide) (by decide)
  have hsender : activeRunner (scenarioAfter scenarioEnv oneTool 2 scenarioUnits []) 0 =
      some (ClangToolRunner.mk 0 RunnerClass.ClangTidyRunner "a.cpp" true) := by decide
  ⟨hreach, hsender,
    (failure_marks_file_and_batch scenarioEnv scenarioUnits (RunSettings.mk 2 false) oneTool
      false _ hreach 0 _ hsender "crashed" "details").elim
      (fun t h => ⟨t, h.1, h.2.1, h.2.2.1, h.2.2.2.1⟩)⟩

/-- Witness of C14: three files, one tool, two parallel jobs; the first runner fails while
`c.cpp` is queued. -/
theorem file_errors_keep_dispatching_witness :
    Reachable scenarioEnv scenarioUnits (create (RunSettings.mk 2 false) oneTool false)
      (scenarioAfter scenarioEnv oneTool 2 scenarioUnits []) ∧
    (scenarioAfter scenarioEnv oneTool 2 scenarioUnits []).m_queue =
      [QueueItem.mk (AnalyzeUnit.mk "c.cpp" ["-c"]) RunnerClass.ClangTidyRunner] ∧
    runUnits (scenarioAfter scenarioEnv oneTool 2 scenarioUnits
        [Op.finishedWithFailure 0 "crashed" ""]).log =
      runUnits (scenarioAfter scenarioEnv oneTool 2 scenarioUnits []).log ++
        [AnalyzeUnit.mk "c.cpp" ["-c"]] ∧
    stopCount (scenarioAfter scenarioEnv oneTool 2 scenarioUnits
        [Op.finishedWithFailure 0 "crashed" ""]) =
      stopCount (scenarioAfter scenarioEnv oneTool 2 scenarioUnits []) :=
  have hreach := reachable_scenarioAfter scenarioEnv oneTool 2 scenarioUnits []
    (by decide) (by decide)
  have hq : (scenarioAfter scenarioEnv oneTool 2 scenarioUnits []).m_queue =
      [QueueItem.mk (AnalyzeUnit.mk "c.cpp" ["-c"]) RunnerClass.ClangTidyRunner] := by decide
  have hst : step scenarioEnv (scenarioAfter scenarioEnv oneTool 2 scenarioUnits [])
      (Op.finishedWithFailure 0 "crashed" "") =
      some (scenarioAfter scenarioEnv oneTool 2 scenarioUnits
        [Op.finishedWithFailure 0 "crashed" ""]) := by
    rfl
  have h := file_errors_keep_dispatching scenarioEnv scenarioUnits (RunSettings.mk 2 false)
    oneTool false _ hreach (Op.finishedWithFailure 0 "crashed" "") _ rfl hst _ _ hq rfl
  ⟨hreach, hq, h.2.2.1, h.2.2.2.2.2.1⟩

/-- Witness of C15: the output of the runner of `a.cpp` is read without error and holds one
diagnostic. -/
theorem readable_success_records_file_witness :
    ("" : String) = "" ∧
    (onRunnerFinishedWithSuccess scenarioEnv
        (ClangToolRunner.mk 0 RunnerClass.ClangTidyRunner "a.cpp" true) "a.cpp" ["warning"] ""
        (scenarioStarted scenarioEnv oneTool 2 scenarioUnits)).m_filesNotAnalyzed =
      (scenarioStarted scenarioEnv oneTool 2 scenarioUnits).m_filesNotAnalyzed ∧
    diagnosticsForwarded (onRunnerFinishedWithSuccess scenarioEnv
        (ClangToolRunner.mk 0 RunnerClass.ClangTidyRunner "a.cpp" true) "a.cpp" ["warning"] ""
        (scenarioStarted scenarioEnv oneTool 2 scenarioUnits)).log =
      diagnosticsForwarded (scenarioStarted scenarioEnv oneTool 2 scenarioUnits).log ++
        (if (["warning"] : Diagnostics) ≠ [] then [["warning"]] else []) :=
  have h := readable_success_records_file scenarioEnv
    (ClangToolRunner.mk 0 RunnerClass.ClangTidyRunner "a.cpp" true) "a.cpp" ["warning"] ""
    (scenarioStarted scenarioEnv oneTool 2 scenarioUnits) rfl
  ⟨rfl, h.2.1, h.2.2.2⟩

/-- Witness of C16 as amended: three files, one tool, two parallel jobs; the completions of
the second and of the first runner. -/
theorem progress_value_of_completion_witness :
    Reachable scenarioEnv scenarioUnits (create (RunSettings.mk 2 false) oneTool false)
      (scenarioAfter scenarioEnv oneTool 2 scenarioUnits []) ∧
    progressValues (scenarioAfter scenarioEnv oneTool 2 scenarioUnits
        [Op.finishedWithSuccess 1 [] ""]).log =
      progressValues (scenarioAfter scenarioEnv oneTool 2 scenarioUnits []).log ++
        [(scenarioAfter scenarioEnv oneTool 2 scenarioUnits []).m_initialQueueSize -
          (scenarioAfter scenarioEnv oneTool 2 scenarioUnits []).m_queue.length] ∧
    progressValues (scenarioAfter scenarioEnv oneTool 2 scenarioUnits
        [Op.finishedWithSuccess 1 [] "", Op.finishedWithSuccess 0 [] ""]).log =
      progressValues (scenarioAfter scenarioEnv oneTool 2 scenarioUnits
        [Op.finishedWithSuccess 1 [] ""]).log ++
        [(scenarioAfter scenarioEnv oneTool 2 scenarioUnits []).m_initialQueueSize -
          (scenarioAfter scenarioEnv oneTool 2 scenarioUnits []).m_queue.length +
          (if (scenarioAfter scenarioEnv oneTool 2 scenarioUnits []).m_queue = [] then 0
           else 1)] :=
  have hreach := reachable_scenarioAfter scenarioEnv oneTool 2 scenarioUnits []
    (by decide) (by decide)
  have h₁ : step scenarioEnv (scenarioAfter scenarioEnv oneTool 2 scenarioUnits [])
      (Op.finishedWithSuccess 1 [] "") =
      some (scenarioAfter scenarioEnv oneTool 2 scenarioUnits
        [Op.finishedWithSuccess 1 [] ""]) := by
    rfl
  have h₂ : step scenarioEnv (scenarioAfter scenarioEnv oneTool 2 scenarioUnits
      [Op.finishedWithSuccess 1 [] ""]) (Op.finishedWithSuccess 0 [] "") =
      some (scenarioAfter scenarioEnv oneTool 2 scenarioUnits
        [Op.finishedWithSuccess 1 [] "", Op.finishedWithSuccess 0 [] ""]) := by
    rfl
  have h := progress_value_of_completion scenarioEnv scenarioUnits (RunSettings.mk 2 false)
    oneTool false _ hreach (Op.finishedWithSuccess 1 [] "") (Op.finishedWithSuccess 0 [] "")
    _ _ rfl h₁ rfl h₂
  ⟨hreach, h.1, h.2⟩

/-- Witness of C17: three files, one tool, two parallel jobs, after the three
completions. -/
theorem progress_values_bounded_and_monotone_witness :
    Reachable scenarioEnv scenarioUnits (create (RunSettings.mk 2 false) oneTool false)
      (scenarioAfter scenarioEnv oneTool 2 scenarioUnits
        [Op.finishedWithSuccess 1 [] "", Op.finishedWithSuccess 0 [] "",
          Op.finishedWithSuccess 2 [] ""]) ∧
    progressValues (scenarioAfter scenarioEnv oneTool 2 scenarioUnits
        [Op.finishedWithSuccess 1 [] "", Op.finishedWithSuccess 0 [] "",
          Op.finishedWithSuccess 2 [] ""]).log = [2, 3, 3] ∧
    (progressValues (scenarioAfter scenarioEnv oneTool 2 scenarioUnits
        [Op.finishedWithSuccess 1 [] "", Op.finishedWithSuccess 0 [] "",
          Op.finishedWithSuccess 2 [] ""]).log).Pairwise (fun a b => a ≤ b) :=
  have hreach := reachable_scenarioAfter scenarioEnv oneTool 2 scenarioUnits
    [Op.finishedWithSuccess 1 [] "", Op.finishedWithSuccess 0 [] "",
      Op.finishedWithSuccess 2 [] ""] (by decide) (by decide)
  ⟨hreach, by decide,
    (progress_values_bounded_and_monotone scenarioEnv scenarioUnits (RunSettings.mk 2 false)
      oneTool false _ hreach).2⟩

/-- Witness of C18 as amended: three files, one tool, two parallel jobs; the third
completion runs `finalize`. -/
theorem progress_at_finalize_witness :
    Reachable scenarioEnv scenarioUnits (create (RunSettings.mk 2 false) oneTool false)
      (scenarioAfter scenarioEnv oneTool 2 scenarioUnits
        [Op.finishedWithSuccess 1 [] "", Op.finishedWithSuccess 0 [] ""]) ∧
    finalizeCount (scenarioAfter scenarioEnv oneTool 2 scenarioUnits
        [Op.finishedWithSuccess 1 [] "", Op.finishedWithSuccess 0 [] "",
          Op.finishedWithSuccess 2 [] ""]) =
      finalizeCount (scenarioAfter scenarioEnv oneTool 2 scenarioUnits
        [Op.finishedWithSuccess 1 [] "", Op.finishedWithSuccess 0 [] ""]) + 1 ∧
    progressValue (scenarioAfter scenarioEnv oneTool 2 scenarioUnits
        [Op.finishedWithSuccess 1 [] "", Op.finishedWithSuccess 0 [] "",
          Op.finishedWithSuccess 2 [] ""]) =
      (scenarioAfter scenarioEnv oneTool 2 scenarioUnits
        [Op.finishedWithSuccess 1 [] "", Op.finishedWithSuccess 0 [] "",
          Op.finishedWithSuccess 2 [] ""]).m_initialQueueSize :=
  have hreach := reachable_scenarioAfter scenarioEnv oneTool 2 scenarioUnits
    [Op.finishedWithSuccess 1 [] "", Op.finishedWithSuccess 0 [] ""] (by decide) (by decide)
  have hst : step scenarioEnv (scenarioAfter scenarioEnv oneTool 2 scenarioUnits
      [Op.finishedWithSuccess 1 [] "", Op.finishedWithSuccess 0 [] ""])
      (Op.finishedWithSuccess 2 [] "") =
      some (scenarioAfter scenarioEnv oneTool 2 scenarioUnits
        [Op.finishedWithSuccess 1 [] "", Op.finishedWithSuccess 0 [] "",
          Op.finishedWithSuccess 2 [] ""]) := by
    rfl
  have hfin : finalizeCount (scenarioAfter scenarioEnv oneTool 2 scenarioUnits
        [Op.finishedWithSuccess 1 [] "", Op.finishedWithSuccess 0 [] "",
          Op.finishedWithSuccess 2 [] ""]) =
      finalizeCount (scenarioAfter scenarioEnv oneTool 2 scenarioUnits
        [Op.finishedWithSuccess 1 [] "", Op.finishedWithSuccess 0 [] ""]) + 1 := by decide
  ⟨hreach, hfin,
    (progress_at_finalize scenarioEnv scenarioUnits (RunSettings.mk 2 false) oneTool false _
      hreach (Op.finishedWithSuccess 2 [] "") _ rfl hst hfin).2.1⟩

/-! ## Terminal states -/

/-- Counterexample to C21 as stated: three files, one tool. A second `stop` right after a
first one, and a `stop` after `finalize`, each call `reportFinished` and `reportStopped`
again. -/
theorem repeated_stop_counterexample :
    stopCount (stop (scenarioStarted scenarioEnv oneTool 2 scenarioUnits)) = 1 ∧
    stopCount (stop (stop (scenarioStarted scenarioEnv oneTool 2 scenarioUnits))) = 2 ∧
    (stop (stop (scenarioStarted scenarioEnv oneTool 2 scenarioUnits))).log ≠
      (stop (scenarioStarted scenarioEnv oneTool 2 scenarioUnits)).log ∧
    finalizeCount (scenarioAfter scenarioEnv oneTool 2 scenarioUnits
      [Op.finishedWithSuccess 0 [] "", Op.finishedWithSuccess 1 [] "",
        Op.finishedWithSuccess 2 [] ""]) = 1 ∧
    (stop (scenarioAfter scenarioEnv oneTool 2 scenarioUnits
      [Op.finishedWithSuccess 0 [] "", Op.finishedWithSuccess 1 [] "",
        Op.finishedWithSuccess 2 [] ""])).log =
      (scenarioAfter scenarioEnv oneTool 2 scenarioUnits
        [Op.finishedWithSuccess 0 [] "", Op.finishedWithSuccess 1 [] "",
          Op.finishedWithSuccess 2 [] ""]).log ++
        [Event.progressReportFinished, Event.reportStopped] := by
  decide

/-- C21, as amended. In a state in which `m_runners` and `m_queue` are empty and progress
is finished (after `stop`, after `finalize`), `stop` leaves the queue, the runners, the
result sets, the success flag and the progress state as they are and runs no `finalize`,
but it clears `m_projectFiles` and calls `reportFinished` and `reportStopped` once more. -/
theorem stop_when_terminal (s : ClangToolRunWorker) (hr : s.m_runners = [])
    (hq : s.m_queue = []) (hf : s.m_progress.finished = true) :
    stop s = { s with
      m_projectFiles := ∅
      log := (s.log ++ [Event.progressReportFinished, Event.reportStopped]) } ∧
    (stop s).m_queue = s.m_queue ∧ (stop s).m_runners = s.m_runners ∧
    (stop s).m_progress = s.m_progress ∧
    (stop s).m_filesAnalyzed = s.m_filesAnalyzed ∧
    (stop s).m_filesNotAnalyzed = s.m_filesNotAnalyzed ∧
    (stop s).m_success = s.m_success ∧
    (stop s).m_initialQueueSize = s.m_initialQueueSize ∧
    finalizeCount (stop s) = finalizeCount s ∧
    stopCount (stop s) = stopCount s + 1 := by
  have hp : ({ s.m_progress with finished := true } : QFutureInterface) = s.m_progress := by
    cases hprog : s.m_progress with
    | mk fin can =>
      rw [hprog] at hf
      simp at hf
      simp [hf]
  refine ⟨?_, by simp [stop_eq, hq], by simp [stop_eq, hr], by simp [stop_eq, hp],
    by simp [stop_eq], by simp [stop_eq], by simp [stop_eq], by simp [stop_eq],
    (quiet_stop s).2.2.2.2.2.2.2.1, ?_⟩
  · rw [stop_eq, hp]
    simp [stopEvents, hr, hq]
  · simp [stopCount, stop_eq, List.countP_append, countP_stopped_stopEvents,
      isReportStopped, List.countP_cons]

/-- C22. Once progress is finished, `analyzeNextFile` returns the state unchanged: it
creates no runner, takes nothing from the queue and does not run `finalize`, whatever the
queue and `m_runners` hold. -/
theorem finished_is_absorbing (env : Env) (s : ClangToolRunWorker)
    (hf : s.m_progress.finished = true) :
    analyzeNextFile env s = s ∧
    (analyzeNextFile env s).nextRunner = s.nextRunner ∧
    createdClasses (analyzeNextFile env s).log = createdClasses s.log ∧
    (analyzeNextFile env s).m_queue = s.m_queue ∧
    (analyzeNextFile env s).m_runners = s.m_runners ∧
    finalizeCount (analyzeNextFile env s) = finalizeCount s := by
  have h : analyzeNextFile env s = s := by
    unfold analyzeNextFile
    simp [hf]
  rw [h]
  exact ⟨rfl, rfl, rfl, rfl, rfl, rfl⟩

/-! ## Finalize -/

theorem analyzeNextFile_of_queue_nil (env : Env) (s : ClangToolRunWorker)
    (hf : s.m_progress.finished = false) (hq : s.m_queue = []) :
    (s.m_runners = [] → analyzeNextFile env s = finalize env s) ∧
      (s.m_runners ≠ [] → analyzeNextFile env s = s) := by
  constructor
  · intro hr
    unfold analyzeNextFile
    simp [hf, hq, hr]
  · intro hr
    unfold analyzeNextFile
    simp [hf, hq, hr]

theorem finalizeCount_finalize (env : Env) (s : ClangToolRunWorker) :
    finalizeCount (finalize env s) = finalizeCount s + 1 := by
  simp [finalizeCount, finalize_eq, List.countP_append, countP_summary_finalizeEvents]

/-- C23. In a batch, let the completion of the started runner `sender` be handled. Then
`finalize` is run by the handler if and only if `m_queue` is empty and `m_runners` without
`sender` is empty. When `m_queue` is empty and another runner is left, the handler neither
dispatches nor runs `finalize`. -/
theorem completion_finalizes_iff_drained (env : Env) (units : AnalyzeUnits)
    (rs : RunSettings) (dc : ClangDiagnosticConfig) (preventBuild : Bool)
    (s : ClangToolRunWorker) (hs : Reachable env units (create rs dc preventBuild) s)
    (op : Op) (id : Nat) (sender : ClangToolRunner) (t : ClangToolRunWorker)
    (hop : op.runner = some id) (hsender : activeRunner s id = some sender)
    (hst : step env s op = some t) :
    (finalizeCount t = finalizeCount s + 1 ↔
      s.m_queue = [] ∧ QSet.remove sender s.m_runners = []) ∧
    (finalizeCount t = finalizeCount s ∨ finalizeCount t = finalizeCount s + 1) ∧
    (s.m_queue = [] → QSet.remove sender s.m_runners ≠ [] →
      finalizeCount t = finalizeCount s ∧ t.nextRunner = s.nextRunner ∧
      createdClasses t.log = createdClasses s.log ∧ runUnits t.log = runUnits s.log ∧
      t.m_runners = QSet.remove sender s.m_runners ∧ t.m_queue = []) := by
  have hf : s.m_progress.finished = false := by
    by_contra hfin
    have := finished_no_runners_reachable env units rs dc preventBuild s hs (by simpa using hfin)
    have hm := (activeRunner_some hsender).1
    rw [this] at hm
    cases hm
  have key : ∀ u : ClangToolRunWorker, u.m_queue = s.m_queue → u.nextRunner = s.nextRunner →
      u.m_progress = s.m_progress → u.m_runners = QSet.remove sender s.m_runners →
      createdClasses u.log = createdClasses s.log → runUnits u.log = runUnits s.log →
      finalizeCount u = finalizeCount s → t = analyzeNextFile env u →
      (finalizeCount t = finalizeCount s + 1 ↔
        s.m_queue = [] ∧ QSet.remove sender s.m_runners = []) ∧
      (finalizeCount t = finalizeCount s ∨ finalizeCount t = finalizeCount s + 1) ∧
      (s.m_queue = [] → QSet.remove sender s.m_runners ≠ [] →
        finalizeCount t = finalizeCount s ∧ t.nextRunner = s.nextRunner ∧
        createdClasses t.log = createdClasses s.log ∧ runUnits t.log = runUnits s.log ∧
        t.m_runners = QSet.remove sender s.m_runners ∧ t.m_queue = []) := by
    intro u u1 u2 u3 u5 u6 u7 u9 ht
    subst ht
    have hfu : u.m_progress.finished = false := by rw [u3]; exact hf
    by_cases hq : s.m_queue = []
    · obtain ⟨h1, h2⟩ := analyzeNextFile_of_queue_nil env u hfu (u1.trans hq)
      by_cases hr : QSet.remove sender s.m_runners = []
      · rw [h1 (u5.trans hr), finalizeCount_finalize, u9]
        exact ⟨⟨fun _ => ⟨hq, hr⟩, fun _ => rfl⟩, Or.inr rfl, fun _ hne => absurd hr hne⟩
      · rw [h2 (by rw [u5]; exact hr), u9, u2, u6, u7, u5, u1]
        refine ⟨⟨fun h => ?_, fun h => absurd h.2 hr⟩, Or.inl rfl,
          fun _ _ => ⟨rfl, rfl, rfl, rfl, rfl, hq⟩⟩
        omega
    · have hcount : finalizeCount (analyzeNextFile env u) = finalizeCount s := by
        rcases analyzeNextFile_finalizeCount env u with h | ⟨h, -⟩
        · rw [h, u9]
        · exact absurd (u1 ▸ h) hq
      rw [hcount]
      refine ⟨⟨fun h => ?_, fun h => absurd h.1 hq⟩, Or.inl rfl, fun h => absurd h hq⟩
      omega
  cases op with
  | finishedWithSuccess id2 d e =>
    simp only [Op.runner, Option.some.injEq] at hop
    subst hop
    simp only [step, hsender, Option.map_some', Option.some.injEq] at hst
    refine key (successRecorded sender sender.fileToAnalyze d e s) rfl rfl rfl rfl ?_ ?_ ?_
      (by rw [← hst, onRunnerFinishedWithSuccess_eq])
    · by_cases he : e = "" <;> by_cases hd : d = [] <;>
        simp [successRecorded, createdClasses, he, hd]
    · by_cases he : e = "" <;> by_cases hd : d = [] <;>
        simp [successRecorded, runUnits, he, hd]
    · by_cases he : e = "" <;> by_cases hd : d = [] <;>
        simp [successRecorded, finalizeCount, List.countP_append, List.countP_cons,
          isFinalizeSummary, he, hd]
  | finishedWithFailure id2 m d =>
    simp only [Op.runner, Option.some.injEq] at hop
    subst hop
    simp only [step, hsender, Option.map_some', Option.some.injEq] at hst
    refine key (failureRecorded sender m d s) rfl rfl rfl rfl ?_ ?_ ?_
      (by rw [← hst, onRunnerFinishedWithFailure_eq])
    · simp [failureRecorded, createdClasses]
    · simp [failureRecorded, runUnits]
    · simp [failureRecorded, finalizeCount, List.countP_append, List.countP_cons,
        isFinalizeSummary]
  | stop => simp [Op.runner] at hop
  | progressCanceled => simp [Op.runner] at hop

/-- C24. `finalize` appends to the log, in this order: the summary with the sizes of
`m_filesAnalyzed` and `m_filesNotAnalyzed`; the calls `mid`; `reportFinished` of the
progress and `initiateStop`. `mid` holds the task for files that could not be analyzed and
the popup request exactly when `m_filesNotAnalyzed` is non-empty, and the task with the
build guidance exactly when in addition a target exists, its build directory does not exist
and building before the analysis is off. Progress is finished afterwards; nothing else
changes. -/
theorem finalize_reports_summary (env : Env) (s : ClangToolRunWorker) :
    ∃ mid : List Event,
      (finalize env s).log = s.log ++
        [Event.appendMessage
          (Message.finished s.m_filesAnalyzed.card s.m_filesNotAnalyzed.card)
          OutputFormat.NormalMessageFormat] ++ mid ++
        [Event.progressReportFinished, Event.initiateStop] ∧
      (mid = [] ∨ mid = [Event.addTask Message.notAllFilesAnalyzed, Event.requestPopup] ∨
        mid = [Event.addTask Message.notAllFilesAnalyzed, Event.addTask Message.needToBuild,
          Event.requestPopup]) ∧
      (Event.addTask Message.notAllFilesAnalyzed ∈ mid ↔ s.m_filesNotAnalyzed ≠ ∅) ∧
      (Event.requestPopup ∈ mid ↔ s.m_filesNotAnalyzed ≠ ∅) ∧
      (Event.addTask Message.needToBuild ∈ mid ↔
        (s.m_filesNotAnalyzed ≠ ∅ ∧ env.hasTarget = true ∧ env.buildDirectoryExists = false ∧
          s.m_runSettings.buildBeforeAnalysis = false)) ∧
      (finalize env s).m_progress.finished = true ∧
      (finalize env s).m_queue = s.m_queue ∧ (finalize env s).m_runners = s.m_runners ∧
      (finalize env s).m_filesAnalyzed = s.m_filesAnalyzed ∧
      (finalize env s).m_filesNotAnalyzed = s.m_filesNotAnalyzed ∧
      (finalize env s).m_success = s.m_success := by
  by_cases h1 : s.m_filesNotAnalyzed = ∅
  · refine ⟨[], ?_, Or.inl rfl, ?_, ?_, ?_, ?_⟩
    · simp [finalize_eq, finalizeEvents, h1]
    · simp [h1]
    · simp [h1]
    · simp [h1]
    · simp [finalize_eq]
  · have hc : s.m_filesNotAnalyzed.card ≠ 0 := by
      simpa [Finset.card_eq_zero] using h1
    by_cases h2 : (env.hasTarget && !env.buildDirectoryExists &&
        !s.m_runSettings.buildBeforeAnalysis) = true
    · refine ⟨[Event.addTask Message.notAllFilesAnalyzed, Event.addTask Message.needToBuild,
        Event.requestPopup], ?_, Or.inr (Or.inr rfl), ?_, ?_, ?_, ?_⟩
      · simp [finalize_eq, finalizeEvents, hc, h2]
      · simp [h1]
      · simp [h1]
      · simp at h2
        simp [h1, h2]
      · simp [finalize_eq]
    · refine ⟨[Event.addTask Message.notAllFilesAnalyzed, Event.requestPopup], ?_,
        Or.inr (Or.inl rfl), ?_, ?_, ?_, ?_⟩
      · simp [finalize_eq, finalizeEvents, hc, h2]
      · simp [h1]
      · simp [h1]
      · simp at h2
        simp [h1]
        intro a b
        cases hbb : s.m_runSettings.buildBeforeAnalysis
        · exact absurd hbb (by simpa using h2 a b)
        · simp
      · simp [finalize_eq]

/-! ## Output files and runner creators -/

theorem removedOutputs_append (l₁ l₂ : List Event) :
    removedOutputs (l₁ ++ l₂) = removedOutputs l₁ ++ removedOutputs l₂ := by
  simp [removedOutputs, List.filterMap_append]

theorem removedOutputs_stopEvents (l : List ClangToolRunner) :
    removedOutputs (stopEvents l) = [] := by
  induction l with
  | nil => simp [stopEvents, removedOutputs]
  | cons r l ih =>
    simp only [stopEvents, List.flatMap_cons] at ih ⊢
    rw [removedOutputs_append, ih]
    simp [removedOutputs]

theorem removedOutputs_finalizeEvents (env : Env) (s : ClangToolRunWorker) :
    removedOutputs (finalizeEvents env s) = [] := by
  unfold finalizeEvents
  by_cases h1 : s.m_filesNotAnalyzed.card = 0
  · simp [h1, removedOutputs]
  · by_cases h2 : (env.hasTarget && !env.buildDirectoryExists &&
        !s.m_runSettings.buildBeforeAnalysis) = true <;> simp [h1, h2, removedOutputs]

theorem analyzeNextFile_removedOutputs (env : Env) (s : ClangToolRunWorker) :
    removedOutputs (analyzeNextFile env s).log = removedOutputs s.log := by
  apply analyzeNextFile_cases env s
    (fun t => removedOutputs t.log = removedOutputs s.log)
  · intro _; rfl
  · intro _ _ _
    simp only [finalize_eq, removedOutputs_append, removedOutputs_finalizeEvents,
      List.append_nil]
  · intro _ _ _; rfl
  · intro item rest _ _ _
    simp only [stop_eq, rejected, dispatched, removedOutputs_append,
      removedOutputs_stopEvents]
    simp [removedOutputs]
  · intro item rest _ _ _
    simp only [launched, dispatched, removedOutputs_append]
    by_cases hr : env.run s.nextRunner = true <;> simp [removedOutputs, hr]

/-- C25. Each of the two completion handlers deletes the output file of the runner whose
signal it handles exactly once, in every outcome: `onRunnerFinishedWithSuccess` whether
reading the output gave an error message or not, and `onRunnerFinishedWithFailure`. The
deletions recorded after the handler are those recorded before it followed by one deletion
for `sender`. -/
theorem completion_removes_output_once (env : Env) (sender : ClangToolRunner)
    (filePath : String) (diagnostics : Diagnostics) (errorMessage : String)
    (errorDetails : String) (s : ClangToolRunWorker) :
    removedOutputs
        (onRunnerFinishedWithSuccess env sender filePath diagnostics errorMessage s).log
      = removedOutputs s.log ++ [sender.id] ∧
    removedOutputs
        (onRunnerFinishedWithFailure env sender errorMessage errorDetails s).log
      = removedOutputs s.log ++ [sender.id] ∧
    ((removedOutputs
        (onRunnerFinishedWithSuccess env sender filePath diagnostics errorMessage s).log).count
        sender.id = (removedOutputs s.log).count sender.id + 1) ∧
    ((removedOutputs
        (onRunnerFinishedWithFailure env sender errorMessage errorDetails s).log).count
        sender.id = (removedOutputs s.log).count sender.id + 1) := by
  have h1 : removedOutputs
        (onRunnerFinishedWithSuccess env sender filePath diagnostics errorMessage s).log
      = removedOutputs s.log ++ [sender.id] := by
    rw [onRunnerFinishedWithSuccess_eq, analyzeNextFile_removedOutputs]
    by_cases he : errorMessage = "" <;> by_cases hd : diagnostics = [] <;>
      simp [successRecorded, removedOutputs_append, removedOutputs, he, hd]
  have h2 : removedOutputs
        (onRunnerFinishedWithFailure env sender errorMessage errorDetails s).log
      = removedOutputs s.log ++ [sender.id] := by
    rw [onRunnerFinishedWithFailure_eq, analyzeNextFile_removedOutputs]
    simp [failureRecorded, removedOutputs_append, removedOutputs]
  refine ⟨h1, h2, ?_, ?_⟩
  · rw [h1]; simp
  · rw [h2]; simp

theorem runnerCreators_eq (env : Env) (s : ClangToolRunWorker) :
    runnerCreators env s = applicableFactories s.m_diagnosticConfig env.clazyStandalonePath := by
  unfold runnerCreators applicableFactories
  by_cases h1 : s.m_diagnosticConfig.clangTidyMode = TidyMode.Disabled <;>
    by_cases h2 : s.m_diagnosticConfig.clazyChecks = "" <;>
    by_cases h3 : env.clazyStandalonePath = "" <;> simp [h1, h2, h3]

/-- C26. The list `runnerCreators` returns is a function of the diagnostic configuration
and of the value of `QTC_USE_CLAZY_STANDALONE_PATH` only. It holds the clang-tidy creator
exactly when the tidy mode is not `Disabled`; it holds exactly one clazy creator when the
clazy checks are non-empty and none when they are empty, the standalone one when the
variable is non-empty and the plugin one otherwise; the clang-tidy creator comes first;
the list has at most 2 entries and no entry twice. -/
theorem runnerCreators_of_configuration (env : Env) (s : ClangToolRunWorker) :
    runnerCreators env s
      = applicableFactories s.m_diagnosticConfig env.clazyStandalonePath ∧
    (∀ (env2 : Env) (s2 : ClangToolRunWorker),
      s2.m_diagnosticConfig = s.m_diagnosticConfig →
      env2.clazyStandalonePath = env.clazyStandalonePath →
      runnerCreators env2 s2 = runnerCreators env s) ∧
    (RunnerClass.ClangTidyRunner ∈ runnerCreators env s ↔
      s.m_diagnosticConfig.clangTidyMode ≠ TidyMode.Disabled) ∧
    (RunnerClass.ClazyStandaloneRunner ∈ runnerCreators env s ↔
      (s.m_diagnosticConfig.clazyChecks ≠ "" ∧ env.clazyStandalonePath ≠ "")) ∧
    (RunnerClass.ClazyPluginRunner ∈ runnerCreators env s ↔
      (s.m_diagnosticConfig.clazyChecks ≠ "" ∧ env.clazyStandalonePath = "")) ∧
    ((runnerCreators env s).countP (fun c => decide (c ≠ RunnerClass.ClangTidyRunner))
      = if s.m_diagnosticConfig.clazyChecks ≠ "" then 1 else 0) ∧
    (runnerCreators env s).Nodup ∧
    (runnerCreators env s).length ≤ 2 ∧
    (∀ c ∈ runnerCreators env s, c ≠ RunnerClass.ClangTidyRunner →
      RunnerClass.ClangTidyRunner ∈ runnerCreators env s →
      (runnerCreators env s).head? = some RunnerClass.ClangTidyRunner ∧
      (runnerCreators env s).getLast? = some c) := by
  refine ⟨runnerCreators_eq env s, ?_, ?_⟩
  · intro env2 s2 h1 h2
    rw [runnerCreators_eq, runnerCreators_eq, h1, h2]
  · rw [runnerCreators_eq]
    unfold applicableFactories
    by_cases h1 : s.m_diagnosticConfig.clangTidyMode = TidyMode.Disabled <;>
      by_cases h2 : s.m_diagnosticConfig.clazyChecks = "" <;>
      by_cases h3 : env.clazyStandalonePath = "" <;> simp [h1, h2, h3]

/-! ## Conservation of work -/

theorem QSet.length_insert_of_not_mem {α : Type} [DecidableEq α] (a : α) (l : List α)
    (h : a ∉ l) : (QSet.insert a l).length = l.length + 1 := by
  simp [QSet.insert, h]

theorem conserved_analyzeNextFile {env : Env} (hexec : ∀ i, env.isFileExecutable i = true)
    (done : Nat) (s : ClangToolRunWorker) (h : Conserved done s) :
    Conserved done (analyzeNextFile env s) := by
  apply analyzeNextFile_cases env s (fun t => Conserved done t)
  · intro _; exact h
  · intro _ _ _
    rw [finalize_eq]
    exact h
  · intro _ _ _; exact h
  · intro item rest _ _ he
    rw [hexec] at he
    cases he
  · intro item rest _ hq _
    obtain ⟨h1, h2⟩ := h
    have hnew : (⟨s.nextRunner, item.runnerCreator, item.unit.file, env.run s.nextRunner⟩ :
        ClangToolRunner) ∉ s.m_runners := by
      intro hm
      have := h1 _ hm
      simp at this
    refine ⟨?_, ?_⟩
    · intro r hr
      simp only [launched, dispatched, QSet.mem_insert] at hr ⊢
      rcases hr with hr | hr
      · rw [hr]; simp
      · exact Nat.lt_succ_of_lt (h1 r hr)
    · simp only [launched, dispatched]
      rw [QSet.length_insert_of_not_mem _ _ hnew]
      rw [hq] at h2
      simp only [List.length_cons] at h2
      push_cast at h2 ⊢
      omega

theorem conserved_start {env : Env} (hexec : ∀ i, env.isFileExecutable i = true)
    (units : AnalyzeUnits) (rs : RunSettings) (dc : ClangDiagnosticConfig)
    (preventBuild : Bool) :
    ∀ (fuel : Nat) (s : ClangToolRunWorker),
      start fuel env units (create rs dc preventBuild) = some s → Conserved 0 s := by
  apply start_invariant env units (create rs dc preventBuild) (fun t => Conserved 0 t)
  · intro evs pf _
    simp [Conserved, create]
  · intro _
    simp [Conserved, emit, startPrepared, create]
  · intro _ hq
    rw [finalize_eq]
    simp [Conserved, startPrepared, create]
  · intro _ _
    simp [Conserved, emit, startPrepared, create]
  · intro s hs _ _
    exact conserved_analyzeNextFile hexec 0 s hs

theorem conserved_step {env : Env} (hexec : ∀ i, env.isFileExecutable i = true)
    {done : Nat} {s t : ClangToolRunWorker} {op : Op} (h : Conserved done s)
    (hop : op ≠ Op.stop) (hst : step env s op = some t) :
    Conserved (done + (if op.isCompletion = true then 1 else 0)) t := by
  by_cases hc : op.isCompletion = true
  · obtain ⟨sender, u, hmem, -, -, ht, hq, hn, -, hi, hr, -⟩ := step_completion hc hst
    rw [ht, if_pos hc]
    apply conserved_analyzeNextFile hexec
    obtain ⟨h1, h2⟩ := h
    refine ⟨?_, ?_⟩
    · intro r hrm
      rw [hr] at hrm
      rw [hn]
      exact h1 r (List.mem_of_mem_erase hrm)
    · rw [hr, hq, hi]
      have hlen : (QSet.remove sender s.m_runners).length = s.m_runners.length - 1 := by
        simp [QSet.remove, List.length_erase_of_mem hmem]
      have hpos : 0 < s.m_runners.length := List.length_pos_of_mem hmem
      rw [hlen]
      push_cast
      omega
  · rw [if_neg hc, Nat.add_zero]
    cases op with
    | finishedWithSuccess id d e => simp [Op.isCompletion, Op.runner] at hc
    | finishedWithFailure id m d => simp [Op.isCompletion, Op.runner] at hc
    | stop => exact absurd rfl hop
    | progressCanceled =>
      simp only [step, Option.some.injEq] at hst
      rw [← hst, onProgressCanceled_eq]
      exact h

theorem conserved_runOps {env : Env} (hexec : ∀ i, env.isFileExecutable i = true) :
    ∀ (ops : List Op) (done : Nat) (s t : ClangToolRunWorker), Conserved done s →
      Op.stop ∉ ops → runOps env s ops = some t →
      Conserved (done + ops.countP Op.isCompletion) t := by
  intro ops
  induction ops with
  | nil =>
    intro done s t h _ hrun
    simp only [runOps, Option.some.injEq] at hrun
    subst hrun
    simpa using h
  | cons op ops ih =>
    intro done s t h hstop hrun
    simp only [runOps] at hrun
    cases hst : step env s op with
    | none => rw [hst] at hrun; simp at hrun
    | some u =>
      rw [hst] at hrun
      simp only [Option.some_bind] at hrun
      have hop : op ≠ Op.stop := fun he => hstop (by rw [he]; exact List.mem_cons_self _ _)
      have hrest : Op.stop ∉ ops := fun hm => hstop (List.mem_cons_of_mem _ hm)
      have := ih _ u t (conserved_step hexec h hop hst) hrest hrun
      have hcount : done + (op :: ops).countP Op.isCompletion
          = done + (if op.isCompletion = true then 1 else 0) + ops.countP Op.isCompletion := by
        by_cases hc : op.isCompletion = true
        · simp [List.countP_cons, hc]; omega
        · simp [List.countP_cons, hc]
      rw [hcount]
      exact this

/-- C27. Conservation of work. Let a batch be started on a new worker and let the
operations `ops`, none of them `stop`, follow, in an environment in which every executable
is valid. Then the number of completions handled, the number of runners in `m_runners` and
the length of `m_queue` add up to `m_initialQueueSize`. (This holds whatever `run`
returns, in particular when it always returns true, and for every value of the bound.) -/
theorem work_is_conserved (env : Env) (hexec : ∀ i, env.isFileExecutable i = true)
    (units : AnalyzeUnits) (rs : RunSettings) (dc : ClangDiagnosticConfig)
    (preventBuild : Bool) (fuel : Nat) (s0 : ClangToolRunWorker)
    (hstart : start fuel env units (create rs dc preventBuild) = some s0)
    (ops : List Op) (hstop : Op.stop ∉ ops) (s : ClangToolRunWorker)
    (hrun : runOps env s0 ops = some s) :
    ((ops.countP Op.isCompletion : Nat) : Int) + s.m_runners.length + s.m_queue.length
      = s.m_initialQueueSize := by
  have h := conserved_runOps hexec ops 0 s0 s
    (conserved_start hexec units rs dc preventBuild fuel s0 hstart) hstop hrun
  simpa using h.2

/-! ## Termination of the fill loop -/

theorem startLoop_terminates (env : Env) (b : Int) :
    ∀ (fuel : Nat) (s : ClangToolRunWorker), s.m_progress.finished = false →
      (∀ r ∈ s.m_runners, r.id < s.nextRunner) →
      ((s.m_queue.length : Int) ≤ fuel ∨ b - s.m_runners.length ≤ fuel) →
      ∃ t, startLoop env b fuel s = some t := by
  intro fuel
  induction fuel with
  | zero =>
    intro s _ _ hfuel
    refine ⟨s, ?_⟩
    simp only [startLoop]
    rw [if_neg]
    rintro ⟨h1, h2⟩
    rcases hfuel with h | h
    · have : s.m_queue.length = 0 := by exact_mod_cast le_antisymm h (by positivity)
      exact h2 (List.length_eq_zero.mp this)
    · simp at h
      omega
  | succ fuel ih =>
    intro s hf hfresh hfuel
    simp only [startLoop]
    by_cases hc : (s.m_runners.length : Int) < b ∧ s.m_queue ≠ []
    · rw [if_pos hc]
      obtain ⟨hlt, hne⟩ := hc
      obtain ⟨item, rest, hq⟩ := List.exists_cons_of_ne_nil hne
      cases he : env.isFileExecutable s.nextRunner with
      | false =>
        rw [analyzeNextFile_eq_rejected hf hq he]
        exact ⟨_, startLoop_of_queue_nil env b fuel _ (by simp [stop_eq])⟩
      | true =>
        rw [analyzeNextFile_eq_launched hf hq he]
        have hnew : (⟨s.nextRunner, item.runnerCreator, item.unit.file,
            env.run s.nextRunner⟩ : ClangToolRunner) ∉ s.m_runners := by
          intro hm
          have := hfresh _ hm
          simp at this
        apply ih
        · simp [launched, dispatched, hf]
        · intro r hr
          simp only [launched, dispatched, QSet.mem_insert] at hr ⊢
          rcases hr with hr | hr
          · rw [hr]; simp
          · exact Nat.lt_succ_of_lt (hfresh r hr)
        · simp only [launched, dispatched]
          rw [QSet.length_insert_of_not_mem _ _ hnew]
          rw [hq] at hfuel
          simp only [List.length_cons] at hfuel
          push_cast at hfuel ⊢
          rcases hfuel with h | h
          · left; omega
          · right; omega
    · rw [if_neg hc]
      exact ⟨s, rfl⟩

theorem start_terminates (env : Env) (units : AnalyzeUnits) (w0 : ClangToolRunWorker)
    (fuel : Nat)
    (hfuel : min ((buildQueue env w0 units).length : Int) w0.m_runSettings.parallelJobs
      ≤ fuel) :
    ∃ s, start fuel env units w0 = some s := by
  cases hw : startsAnalysis env w0 with
  | false =>
    obtain ⟨evs, pf, -, -, h⟩ := start_of_not_startsAnalysis fuel env units w0 hw
    exact ⟨_, h⟩
  | true =>
    rw [start_of_startsAnalysis fuel env units w0 hw]
    by_cases hb : w0.m_runSettings.parallelJobs ≥ 1
    · rw [if_neg (not_not.mpr hb)]
      by_cases hq : buildQueue env w0 units = []
      · rw [if_pos hq]
        exact ⟨_, rfl⟩
      · rw [if_neg hq]
        apply startLoop_terminates
        · simp [emit, startPrepared]
        · intro r hr
          simp [emit, startPrepared] at hr
        · simp only [emit, startPrepared, List.length_nil]
          rcases min_le_iff.mp hfuel with h | h
          · left; exact h
          · right; simpa using h
    · rw [if_pos hb]
      exact ⟨_, rfl⟩

/-- C30. The fill loop of `start` ends: for every environment, every list of units and every
worker, `start` returns when its loop is given `fuel` iterations with
`min(n, b) ≤ fuel`, where `n` is the length of the queue it builds and `b` the bound
`parallelJobs`, and the loop, entered in the state `start` enters it in, ends within
`fuel` calls of `analyzeNextFile` in a state in which its condition is false; so the loop
makes at most `min(n, b)` calls. Each
call made with unfinished progress and a non-empty queue takes the head from the queue and
adds one runner, or, when the executable is invalid, leaves the queue empty after one
`stop`. -/
theorem fill_loop_terminates (env : Env) (units : AnalyzeUnits) (w0 : ClangToolRunWorker)
    (fuel : Nat)
    (hfuel : min ((buildQueue env w0 units).length : Int) w0.m_runSettings.parallelJobs
      ≤ fuel) :
    (∃ s, start fuel env units w0 = some s) ∧
    (∃ t, startLoop env w0.m_runSettings.parallelJobs fuel (startReported env units w0)
        = some t ∧
      ¬ ((t.m_runners.length : Int) < w0.m_runSettings.parallelJobs ∧ t.m_queue ≠ [])) ∧
    (∀ (s : ClangToolRunWorker) (item : QueueItem) (rest : List QueueItem),
      s.m_progress.finished = false → s.m_queue = item :: rest →
      (env.isFileExecutable s.nextRunner = true →
        (analyzeNextFile env s).m_queue = rest ∧
        (analyzeNextFile env s).m_progress.finished = false ∧
        ((∀ r ∈ s.m_runners, r.id < s.nextRunner) →
          (analyzeNextFile env s).m_runners.length = s.m_runners.length + 1)) ∧
      (env.isFileExecutable s.nextRunner = false →
        (analyzeNextFile env s).m_queue = [] ∧
        stopCount (analyzeNextFile env s) = stopCount s + 1)) := by
  refine ⟨start_terminates env units w0 fuel hfuel, ?_, ?_⟩
  · have hex : ∃ t, startLoop env w0.m_runSettings.parallelJobs fuel
        (startReported env units w0) = some t := by
      apply startLoop_terminates
      · simp [startReported, emit, startPrepared]
      · intro r hr
        simp [startReported, emit, startPrepared] at hr
      · simp only [startReported, emit, startPrepared, List.length_nil]
        rcases min_le_iff.mp hfuel with h | h
        · left; exact h
        · right; simpa using h
    obtain ⟨t, ht⟩ := hex
    exact ⟨t, ht, (startLoop_invariant env w0.m_runSettings.parallelJobs (fun _ => True)
      (fun _ _ _ _ => trivial) fuel _ t trivial ht).2⟩
  · intro s item rest hf hq
    refine ⟨fun he => ?_, fun he => ?_⟩
    · rw [analyzeNextFile_eq_launched hf hq he]
      refine ⟨by simp [launched, dispatched], by simp [launched, dispatched, hf], ?_⟩
      intro hfresh
      have hnew : (⟨s.nextRunner, item.runnerCreator, item.unit.file,
          env.run s.nextRunner⟩ : ClangToolRunner) ∉ s.m_runners := by
        intro hm
        have := hfresh _ hm
        simp at this
      simp only [launched, dispatched]
      exact QSet.length_insert_of_not_mem _ _ hnew
    · rw [analyzeNextFile_eq_rejected hf hq he]
      refine ⟨by simp [stop_eq], ?_⟩
      simp [stopCount, stop_eq, rejected, dispatched, List.countP_append,
        countP_stopped_stopEvents, isReportStopped, List.countP_cons]

/-! ## A runner whose `run` returned false -/

theorem stuck_analyzeNextFile (env : Env) (r0 : ClangToolRunner) (c k : Nat)
    (u : ClangToolRunWorker) (h : Stuck r0 c k u) : Stuck r0 c k (analyzeNextFile env u) := by
  obtain ⟨h1, h2, h3, h4, h5, h6⟩ := h
  apply analyzeNextFile_cases env u (fun t => Stuck r0 c k t)
  · intro _; exact ⟨h1, h2, h3, h4, h5, h6⟩
  · intro hf _ hr
    rcases h3 with h3 | ⟨h3, -⟩
    · rw [hr] at h3; cases h3
    · rw [hf] at h3; cases h3
  · intro _ _ _; exact ⟨h1, h2, h3, h4, h5, h6⟩
  · intro item rest _ _ _
    have hsc : stopCount (stop (rejected item rest u)) = stopCount u + 1 := by
      simp [stopCount, stop_eq, rejected, dispatched, List.countP_append,
        countP_stopped_stopEvents, isReportStopped, List.countP_cons]
    have hfc : finalizeCount (stop (rejected item rest u)) = finalizeCount u := by
      simp [finalizeCount, stop_eq, rejected, dispatched, List.countP_append,
        countP_summary_stopEvents, isFinalizeSummary, List.countP_cons]
    refine ⟨by rw [hfc, h1], by rw [hsc]; omega, Or.inr ⟨by simp [stop_eq], by rw [hsc]; omega⟩,
      ?_, ?_, ?_⟩
    · intro r hr
      simp [stop_eq] at hr
    · simp only [stop_eq, rejected, dispatched]
      omega
    · intro r hr
      simp [stop_eq] at hr
  · intro item rest _ _ _
    have hsc : stopCount (launched env item rest u) = stopCount u := by
      by_cases hr : env.run u.nextRunner = true <;>
        simp [stopCount, launched, dispatched, List.countP_append, List.countP_cons,
          isReportStopped, hr]
    have hfc : finalizeCount (launched env item rest u) = finalizeCount u := by
      by_cases hr : env.run u.nextRunner = true <;>
        simp [finalizeCount, launched, dispatched, List.countP_append, List.countP_cons,
          isFinalizeSummary, hr]
    refine ⟨by rw [hfc, h1], by rw [hsc]; exact h2, ?_, ?_, ?_, ?_⟩
    · rcases h3 with h3 | ⟨h3, h3b⟩
      · left
        simp only [launched, dispatched, QSet.mem_insert]
        exact Or.inr h3
      · right
        exact ⟨by simpa [launched, dispatched] using h3, by rw [hsc]; exact h3b⟩
    · intro r hr
      simp only [launched, dispatched, QSet.mem_insert] at hr ⊢
      rcases hr with hr | hr
      · rw [hr]; simp
      · exact Nat.lt_succ_of_lt (h4 r hr)
    · simp only [launched, dispatched]
      omega
    · intro r hr hid
      simp only [launched, dispatched, QSet.mem_insert] at hr
      rcases hr with hr | hr
      · rw [hr] at hid
        simp only at hid
        omega
      · exact h6 r hr hid

theorem stuck_step {env : Env} {r0 : ClangToolRunner} {c k : Nat} {s t : ClangToolRunWorker}
    {op : Op} (h : Stuck r0 c k s) (hst : step env s op = some t) :
    Stuck r0 c k t ∧ op.runner ≠ some r0.id := by
  by_cases hc : op.isCompletion = true
  · obtain ⟨sender, u, hmem, hstarted, hopr, ht, -, hn, hp, -, hr, -, -, hsc, hfc, -⟩ :=
      step_completion hc hst
    obtain ⟨h1, h2, h3, h4, h5, h6⟩ := h
    have hid : sender.id ≠ r0.id := by
      intro hid
      have := h6 sender hmem hid
      rw [hstarted] at this
      cases this
    refine ⟨?_, ?_⟩
    · rw [ht]
      apply stuck_analyzeNextFile
      refine ⟨by rw [hfc, h1], by rw [hsc]; exact h2, ?_, ?_, by rw [hn]; exact h5, ?_⟩
      · rcases h3 with h3 | ⟨h3, h3b⟩
        · left
          rw [hr]
          have hne : r0 ≠ sender := fun he => hid (by rw [he])
          exact (List.mem_erase_of_ne hne).mpr h3
        · right
          exact ⟨by rw [hp]; exact h3, by rw [hsc]; exact h3b⟩
      · intro r hrm
        rw [hr] at hrm
        rw [hn]
        exact h4 r (List.mem_of_mem_erase hrm)
      · intro r hrm
        rw [hr] at hrm
        exact h6 r (List.mem_of_mem_erase hrm)
    · rw [hopr]
      intro he
      exact hid (Option.some.inj he)
  · obtain ⟨h1, h2, h3, h4, h5, h6⟩ := h
    cases op with
    | finishedWithSuccess id d e => simp [Op.isCompletion, Op.runner] at hc
    | finishedWithFailure id m d => simp [Op.isCompletion, Op.runner] at hc
    | stop =>
      simp only [step, Option.some.injEq] at hst
      subst hst
      have hsc : stopCount (stop s) = stopCount s + 1 := by
        simp [stopCount, stop_eq, List.countP_append, countP_stopped_stopEvents,
          isReportStopped, List.countP_cons]
      have hfc : finalizeCount (stop s) = finalizeCount s := by
        simp [finalizeCount, stop_eq, List.countP_append, countP_summary_stopEvents,
          isFinalizeSummary, List.countP_cons]
      refine ⟨⟨by rw [hfc, h1], by rw [hsc]; omega,
        Or.inr ⟨by simp [stop_eq], by rw [hsc]; omega⟩, ?_, by simpa [stop_eq] using h5, ?_⟩,
        by simp [Op.runner]⟩
      · intro r hr
        simp [stop_eq] at hr
      · intro r hr
        simp [stop_eq] at hr
    | progressCanceled =>
      simp only [step, Option.some.injEq] at hst
      subst hst
      have hsc : stopCount (onProgressCanceled s) = stopCount s := by
        simp [stopCount, onProgressCanceled_eq, List.countP_append, List.countP_cons,
          isReportStopped]
      have hfc : finalizeCount (onProgressCanceled s) = finalizeCount s := by
        simp [finalizeCount, onProgressCanceled_eq, List.countP_append, List.countP_cons,
          isFinalizeSummary]
      refine ⟨⟨by rw [hfc, h1], by rw [hsc]; exact h2, ?_, ?_, ?_, ?_⟩, by simp [Op.runner]⟩
      · rcases h3 with h3 | ⟨h3, h3b⟩
        · left; simpa [onProgressCanceled_eq] using h3
        · right
          exact ⟨by simpa [onProgressCanceled_eq] using h3, by rw [hsc]; exact h3b⟩
      · simpa [onProgressCanceled_eq] using h4
      · simpa [onProgressCanceled_eq] using h5
      · simpa [onProgressCanceled_eq] using h6

theorem stuck_runOps {env : Env} {r0 : ClangToolRunner} {c k : Nat} :
    ∀ (ops : List Op) (s t : ClangToolRunWorker), Stuck r0 c k s →
      runOps env s ops = some t →
      Stuck r0 c k t ∧ ∀ op ∈ ops, op.runner ≠ some r0.id := by
  intro ops
  induction ops with
  | nil =>
    intro s t h hrun
    simp only [runOps, Option.some.injEq] at hrun
    subst hrun
    exact ⟨h, fun op hop => by cases hop⟩
  | cons op ops ih =>
    intro s t h hrun
    simp only [runOps] at hrun
    cases hst : step env s op with
    | none => rw [hst] at hrun; simp at hrun
    | some u =>
      rw [hst] at hrun
      simp only [Option.some_bind] at hrun
      obtain ⟨hu, hop⟩ := stuck_step h hst
      obtain ⟨ht, hops⟩ := ih u t hu hrun
      refine ⟨ht, fun op2 hop2 => ?_⟩
      rcases List.mem_cons.mp hop2 with he | hm
      · rw [he]; exact hop
      · exact hops op2 hm

/-- C29. Let `analyzeNextFile` dispatch the queue item `item` (progress unfinished,
executable valid) and let `run` return false for the runner it creates. Then the item is
off the queue, the runner is in `m_runners` with no process started, and nothing was recorded:
the two result sets, the success flag and the numbers of failure reports, of executions of
`stop` and of `finalize` are as before. Whatever operations follow, the runner never signals
a completion, `finalize` is never run, and the runner stays in `m_runners`, which therefore
does not become empty, for as long as `stop` is not run. -/
theorem unstarted_runner_blocks_finalize (env : Env) (s : ClangToolRunWorker)
    (item : QueueItem) (rest : List QueueItem) (hf : s.m_progress.finished = false)
    (hq : s.m_queue = item :: rest) (hfresh : ∀ r ∈ s.m_runners, r.id < s.nextRunner)
    (he : env.isFileExecutable s.nextRunner = true) (hr : env.run s.nextRunner = false) :
    (analyzeNextFile env s).m_queue = rest ∧
    ClangToolRunner.mk s.nextRunner item.runnerCreator item.unit.file false
      ∈ (analyzeNextFile env s).m_runners ∧
    activeRunner (analyzeNextFile env s) s.nextRunner = none ∧
    (analyzeNextFile env s).m_filesAnalyzed = s.m_filesAnalyzed ∧
    (analyzeNextFile env s).m_filesNotAnalyzed = s.m_filesNotAnalyzed ∧
    (analyzeNextFile env s).m_success = s.m_success ∧
    (analyzeNextFile env s).m_progress = s.m_progress ∧
    failureReports (analyzeNextFile env s) = failureReports s ∧
    stopCount (analyzeNextFile env s) = stopCount s ∧
    finalizeCount (analyzeNextFile env s) = finalizeCount s ∧
    (∀ (ops : List Op) (u : ClangToolRunWorker),
      runOps env (analyzeNextFile env s) ops = some u →
      (∀ op ∈ ops, op.runner ≠ some s.nextRunner) ∧
      finalizeCount u = finalizeCount s ∧
      (ClangToolRunner.mk s.nextRunner item.runnerCreator item.unit.file false ∈ u.m_runners ∨
        (u.m_progress.finished = true ∧ stopCount s < stopCount u)) ∧
      (stopCount u = stopCount s →
        ClangToolRunner.mk s.nextRunner item.runnerCreator item.unit.file false ∈ u.m_runners ∧
        u.m_runners ≠ [])) := by
  have hl := @analyzeNextFile_eq_launched env s item rest hf hq he
  have hsc : stopCount (launched env item rest s) = stopCount s := by
    simp [stopCount, launched, dispatched, List.countP_append, List.countP_cons,
      isReportStopped, hr]
  have hfc : finalizeCount (launched env item rest s) = finalizeCount s := by
    simp [finalizeCount, launched, dispatched, List.countP_append, List.countP_cons,
      isFinalizeSummary, hr]
  have hfr : failureReports (launched env item rest s) = failureReports s := by
    simp [failureReports, launched, dispatched, List.countP_append, List.countP_cons,
      isReportFailure, hr]
  have hmem : ClangToolRunner.mk s.nextRunner item.runnerCreator item.unit.file false
      ∈ (launched env item rest s).m_runners := by
    have hrs : (launched env item rest s).m_runners =
        QSet.insert (ClangToolRunner.mk s.nextRunner item.runnerCreator item.unit.file false)
          s.m_runners := by
      simp [launched, dispatched, hr]
    rw [hrs]
    exact (QSet.mem_insert _ _ _).mpr (Or.inl rfl)
  have hstuck : Stuck (ClangToolRunner.mk s.nextRunner item.runnerCreator item.unit.file false)
      (finalizeCount s) (stopCount s) (launched env item rest s) := by
    refine ⟨hfc, by rw [hsc], Or.inl hmem, ?_, ?_, ?_⟩
    · intro r hrm
      simp only [launched, dispatched, QSet.mem_insert] at hrm ⊢
      rcases hrm with hrm | hrm
      · rw [hrm]; simp
      · exact Nat.lt_succ_of_lt (hfresh r hrm)
    · simp [launched, dispatched]
    · intro r hrm hid
      simp only [launched, dispatched, QSet.mem_insert] at hrm
      rcases hrm with hrm | hrm
      · rw [hrm, hr]
      · have := hfresh r hrm
        simp only at hid
        omega
  rw [hl]
  refine ⟨by simp [launched, dispatched], hmem, ?_, by simp [launched, dispatched],
    by simp [launched, dispatched], by simp [launched, dispatched],
    by simp [launched, dispatched], hfr, hsc, hfc, ?_⟩
  · unfold activeRunner
    rw [List.find?_eq_none]
    intro r hrm hp
    simp only [Bool.and_eq_true, beq_iff_eq] at hp
    have := hstuck.2.2.2.2.2 r hrm hp.1
    rw [hp.2] at this
    cases this
  · intro ops u hrun
    obtain ⟨⟨u1, u2, u3, -, -, -⟩, hops⟩ := stuck_runOps ops _ u hstuck hrun
    refine ⟨hops, u1, u3, fun hsame => ?_⟩
    rcases u3 with u3 | ⟨-, u3⟩
    · exact ⟨u3, List.ne_nil_of_mem u3⟩
    · omega

/-! ## The progress values of a batch without failures -/

theorem start_filled {env : Env} (hexec : ∀ i, env.isFileExecutable i = true)
    (hrun : ∀ i, env.run i = true) (units : AnalyzeUnits) (rs : RunSettings)
    (dc : ClangDiagnosticConfig) (preventBuild : Bool)
    (hw : startsAnalysis env (create rs dc preventBuild) = true) (hb : 1 ≤ rs.parallelJobs)
    (hq : buildQueue env (create rs dc preventBuild) units ≠ []) (fuel : Nat)
    (s : ClangToolRunWorker)
    (hstart : start fuel env units (create rs dc preventBuild) = some s) :
    Paced (buildQueue env (create rs dc preventBuild) units) rs.parallelJobs 0 s := by
  rw [start_eq_startLoop fuel env units _ hw hb hq] at hstart
  have hinit : Filling (buildQueue env (create rs dc preventBuild) units) rs.parallelJobs
        (startReported env units (create rs dc preventBuild)) ∧
      progressValues (startReported env units (create rs dc preventBuild)).log = [] := by
    refine ⟨⟨?_, ?_, ?_, ?_⟩, ?_⟩
    · simp [Normal, startReported, emit, startPrepared, create, createdClasses, runUnits]
    · simp [startReported, emit, startPrepared]
    · simp [startReported, emit, startPrepared, create]
    · simp [startReported, emit, startPrepared]
      omega
    · simp [startReported, emit, startPrepared, create, progressValues]
  obtain ⟨⟨⟨hn, hf, hids, hle⟩, hpv⟩, hexit⟩ := startLoop_invariant env
    (create rs dc preventBuild).m_runSettings.parallelJobs
    (fun t => Filling (buildQueue env (create rs dc preventBuild) units) rs.parallelJobs t ∧
      progressValues t.log = [])
    (by
      intro t ⟨ht, hp⟩ hlt hne
      obtain ⟨item, rest, hqt⟩ := List.exists_cons_of_ne_nil hne
      rw [← (analyzeNextFile_progress env t).1] at hp
      refine ⟨?_, hp⟩
      rw [analyzeNextFile_eq_launched ht.2.1 hqt (hexec _)]
      exact (filling_launched hexec hrun ht hqt hlt).1)
    fuel _ s hinit hstart
  have hlen : s.m_runners.length = s.nextRunner := by
    have := congrArg List.length hids
    simpa using this
  refine ⟨hn, ?_, by rw [hpv]; simp [pacedValues]⟩
  obtain ⟨h1, h2, -⟩ := hn
  have hqlen : s.m_queue.length =
      (buildQueue env (create rs dc preventBuild) units).length - s.nextRunner := by
    rw [h2, List.length_drop]
  have hexit2 : ¬ ((s.nextRunner : Int) < rs.parallelJobs ∧ s.m_queue ≠ []) := by
    rw [← hlen]
    exact hexit
  rw [hlen] at hle
  simp only [Nat.cast_zero, add_zero]
  by_cases hlt : (s.nextRunner : Int) < rs.parallelJobs
  · have hqe : s.m_queue = [] := by
      by_contra hne
      exact hexit2 ⟨hlt, hne⟩
    rw [hqe] at hqlen
    simp at hqlen
    rw [min_def]
    split <;> omega
  · rw [min_def]
    split <;> omega

theorem pacedValues_succ (n : Nat) (b : Int) (done : Nat) :
    pacedValues n b (done + 1) = pacedValues n b done ++ [min (n : Int) (b + done)] := by
  simp [pacedValues, List.range_succ]

theorem paced_step {env : Env} (hexec : ∀ i, env.isFileExecutable i = true)
    (hrun : ∀ i, env.run i = true) {queue : List QueueItem} {b : Int} {done : Nat}
    {s t : ClangToolRunWorker} {op : Op} (h : Paced queue b done s) (hop : op ≠ Op.stop)
    (hst : step env s op = some t) :
    Paced queue b (done + (if op.isCompletion = true then 1 else 0)) t := by
  obtain ⟨hn, hnext, hpv⟩ := h
  have hnt := normal_step hexec hrun hn hop hst
  by_cases hc : op.isCompletion = true
  · rw [if_pos hc]
    obtain ⟨sender, u, -, -, -, ht, -, -, -, -, -, -, -, -, -, -, hpu⟩ := step_completion hc hst
    have hnr := step_nextRunner hc hst
    obtain ⟨h1, h2, h3, -, h5, -⟩ := hn
    have hqlen : s.m_queue.length = queue.length - s.nextRunner := by
      rw [h2, List.length_drop]
    refine ⟨hnt, ?_, ?_⟩
    · rw [hnr]
      by_cases hcond : s.m_progress.finished = false ∧ s.m_queue ≠ []
      · rw [if_pos hcond]
        have hpos : 0 < s.m_queue.length := List.length_pos.mpr hcond.2
        push_cast
        rw [min_def] at hnext ⊢
        split at hnext <;> split <;> omega
      · rw [if_neg hcond]
        have hqe : s.m_queue = [] := by
          by_contra hne
          apply hcond
          refine ⟨?_, hne⟩
          by_contra hfin
          exact hne (h5 (by simpa using hfin)).1
        rw [hqe] at hqlen
        simp at hqlen
        push_cast
        rw [min_def] at hnext ⊢
        split at hnext <;> split <;> omega
    · rw [ht, (analyzeNextFile_progress env u).1, hpu, hpv, pacedValues_succ, h3, hqlen]
      congr 2
      rw [← hnext]
      push_cast [Nat.cast_sub h1]
      omega
  · rw [if_neg hc, Nat.add_zero]
    refine ⟨hnt, ?_, ?_⟩
    · cases op with
      | finishedWithSuccess id d e => simp [Op.isCompletion, Op.runner] at hc
      | finishedWithFailure id m d => simp [Op.isCompletion, Op.runner] at hc
      | stop => exact absurd rfl hop
      | progressCanceled =>
        simp only [step, Option.some.injEq] at hst
        rw [← hst, onProgressCanceled_eq]
        exact hnext
    · cases op with
      | finishedWithSuccess id d e => simp [Op.isCompletion, Op.runner] at hc
      | finishedWithFailure id m d => simp [Op.isCompletion, Op.runner] at hc
      | stop => exact absurd rfl hop
      | progressCanceled =>
        simp only [step, Option.some.injEq] at hst
        rw [← hst, onProgressCanceled_eq, ← hpv]
        simp [progressValues, List.filterMap_append]

theorem paced_runOps {env : Env} (hexec : ∀ i, env.isFileExecutable i = true)
    (hrun : ∀ i, env.run i = true) {queue : List QueueItem} {b : Int} :
    ∀ (ops : List Op) (done : Nat) (s t : ClangToolRunWorker), Paced queue b done s →
      Op.stop ∉ ops → runOps env s ops = some t →
      Paced queue b (done + ops.countP Op.isCompletion) t := by
  intro ops
  induction ops with
  | nil =>
    intro done s t h _ hro
    simp only [runOps, Option.some.injEq] at hro
    subst hro
    simpa using h
  | cons op ops ih =>
    intro done s t h hstop hro
    simp only [runOps] at hro
    cases hst : step env s op with
    | none => rw [hst] at hro; simp at hro
    | some u =>
      rw [hst] at hro
      simp only [Option.some_bind] at hro
      have hop : op ≠ Op.stop := fun he => hstop (by rw [he]; exact List.mem_cons_self _ _)
      have hrest : Op.stop ∉ ops := fun hm => hstop (List.mem_cons_of_mem _ hm)
      have := ih _ u t (paced_step hexec hrun h hop hst) hrest hro
      have hcount : done + (op :: ops).countP Op.isCompletion
          = done + (if op.isCompletion = true then 1 else 0) + ops.countP Op.isCompletion := by
        by_cases hc : op.isCompletion = true
        · simp [List.countP_cons, hc]; omega
        · simp [List.countP_cons, hc]
      rw [hcount]
      exact this

/-- C28. Let `start` get past its early exits with a queue of `n ≥ 1` items and
`parallelJobs = b ≥ 1`, every executable valid and every `run` true, and let operations
other than `stop` follow. No progress value is reported before the first completion, so
the value is the initial 0 until then. The handling of the `k`-th completion reports
`min(n, b + k - 1)`: the values reported after `c` completions are
`min(n, b), min(n, b + 1), ..., min(n, b + c - 1)`, and `c` is at most `n`. -/
theorem progress_values_of_batch (env : Env) (hexec : ∀ i, env.isFileExecutable i = true)
    (hrun : ∀ i, env.run i = true) (units : AnalyzeUnits) (rs : RunSettings)
    (dc : ClangDiagnosticConfig) (preventBuild : Bool)
    (hw : startsAnalysis env (create rs dc preventBuild) = true) (hb : 1 ≤ rs.parallelJobs)
    (hq : buildQueue env (create rs dc preventBuild) units ≠ []) (fuel : Nat)
    (s0 : ClangToolRunWorker)
    (hstart : start fuel env units (create rs dc preventBuild) = some s0)
    (ops : List Op) (hstop : Op.stop ∉ ops) (s : ClangToolRunWorker)
    (hops : runOps env s0 ops = some s) :
    progressValues s0.log = [] ∧ progressValue s0 = 0 ∧
    (ops.countP Op.isCompletion = 0 → progressValue s = 0) ∧
    progressValues s.log =
      (List.range (ops.countP Op.isCompletion)).map
        (fun (j : Nat) =>
          min ((buildQueue env (create rs dc preventBuild) units).length : Int)
            (rs.parallelJobs + (j : Int))) ∧
    (∀ k : Nat, 1 ≤ k → k ≤ ops.countP Op.isCompletion →
      (progressValues s.log)[k - 1]? =
        some (min ((buildQueue env (create rs dc preventBuild) units).length : Int)
          (rs.parallelJobs + k - 1))) ∧
    ops.countP Op.isCompletion ≤ (buildQueue env (create rs dc preventBuild) units).length := by
  have h0 := start_filled hexec hrun units rs dc preventBuild hw hb hq fuel s0 hstart
  have h := paced_runOps hexec hrun ops 0 s0 s h0 hstop hops
  rw [Nat.zero_add] at h
  have hv0 : progressValues s0.log = [] := by
    rw [h0.2.2]; simp [pacedValues]
  have hcons := conserved_runOps hexec ops 0 s0 s
    (conserved_start hexec units rs dc preventBuild fuel s0 hstart) hstop hops
  refine ⟨hv0, by simp [progressValue, hv0], ?_, h.2.2, ?_, ?_⟩
  · intro hc
    simp [progressValue, h.2.2, pacedValues, hc]
  · intro k hk1 hk2
    rw [h.2.2, pacedValues]
    rw [List.getElem?_map, List.getElem?_range (by omega)]
    simp only [Option.map_some']
    congr 2
    push_cast [Nat.cast_sub hk1]
    omega
  · have h2 := hcons.2
    rw [h.1.2.2.1, Nat.zero_add] at h2
    have : (0 : Int) ≤ (s.m_runners.length : Int) + s.m_queue.length := by positivity
    omega

/-! ## Instances of the results on terminal states, finalize and conservation -/

/-- Witness of C21 as amended: a second `stop` after a first one, three files, one tool. -/
theorem stop_when_terminal_witness :
    (stop (scenarioStarted scenarioEnv oneTool 2 scenarioUnits)).m_runners = [] ∧
    (stop (scenarioStarted scenarioEnv oneTool 2 scenarioUnits)).m_queue = [] ∧
    (stop (scenarioStarted scenarioEnv oneTool 2 scenarioUnits)).m_progress.finished = true ∧
    (stop (stop (scenarioStarted scenarioEnv oneTool 2 scenarioUnits))).m_progress =
      (stop (scenarioStarted scenarioEnv oneTool 2 scenarioUnits)).m_progress ∧
    finalizeCount (stop (stop (scenarioStarted scenarioEnv oneTool 2 scenarioUnits))) =
      finalizeCount (stop (scenarioStarted scenarioEnv oneTool 2 scenarioUnits)) ∧
    stopCount (stop (stop (scenarioStarted scenarioEnv oneTool 2 scenarioUnits))) =
      stopCount (stop (scenarioStarted scenarioEnv oneTool 2 scenarioUnits)) + 1 :=
  have h := stop_when_terminal (stop (scenarioStarted scenarioEnv oneTool 2 scenarioUnits))
    (by decide) (by decide) (by decide)
  ⟨by decide, by decide, by decide, h.2.2.2.1, h.2.2.2.2.2.2.2.2.1, h.2.2.2.2.2.2.2.2.2⟩

/-- Witness of C22: `analyzeNextFile` after `stop`, seven files, one tool. -/
theorem finished_is_absorbing_witness :
    (stop (scenarioStarted scenarioEnv oneTool 2 sevenUnits)).m_progress.finished = true ∧
    (analyzeNextFile scenarioEnv (stop (scenarioStarted scenarioEnv oneTool 2 sevenUnits))).nextRunner
      = (stop (scenarioStarted scenarioEnv oneTool 2 sevenUnits)).nextRunner ∧
    finalizeCount
        (analyzeNextFile scenarioEnv (stop (scenarioStarted scenarioEnv oneTool 2 sevenUnits)))
      = finalizeCount (stop (scenarioStarted scenarioEnv oneTool 2 sevenUnits)) :=
  have h := finished_is_absorbing scenarioEnv
    (stop (scenarioStarted scenarioEnv oneTool 2 sevenUnits)) (by decide)
  ⟨by decide, h.2.1, h.2.2.2.2.2⟩

/-- Witness of C23: three files, one tool, two parallel jobs; the third completion finds the
queue empty and no other runner. -/
theorem completion_finalizes_iff_drained_witness :
    Reachable scenarioEnv scenarioUnits (create (RunSettings.mk 2 false) oneTool false)
      (scenarioAfter scenarioEnv oneTool 2 scenarioUnits
        [Op.finishedWithSuccess 0 [] "", Op.finishedWithSuccess 1 [] ""]) ∧
    activeRunner (scenarioAfter scenarioEnv oneTool 2 scenarioUnits
        [Op.finishedWithSuccess 0 [] "", Op.finishedWithSuccess 1 [] ""]) 2 =
      some (ClangToolRunner.mk 2 RunnerClass.ClangTidyRunner "c.cpp" true) ∧
    (finalizeCount (scenarioAfter scenarioEnv oneTool 2 scenarioUnits
        [Op.finishedWithSuccess 0 [] "", Op.finishedWithSuccess 1 [] "",
          Op.finishedWithSuccess 2 [] ""]) =
      finalizeCount (scenarioAfter scenarioEnv oneTool 2 scenarioUnits
        [Op.finishedWithSuccess 0 [] "", Op.finishedWithSuccess 1 [] ""]) + 1 ↔
      (scenarioAfter scenarioEnv oneTool 2 scenarioUnits
        [Op.finishedWithSuccess 0 [] "", Op.finishedWithSuccess 1 [] ""]).m_queue = [] ∧
      QSet.remove (ClangToolRunner.mk 2 RunnerClass.ClangTidyRunner "c.cpp" true)
        (scenarioAfter scenarioEnv oneTool 2 scenarioUnits
          [Op.finishedWithSuccess 0 [] "", Op.finishedWithSuccess 1 [] ""]).m_runners = []) :=
  have hreach := reachable_scenarioAfter scenarioEnv oneTool 2 scenarioUnits
    [Op.finishedWithSuccess 0 [] "", Op.finishedWithSuccess 1 [] ""] (by decide) (by decide)
  have hsender : activeRunner (scenarioAfter scenarioEnv oneTool 2 scenarioUnits
        [Op.finishedWithSuccess 0 [] "", Op.finishedWithSuccess 1 [] ""]) 2 =
      some (ClangToolRunner.mk 2 RunnerClass.ClangTidyRunner "c.cpp" true) := by decide
  have hst : step scenarioEnv (scenarioAfter scenarioEnv oneTool 2 scenarioUnits
        [Op.finishedWithSuccess 0 [] "", Op.finishedWithSuccess 1 [] ""])
      (Op.finishedWithSuccess 2 [] "") =
      some (scenarioAfter scenarioEnv oneTool 2 scenarioUnits
        [Op.finishedWithSuccess 0 [] "", Op.finishedWithSuccess 1 [] "",
          Op.finishedWithSuccess 2 [] ""]) := by
    rfl
  ⟨hreach, hsender,
    (completion_finalizes_iff_drained scenarioEnv scenarioUnits (RunSettings.mk 2 false) oneTool
      false _ hreach (Op.finishedWithSuccess 2 [] "") 2 _ _ rfl hsender hst).1⟩

/-- Witness of C27: three files, two tools, two parallel jobs, after two completions: 2
handled, 2 running and 2 queued of 6. -/
theorem work_is_conserved_witness :
    (∀ i, scenarioEnv.isFileExecutable i = true) ∧
    Op.stop ∉ [Op.finishedWithFailure 1 "crashed" "", Op.finishedWithSuccess 0 [] ""] ∧
    (scenarioAfter scenarioEnv twoTools 2 scenarioUnits
      [Op.finishedWithFailure 1 "crashed" "", Op.finishedWithSuccess 0 [] ""]).m_initialQueueSize
      = 6 ∧
    ((List.countP Op.isCompletion
        [Op.finishedWithFailure 1 "crashed" "", Op.finishedWithSuccess 0 [] ""] : Nat) : Int)
      + (scenarioAfter scenarioEnv twoTools 2 scenarioUnits
          [Op.finishedWithFailure 1 "crashed" "", Op.finishedWithSuccess 0 [] ""]).m_runners.length
      + (scenarioAfter scenarioEnv twoTools 2 scenarioUnits
          [Op.finishedWithFailure 1 "crashed" "", Op.finishedWithSuccess 0 [] ""]).m_queue.length
      = (scenarioAfter scenarioEnv twoTools 2 scenarioUnits
          [Op.finishedWithFailure 1 "crashed" "",
            Op.finishedWithSuccess 0 [] ""]).m_initialQueueSize :=
  ⟨fun _ => rfl, by decide, by decide,
    work_is_conserved scenarioEnv (fun _ => rfl) scenarioUnits (RunSettings.mk 2 false) twoTools
      false 4 (scenarioStarted scenarioEnv twoTools 2 scenarioUnits)
      (eq_some_getD _ _ (by decide))
      [Op.finishedWithFailure 1 "crashed" "", Op.finishedWithSuccess 0 [] ""] (by decide)
      (scenarioAfter scenarioEnv twoTools 2 scenarioUnits
        [Op.finishedWithFailure 1 "crashed" "", Op.finishedWithSuccess 0 [] ""])
      (eq_some_getD _ _ (by decide))⟩

/-- Witness of C28: three files, one tool, two parallel jobs: the three completions report
`min(3, 2) = 2`, `min(3, 3) = 3` and `min(3, 4) = 3`. -/
theorem progress_values_of_batch_witness :
    startsAnalysis scenarioEnv (create (RunSettings.mk 2 false) oneTool false) = true ∧
    buildQueue scenarioEnv (create (RunSettings.mk 2 false) oneTool false) scenarioUnits ≠ [] ∧
    Op.stop ∉ [Op.finishedWithSuccess 1 [] "", Op.finishedWithSuccess 0 [] "",
      Op.finishedWithSuccess 2 [] ""] ∧
    progressValues (scenarioStarted scenarioEnv oneTool 2 scenarioUnits).log = [] ∧
    progressValues (scenarioAfter scenarioEnv oneTool 2 scenarioUnits
      [Op.finishedWithSuccess 1 [] "", Op.finishedWithSuccess 0 [] "",
        Op.finishedWithSuccess 2 [] ""]).log = [2, 3, 3] :=
  have h := progress_values_of_batch scenarioEnv (fun _ => rfl) (fun _ => rfl) scenarioUnits
    (RunSettings.mk 2 false) oneTool false (by decide) (by decide) (by decide) 4
    (scenarioStarted scenarioEnv oneTool 2 scenarioUnits) (eq_some_getD _ _ (by decide))
    [Op.finishedWithSuccess 1 [] "", Op.finishedWithSuccess 0 [] "",
      Op.finishedWithSuccess 2 [] ""] (by decide)
    (scenarioAfter scenarioEnv oneTool 2 scenarioUnits
      [Op.finishedWithSuccess 1 [] "", Op.finishedWithSuccess 0 [] "",
        Op.finishedWithSuccess 2 [] ""])
    (eq_some_getD _ _ (by decide))
  ⟨by decide, by decide, by decide, h.1, h.2.2.2.1.trans (by decide)⟩

/-- Witness of C29: three files, one tool; `run` returns false for the runner of `b.cpp`.
After the runners of `a.cpp` and `c.cpp` have completed, `finalize` has not run and the
runner of `b.cpp` is still in `m_runners`. -/
theorem unstarted_runner_blocks_finalize_witness :
    (analyzeNextFile scenarioEnvSecondRunFails
      (startReported scenarioEnvSecondRunFails scenarioUnits
        (scenarioWorker oneTool 2))).m_progress.finished = false ∧
    (analyzeNextFile scenarioEnvSecondRunFails
      (startReported scenarioEnvSecondRunFails scenarioUnits
        (scenarioWorker oneTool 2))).m_queue =
      QueueItem.mk (AnalyzeUnit.mk "b.cpp" ["-c"]) RunnerClass.ClangTidyRunner ::
        [QueueItem.mk (AnalyzeUnit.mk "c.cpp" ["-c"]) RunnerClass.ClangTidyRunner] ∧
    scenarioEnvSecondRunFails.run
      (analyzeNextFile scenarioEnvSecondRunFails
        (startReported scenarioEnvSecondRunFails scenarioUnits
          (scenarioWorker oneTool 2))).nextRunner = false ∧
    (runOps scenarioEnvSecondRunFails
      (analyzeNextFile scenarioEnvSecondRunFails
        (analyzeNextFile scenarioEnvSecondRunFails
          (startReported scenarioEnvSecondRunFails scenarioUnits (scenarioWorker oneTool 2))))
      [Op.finishedWithSuccess 0 [] "", Op.finishedWithSuccess 2 [] ""]).isSome = true ∧
    finalizeCount ((runOps scenarioEnvSecondRunFails
      (analyzeNextFile scenarioEnvSecondRunFails
        (analyzeNextFile scenarioEnvSecondRunFails
          (startReported scenarioEnvSecondRunFails scenarioUnits (scenarioWorker oneTool 2))))
      [Op.finishedWithSuccess 0 [] "", Op.finishedWithSuccess 2 [] ""]).getD
        (scenarioWorker oneTool 2)) =
      finalizeCount (analyzeNextFile scenarioEnvSecondRunFails
        (startReported scenarioEnvSecondRunFails scenarioUnits (scenarioWorker oneTool 2))) ∧
    ((runOps scenarioEnvSecondRunFails
      (analyzeNextFile scenarioEnvSecondRunFails
        (analyzeNextFile scenarioEnvSecondRunFails
          (startReported scenarioEnvSecondRunFails scenarioUnits (scenarioWorker oneTool 2))))
      [Op.finishedWithSuccess 0 [] "", Op.finishedWithSuccess 2 [] ""]).getD
        (scenarioWorker oneTool 2)).m_queue = [] :=
  have h := unstarted_runner_blocks_finalize scenarioEnvSecondRunFails
    (analyzeNextFile scenarioEnvSecondRunFails
      (startReported scenarioEnvSecondRunFails scenarioUnits (scenarioWorker oneTool 2)))
    (QueueItem.mk (AnalyzeUnit.mk "b.cpp" ["-c"]) RunnerClass.ClangTidyRunner)
    [QueueItem.mk (AnalyzeUnit.mk "c.cpp" ["-c"]) RunnerClass.ClangTidyRunner]
    (by decide) (by decide) (by decide) (by decide) (by decide)
  ⟨by decide, by decide, by decide, by decide,
    (h.2.2.2.2.2.2.2.2.2.2 _ _ (eq_some_getD _ (scenarioWorker oneTool 2) (by decide))).2.1,
    by decide⟩

/-- Witness of C30: three files, one tool, two parallel jobs: `start` returns with a loop
bound of 2 iterations. -/
theorem fill_loop_terminates_witness :
    min ((buildQueue scenarioEnv (scenarioWorker oneTool 2) scenarioUnits).length : Int)
      (scenarioWorker oneTool 2).m_runSettings.parallelJobs ≤ ((2 : Nat) : Int) ∧
    (start 2 scenarioEnv scenarioUnits (scenarioWorker oneTool 2)).isSome = true :=
  have h := fill_loop_terminates scenarioEnv scenarioUnits (scenarioWorker oneTool 2) 2
    (by decide)
  ⟨by decide, h.1.elim (fun s hs => by rw [hs]; rfl)⟩

end ClangToolRunWorker
end ClangTools
